import Mathlib

/-!
# Verification of the Research-Planner task codec and week store

A shallow embedding of the core logic of `src/App.tsx`: the markdown
task-line codec (`parseMeta` / `buildTaskLine` / `parseTasks`), the
identifier manager (`extractTaskId`, `ensureTaskIdOnLine`, migration),
the week-store mutations (`toggleTask`, `addTask`, `saveTaskMeta`,
`deleteTask`), the Monday-week resolution (`startOfWeekMonday`) and the
polling change watcher.

Strings are modelled as `List Char`; the JavaScript regular expressions
of the source are modelled by deterministic scanners that are argued (in
the doc comments) to coincide with the leftmost-match semantics of the
original patterns on all inputs.
-/

namespace Planner

abbrev Str := List Char

/-- Coerce a Lean string literal to the `List Char` model. -/
def str (s : String) : Str := s.data

/-- ECMAScript `\s` (WhiteSpace ∪ LineTerminator), the class used by the
source's regexes and by `String.prototype.trim`: space, tab, LF, CR, VT,
FF, NBSP, the Unicode space separators, the line/paragraph separators and
the BOM. -/
def jsWS (c : Char) : Bool :=
  c.toNat == 0x20 || c.toNat == 0x9 || c.toNat == 0xA || c.toNat == 0xD ||
  c.toNat == 0xB || c.toNat == 0xC || c.toNat == 0xA0 || c.toNat == 0x1680 ||
  (0x2000 ≤ c.toNat && c.toNat ≤ 0x200A) ||
  c.toNat == 0x2028 || c.toNat == 0x2029 || c.toNat == 0x202F ||
  c.toNat == 0x205F || c.toNat == 0x3000 || c.toNat == 0xFEFF

/-- ECMAScript LineTerminator: the characters that `.` does not match and
that `$` cannot be crossed by (the source's regexes have no `m`/`s`
flags): LF, CR, LS, PS. -/
def lineTerm (c : Char) : Bool :=
  c.toNat == 0xA || c.toNat == 0xD || c.toNat == 0x2028 || c.toNat == 0x2029

/-- Hexadecimal digit, the class `[a-fA-F0-9]` of the id-token regexes. -/
def hexChar (c : Char) : Bool :=
  (0x30 ≤ c.toNat && c.toNat ≤ 0x39) || (0x61 ≤ c.toNat && c.toNat ≤ 0x66) ||
  (0x41 ≤ c.toNat && c.toNat ≤ 0x46)

/-- Decimal digit, the class `\d`. -/
def digitChar (c : Char) : Bool := 0x30 ≤ c.toNat && c.toNat ≤ 0x39

/-- Drop leading JS whitespace (a greedy `\s*`). -/
def dropWS (s : Str) : Str := s.dropWhile (fun c => jsWS c)

/-- JavaScript `String.prototype.trim`. -/
def trimJS (s : Str) : Str := ((dropWS s).reverse.dropWhile (fun c => jsWS c)).reverse

/-- JavaScript `String.prototype.trimEnd`. -/
def trimEndJS (s : Str) : Str := (s.reverse.dropWhile (fun c => jsWS c)).reverse

/-- State machine for `replace(/\s+/g, " ")`: in the `inRun` state the
single `' '` for the current whitespace run has already been emitted, so
further run characters are dropped. -/
def collapseGo : Bool → Str → Str
  | _, [] => []
  | inRun, c :: t =>
    if jsWS c then
      if inRun then collapseGo true t else ' ' :: collapseGo true t
    else c :: collapseGo false t

/-- Global replacement `replace(/\s+/g, " ")`: every maximal whitespace run
becomes a single space. -/
def collapseWS (s : Str) : Str := collapseGo false s

/-- Match a literal at the front of the input, returning the remainder. -/
def takeLit : Str → Str → Option Str
  | [], s => some s
  | _, [] => none
  | l :: ls, c :: cs => if c = l then takeLit ls cs else none

/-- Substring occurrence test (used to state token-freedom hypotheses). -/
def isSubstr (t : Str) : Str → Bool
  | [] => t.isEmpty
  | c :: r => t.isPrefixOf (c :: r) || isSubstr t r

/-! ## Identifier tokens

The source patterns:
`TASK_ID_HTML_RE = /<!--\s*tid:([a-fA-F0-9]{6,32})\s*-->\s*$/` and
`TASK_ID_LEGACY_RE = /\{#t:([a-fA-F0-9]{6,32})\}\s*$/`.
Since a hex digit is neither whitespace nor `-`/`}`, the regex's bounded
greedy `{6,32}` matches exactly the maximal hex run, and a run longer
than 32 can never match; the scanners below implement that. -/

/-- Core of `TASK_ID_HTML_RE` anchored at one start position: the whole
remaining input must be `<!--\s*tid:(hex{6,32})\s*-->\s*`; returns the
captured payload. -/
def htmlIdHere (s : Str) : Option Str := do
  let s ← takeLit (str "<!--") s
  let s ← takeLit (str "tid:") (dropWS s)
  let run := s.takeWhile (fun c => hexChar c)
  if 6 ≤ run.length ∧ run.length ≤ 32 then
    let s ← takeLit (str "-->") (dropWS (s.dropWhile (fun c => hexChar c)))
    if dropWS s = [] then some run else none
  else none

/-- Core of `TASK_ID_LEGACY_RE` anchored at one start position:
`\{#t:(hex{6,32})\}\s*` to the end of input. -/
def legacyIdHere (s : Str) : Option Str := do
  let s ← takeLit (str "\x7b#t:") s
  let run := s.takeWhile (fun c => hexChar c)
  if 6 ≤ run.length ∧ run.length ≤ 32 then
    let s ← takeLit (str "\x7d") (s.dropWhile (fun c => hexChar c))
    if dropWS s = [] then some run else none
  else none

/-- Leftmost match of `TASK_ID_HTML_RE` (`text.match(TASK_ID_HTML_RE)`):
scan start positions left to right. -/
def findHtmlId : Str → Option Str
  | [] => none
  | c :: t => (htmlIdHere (c :: t)).orElse fun _ => findHtmlId t

/-- Leftmost match of `TASK_ID_LEGACY_RE`. -/
def findLegacyId : Str → Option Str
  | [] => none
  | c :: t => (legacyIdHere (c :: t)).orElse fun _ => findLegacyId t

/-- `extractTaskId` from the source: canonical comment form first, then the
legacy bracket form. -/
def extractTaskId (text : Str) : Option Str :=
  match findHtmlId text with
  | some id => some id
  | none => findLegacyId text

/-- `hasCanonicalTaskId` from the source: `TASK_ID_HTML_RE.test(text)`. -/
def hasCanonicalTaskId (text : Str) : Bool := (findHtmlId text).isSome

/-- Cut the input before the leftmost position whose entire remaining
suffix satisfies `p`; if no position qualifies the input is unchanged.
This is `s.replace(re, "")` for an `$`-anchored regex `re`, whose unique
replacement candidate is the longest matching suffix. -/
def cutWhenTail (p : Str → Bool) : Str → Str
  | [] => []
  | c :: t => if p (c :: t) then [] else c :: cutWhenTail p t

/-- Whole-input test for `/\s*<!--\s*tid:[a-fA-F0-9]{6,32}\s*-->\s*$/`
(the first replacement pattern of `stripTaskIdToken`): leading `\s*` is
greedy and `<` is not whitespace, so it equals `htmlIdHere` after the
maximal whitespace run. -/
def isHtmlIdSuffix (s : Str) : Bool := (htmlIdHere (dropWS s)).isSome

/-- Whole-input test for `/\s*\{#t:[a-fA-F0-9]{6,32}\}\s*$/`. -/
def isLegacyIdSuffix (s : Str) : Bool := (legacyIdHere (dropWS s)).isSome

/-- `stripTaskIdToken` from the source: strip a trailing canonical token,
then a trailing legacy token, then trim. -/
def stripTaskIdToken (text : Str) : Str :=
  trimJS (cutWhenTail isLegacyIdSuffix (cutWhenTail isHtmlIdSuffix text))

/-- `taskIdToken` from the source. -/
def taskIdToken (id : Str) : Str := str "<!-- tid:" ++ id ++ str " -->"

/-- `ensureTaskIdOnLine` from the source. -/
def ensureTaskIdOnLine (line id : Str) : Str :=
  trimEndJS (stripTaskIdToken line ++ [' '] ++ taskIdToken id)

/-- One start position of `new RegExp("<!--\\s*tid:" + id + "\\s*-->")`
(unanchored, id interpolated literally). -/
def htmlIdTokHere (id s : Str) : Bool :=
  (do
    let s ← takeLit (str "<!--") s
    let s ← takeLit (str "tid:") (dropWS s)
    let s ← takeLit id s
    let _ ← takeLit (str "-->") (dropWS s)
    pure ()).isSome

/-- One start position of `new RegExp("\\{#t:" + id + "\\}")`. -/
def legacyIdTokHere (id s : Str) : Bool :=
  (do
    let s ← takeLit (str "\x7b#t:") s
    let s ← takeLit id s
    let _ ← takeLit (str "\x7d") s
    pure ()).isSome

/-- Substring search for `htmlIdTokHere`. -/
def hasHtmlIdTok (id : Str) : Str → Bool
  | [] => htmlIdTokHere id []
  | c :: t => htmlIdTokHere id (c :: t) || hasHtmlIdTok id t

/-- Substring search for `legacyIdTokHere`. -/
def hasLegacyIdTok (id : Str) : Str → Bool
  | [] => legacyIdTokHere id []
  | c :: t => legacyIdTokHere id (c :: t) || hasLegacyIdTok id t

/-- `lineHasTaskId` from the source: the line contains the canonical or
the legacy token carrying `id`. -/
def lineHasTaskId (line id : Str) : Bool :=
  hasHtmlIdTok id line || hasLegacyIdTok id line

/-! ## Metadata tokens

`parseMeta` matches `/(?:^|\s)⏳est:(\S+)(?=\s|$)/` (and the `⌛act:`
analogue). Since `\S+` is greedy and the lookahead `(?=\s|$)` always holds
after a maximal non-whitespace run, the capture is exactly the maximal
non-whitespace run after the marker, which must be non-empty. The reason
pattern `/(?:^|\s)(?:✍️|✍)reason:(.*)$/` captures to the end of the line
and fails at a position whenever a line terminator follows (`.` cannot
match one and `$` is not multiline). -/

/-- The `⏳est:` marker. -/
def estMarker : Str := str "⏳est:"

/-- The `⌛act:` marker. -/
def actMarker : Str := str "⌛act:"

/-- The reason marker spelled with the emoji-presentation selector. -/
def penFull : Str := str "✍️reason:"

/-- The reason marker spelled as the bare scalar. -/
def penPlain : Str := str "✍reason:"

/-- Anchored attempt of an est/act style token at one position: the marker
literal followed by a non-empty maximal `\S+` run (the capture). -/
def tokHere (lit s : Str) : Option Str :=
  (takeLit lit s).bind fun r =>
    let cap := r.takeWhile (fun c => !jsWS c)
    if cap.isEmpty then none else some cap

/-- Scan positions after the start: the `\s`-alternative of `(?:^|\s)`. -/
def scanTokAux (lit : Str) : Str → Option Str
  | [] => none
  | c :: t =>
    if jsWS c then (tokHere lit t).orElse fun _ => scanTokAux lit t
    else scanTokAux lit t

/-- Leftmost match of `/(?:^|\s)<lit>(\S+)(?=\s|$)/`, returning the capture. -/
def scanTok (lit s : Str) : Option Str :=
  (tokHere lit s).orElse fun _ => scanTokAux lit s

/-- State machine for the global replacement
`replace(/(?:^|\s)<lit>\S+(?=\s|$)/g, " ")` with a whitespace-free `lit`
(both markers are): in the `skipping` state the scanner is inside the
matched `\S+` capture, whose replacement has already been emitted; the
capture ends exactly at the next whitespace character or the end, where
scanning resumes (matching the regex engine continuing after the match). -/
def replGo (lit : Str) : Bool → Str → Str
  | _, [] => []
  | skipping, c :: t =>
    if jsWS c then
      match takeLit lit t with
      | some r =>
        if (r.takeWhile (fun a => !jsWS a)).isEmpty then c :: replGo lit false t
        else ' ' :: replGo lit true t
      | none => c :: replGo lit false t
    else if skipping then replGo lit true t
    else c :: replGo lit false t

/-- Global replacement `replace(/(?:^|\s)<lit>\S+(?=\s|$)/g, " ")`: every
non-overlapping match, found left to right, becomes a single space. The
first `match` is the `^`-alternative at position 0. -/
def replTok (lit s : Str) : Str :=
  match takeLit lit s with
  | some r =>
    if (r.takeWhile (fun a => !jsWS a)).isEmpty then replGo lit false s
    else ' ' :: replGo lit true r
  | none => replGo lit false s

/-- Anchored attempt of the reason token at one position: either marker
spelling followed by `reason:` text captured to the end of the line, which
must contain no line terminator. The two alternatives cannot both start at
one position (after `✍` one requires U+FE0F, the other `r`). -/
def reasonHere (s : Str) : Option Str :=
  match takeLit penFull s with
  | some r => if r.any (fun c => lineTerm c) then none else some r
  | none =>
    match takeLit penPlain s with
    | some r => if r.any (fun c => lineTerm c) then none else some r
    | none => none

/-- Scan positions after the start for the reason token, returning the text
before the match (the `slice(0, index)` of the source) and the capture. -/
def findReasonAux : Str → Option (Str × Str)
  | [] => none
  | c :: t =>
    if jsWS c then
      match reasonHere t with
      | some cap => some ([], cap)
      | none => (findReasonAux t).map fun p => (c :: p.1, p.2)
    else (findReasonAux t).map fun p => (c :: p.1, p.2)

/-- Leftmost match of `/(?:^|\s)(?:✍️|✍)reason:(.*)$/` with its `index`. -/
def findReason (s : Str) : Option (Str × Str) :=
  match reasonHere s with
  | some cap => some ([], cap)
  | none => findReasonAux s

/-- Value of a decimal digit string (most significant digit first). -/
def decDigitsVal (s : Str) : Nat :=
  s.foldl (fun a c => 10 * a + (c.toNat - '0'.toNat)) 0

/-- Models the guard `Number.isInteger(v) && v >= 0` for `v = Number(cap)`
applied to an est/act capture, on optionally-signed decimal digit strings
(`"-0"` passes in JS since `-0 >= 0`); other numeric spellings JS would
coerce (hexadecimal, exponent or fraction forms) are outside the model and
mapped to `none`. -/
def jsNonnegInt : Str → Option Nat
  | [] => none
  | '+' :: d =>
    if d ≠ [] ∧ d.all (fun c => digitChar c) then some (decDigitsVal d) else none
  | '-' :: d =>
    if d ≠ [] ∧ d.all (fun c => digitChar c) ∧ decDigitsVal d = 0 then some 0
    else none
  | s => if s.all (fun c => digitChar c) then some (decDigitsVal s) else none

/-- The `TaskMeta` record of the source (`estMin`/`actMin` are
`number | null`, `reason` a string). -/
structure TaskMeta where
  estMin : Option Nat
  actMin : Option Nat
  reason : Str
deriving DecidableEq, Repr

/-- Return type of `parseMeta`: `TaskMeta & { cleanedText: string }`. -/
structure MetaParse where
  estMin : Option Nat
  actMin : Option Nat
  reason : Str
  cleanedText : Str
deriving DecidableEq, Repr

/-- `parseMeta` from the source: strip the id token, extract and strip the
est token, then the act token, then the reason tail, then collapse
whitespace. -/
def parseMeta (text : Str) : MetaParse :=
  let cleaned0 := stripTaskIdToken text
  let estMin := (scanTok estMarker cleaned0).bind jsNonnegInt
  let cleaned1 := replTok estMarker cleaned0
  let actMin := (scanTok actMarker cleaned1).bind jsNonnegInt
  let cleaned2 := replTok actMarker cleaned1
  match findReason cleaned2 with
  | some p =>
    ⟨estMin, actMin, trimJS p.2, trimJS (collapseWS (trimJS p.1))⟩
  | none => ⟨estMin, actMin, [], trimJS (collapseWS cleaned2)⟩

/-- Base-rendering worker, fuel-structured so that it reduces
definitionally; `fuel ≥ n` always suffices. -/
def natBaseAux (base : Nat) : Nat → Nat → Str → Str
  | _, 0, acc => acc
  | 0, _ + 1, acc => acc
  | fuel + 1, n + 1, acc =>
    natBaseAux base fuel ((n + 1) / base)
      ((if (n + 1) % base < 10 then Char.ofNat ('0'.toNat + (n + 1) % base)
        else Char.ofNat ('a'.toNat + ((n + 1) % base - 10))) :: acc)

/-- Decimal digits of a natural number, as printed by a JS template
literal for an integer in the safe range. -/
def natDigits (n : Nat) : Str := if n = 0 then ['0'] else natBaseAux 10 n n []

/-- `buildTaskLine` from the source: checkbox part, cleaned display text
(re-run through `parseMeta`), est token, act token, reason token, id
token, joined by single spaces. -/
def buildTaskLine (checked : Bool) (cleanedText : Str) (meta : TaskMeta)
    (id : Str) : Str :=
  let base := (parseMeta cleanedText).cleanedText
  let reason := trimJS meta.reason
  let parts : List Str :=
    [str "- [" ++ [if checked then 'x' else ' '] ++ [']']]
      ++ (if base = [] then [] else [base])
      ++ (match meta.estMin with
          | some n => [estMarker ++ natDigits n]
          | none => [])
      ++ (match meta.actMin with
          | some n => [actMarker ++ natDigits n]
          | none => [])
      ++ (if reason = [] then [] else [penFull ++ reason])
      ++ [taskIdToken id]
  List.intercalate [' '] parts

/-! ## Parsing a file into tasks -/

/-- The `Task` record of the source. -/
structure Task where
  id : Str
  lineIndex : Nat
  text : Str
  done : Bool
  hasId : Bool
  estMin : Option Nat
  actMin : Option Nat
  reason : Str
deriving DecidableEq, Repr

/-- `md.split("\n")`. -/
def splitLines (s : Str) : List Str := s.splitOn '\n'

/-- `lines.join("\n")`. -/
def joinLines (ls : List Str) : Str := List.intercalate ['\n'] ls

/-- Match of `/^\s*-\s*\[( |x|X)\]\s+(.*)$/` on one line. The leading `\s*`
runs are greedy against non-whitespace literals, so they are maximal runs;
`\s+` requires at least one whitespace character after `]`; `(.*)$`
succeeds exactly when the remainder after the maximal whitespace run
contains no line terminator (backtracking `\s+` only moves whitespace,
never a blocking terminator, into `.*`). Returns the mark and capture 2. -/
def matchTaskLine (line : Str) : Option (Char × Str) :=
  match dropWS line with
  | '-' :: r =>
    match dropWS r with
    | '[' :: m :: ']' :: u =>
      if (m == ' ' || m == 'x' || m == 'X')
          && (match u with | c :: _ => jsWS c | [] => false) then
        let rest := dropWS u
        if rest.any (fun c => lineTerm c) then none else some (m, rest)
      else none
    | _ => none
  | _ => none

/-- `parseTasks` from the source, with the calls to `genTaskId()` (a fresh
8-hex-character random id per task that carries none) supplied by `fresh`,
indexed by the number of ids generated so far. `i` is the absolute line
index. -/
def parseTasksAux (fresh : Nat → Str) : List Str → Nat → Nat → List Task
  | [], _, _ => []
  | l :: rest, i, k =>
    match matchTaskLine l with
    | none => parseTasksAux fresh rest (i + 1) k
    | some (m, cap) =>
      let restT := trimJS cap
      let done := m == 'x' || m == 'X'
      let pm := parseMeta restT
      let hasId := hasCanonicalTaskId restT
      match extractTaskId restT with
      | some tid =>
        ⟨tid, i, pm.cleanedText, done, hasId, pm.estMin, pm.actMin, pm.reason⟩
          :: parseTasksAux fresh rest (i + 1) k
      | none =>
        ⟨fresh k, i, pm.cleanedText, done, hasId, pm.estMin, pm.actMin, pm.reason⟩
          :: parseTasksAux fresh rest (i + 1) (k + 1)

/-- `parseTasks` over a whole file. -/
def parseTasks (fresh : Nat → Str) (md : Str) : List Task :=
  parseTasksAux fresh (splitLines md) 0 0

/-! ## Load-time id migration (`loadWeek`) -/

/-- The migration guard `/^\s*-\s*\[( |x|X)\]\s+/.test(line)`: same shape
as the task-line pattern but unanchored at the right, so no terminator
condition. -/
def taskLineTest (line : Str) : Bool :=
  match dropWS line with
  | '-' :: r =>
    match dropWS r with
    | '[' :: m :: ']' :: u =>
      (m == ' ' || m == 'x' || m == 'X')
        && (match u with | c :: _ => jsWS c | [] => false)
    | _ => false
  | _ => false

/-- The migration loop of `loadWeek`: for each parsed task without a
canonical id whose line still passes the task-line test, rewrite that line
with `ensureTaskIdOnLine`; report whether anything changed. -/
def migrateAux : List Task → List Str → List Str × Bool
  | [], lines => (lines, false)
  | t :: ts, lines =>
    if t.hasId then migrateAux ts lines
    else
      let original := lines.getD t.lineIndex []
      if taskLineTest original then
        ((migrateAux ts (lines.set t.lineIndex (ensureTaskIdOnLine original t.id))).1,
          true)
      else migrateAux ts lines

/-- One migration pass of `loadWeek` over a file: the rewritten content and
the `changed` flag (the file is written back exactly when it is `true`). -/
def migrateFile (fresh : Nat → Str) (md : Str) : Str × Bool :=
  let p := migrateAux (parseTasks fresh md) (splitLines md)
  (joinLines p.1, p.2)

/-! ## Week-store mutations -/

/-- User-visible outcome messages of the mutation handlers. -/
inductive UiMsg
  | notFound
  | notTask
  | estInvalid
  | actInvalid
  | reasonRequired
deriving DecidableEq, Repr

/-- Pure effect summary of one mutation handler: the content written to the
day's file (if any), the error message surfaced (if any), and whether a
full week reload (`loadWeek`) was triggered. -/
structure MutResult where
  written : Option Str
  message : Option UiMsg
  reloaded : Bool
deriving DecidableEq, Repr

/-- `lines.findIndex(l => lineHasTaskId(l, task.id))`. -/
def findTaskLineIdx (lines : List Str) (id : Str) : Option Nat :=
  lines.findIdx? (fun l => lineHasTaskId l id)

/-- Match of `/^(\s*-\s*\[)( |x|X)(\]\s+.*)$/` used by `toggleTask`,
returning the three captured groups (which concatenate to the line). -/
def toggleMatch (line : Str) : Option (Str × Char × Str) :=
  let w1 := line.takeWhile (fun c => jsWS c)
  match line.dropWhile (fun c => jsWS c) with
  | '-' :: r =>
    let w2 := r.takeWhile (fun c => jsWS c)
    match r.dropWhile (fun c => jsWS c) with
    | '[' :: m :: ']' :: u =>
      if (m == ' ' || m == 'x' || m == 'X')
          && (match u with | c :: _ => jsWS c | [] => false)
          && !((dropWS u).any (fun c => lineTerm c)) then
        some (w1 ++ '-' :: (w2 ++ ['[']), m, ']' :: u)
      else none
    | _ => none
  | _ => none

/-- `toggleTask`: re-read the file, locate the line by id, flip only the
checkbox mark of that line; not-found and not-a-task paths write nothing,
surface a message, and reload. -/
def toggleTaskFile (md : Str) (t : Task) : MutResult :=
  let lines := splitLines md
  match findTaskLineIdx lines t.id with
  | none => ⟨none, some .notFound, true⟩
  | some idx =>
    match toggleMatch (lines.getD idx []) with
    | none => ⟨none, some .notTask, true⟩
    | some (g1, m, g3) =>
      let nextMark := if m == 'x' || m == 'X' then ' ' else 'x'
      ⟨some (joinLines (lines.set idx (g1 ++ nextMark :: g3))), none, true⟩

/-- `deleteTask`: locate the line by id and remove it. -/
def deleteTaskFile (md : Str) (t : Task) : MutResult :=
  let lines := splitLines md
  match findTaskLineIdx lines t.id with
  | none => ⟨none, some .notFound, true⟩
  | some idx => ⟨some (joinLines (lines.eraseIdx idx)), none, true⟩

/-- Result of `parseDraftMinutes`: `null`, `NaN`, or a number. -/
inductive DraftVal
  | null
  | nan
  | val (n : Nat)
deriving DecidableEq, Repr

/-- `parseDraftMinutes` from the source: trim; empty means unset; otherwise
the text must match `/^\d+$/` or the result is `NaN`. -/
def parseDraftMinutes (raw : Str) : DraftVal :=
  let v := trimJS raw
  if v = [] then .null
  else if v.all (fun c => digitChar c) then .val (decDigitsVal v)
  else .nan

/-- Numeric payload of a draft value (`null`/`NaN` carry none). -/
def DraftVal.toOpt : DraftVal → Option Nat
  | .null => none
  | .nan => none
  | .val n => some n

/-- The overrun guard of `saveTaskMeta`:
`estMin !== null && actMin !== null && actMin > estMin && reason === ""`. -/
def overrunNeedsReason : DraftVal → DraftVal → Str → Bool
  | .val e, .val a, r => decide (e < a) && r.isEmpty
  | _, _, _ => false

/-- The draft strings held by the three metadata inputs of one task. -/
structure TaskMetaDraft where
  estMin : Str
  actMin : Str
  reason : Str
deriving DecidableEq, Repr

/-- The write phase of `saveTaskMeta` (after validation): locate the line
by id, re-parse its free text, rebuild it via `buildTaskLine` with the new
metadata. -/
def savePhase (md : Str) (t : Task) (meta : TaskMeta) : MutResult :=
  let lines := splitLines md
  match findTaskLineIdx lines t.id with
  | none => ⟨none, some .notFound, true⟩
  | some idx =>
    match matchTaskLine (lines.getD idx []) with
    | none => ⟨none, some .notTask, true⟩
    | some (m, cap) =>
      let checked := m == 'x' || m == 'X'
      let parsed := parseMeta (trimJS cap)
      ⟨some (joinLines (lines.set idx
          (buildTaskLine checked parsed.cleanedText meta t.id))), none, true⟩

/-- `saveTaskMeta` from the source: validate the drafts (returning before
any file access on failure, without triggering a reload), then run the
write phase. -/
def saveTaskMetaFile (md : Str) (t : Task) (draft : TaskMetaDraft) : MutResult :=
  let estMin := parseDraftMinutes draft.estMin
  let actMin := parseDraftMinutes draft.actMin
  let reason := trimJS draft.reason
  if estMin = .nan then ⟨none, some .estInvalid, false⟩
  else if actMin = .nan then ⟨none, some .actInvalid, false⟩
  else if overrunNeedsReason estMin actMin reason then
    ⟨none, some .reasonRequired, false⟩
  else savePhase md t ⟨estMin.toOpt, actMin.toOpt, reason⟩

/-! ## Add task -/

/-- The heading comparison `line.trim().toLowerCase() === "## todo"`. The
lowercase mapping is modelled on the ASCII range (the only characters the
comparison can be sensitive to, up to exotic Unicode case foldings that
fall outside the model). -/
def isTodoHeading (line : Str) : Bool :=
  (trimJS line).map Char.toLower == str "## todo"

/-- Blank-line run length at the front (`while (... .trim() === "") insertAt++`). -/
def countBlanks : List Str → Nat
  | [] => 0
  | l :: rest => if trimJS l = [] then countBlanks rest + 1 else 0

/-- The insertion-position loop of `addTask`: scan for the first heading
(`i` is the absolute index of the current line); on a hit, `insertAt` is
the next index pushed past the immediately-following blank lines and the
loop breaks; falling off the end leaves `insertAt = lines.length`. -/
def insertIndexLoop : List Str → Nat → Nat
  | [], i => i
  | l :: rest, i =>
    if isTodoHeading l then (i + 1) + countBlanks rest
    else insertIndexLoop rest (i + 1)

/-- Insertion position of `addTask`. -/
def insertIndex (lines : List Str) : Nat := insertIndexLoop lines 0

/-- `addTask` from the source (after the ensure-file-exists step): a blank
draft is a no-op; otherwise splice a fresh `- [ ] <text> <id token>` line
at the insertion position. -/
def addTaskFile (md : Str) (draftText : Str) (id : Str) : MutResult :=
  let text := trimJS draftText
  if text = [] then ⟨none, none, false⟩
  else
    let lines := splitLines md
    let taskLine := str "- [ ] " ++ text ++ [' '] ++ taskIdToken id
    ⟨some (joinLines (lines.insertIdx (insertIndex lines) taskLine)), none, true⟩

/-! ## Week boundary -/

/-- Dates as whole days since the Unix epoch (1970-01-01, a Thursday),
the content of a `Date` after the source's `setHours(0,0,0,0)`
truncation. `getDay()` is Sunday-0. -/
def dayOfWeek (d : Int) : Int := (d + 4) % 7

/-- `startOfWeekMonday` from the source:
`diff = (day === 0 ? -6 : 1 - day)`, added to the date. -/
def startOfWeekMonday (d : Int) : Int :=
  let day := dayOfWeek d
  d + (if day = 0 then -6 else 1 - day)

/-! ## Change watcher -/

/-- UTF-16 code units of a character (`charCodeAt` enumerates these). -/
def utf16Units (c : Char) : List Nat :=
  if c.toNat < 0x10000 then [c.toNat]
  else
    [0xD800 + (c.toNat - 0x10000) / 0x400, 0xDC00 + (c.toNat - 0x10000) % 0x400]

/-- One djb2 step `h = ((h << 5) + h) ^ code` in JS 32-bit arithmetic:
`ToInt32` is reduction mod `2^32` and `^` is bitwise on the two's
complement, so the step is `(33 * h mod 2^32) xor code`. -/
def djb2Step (h c : Nat) : Nat := ((33 * h) % 2 ^ 32) ^^^ c

/-- Lowercase hexadecimal rendering of a natural number
(`(h >>> 0).toString(16)`). -/
def natToHex (n : Nat) : Str := if n = 0 then ['0'] else natBaseAux 16 n n []

/-- `hashString` from the source (djb2 over UTF-16 code units, rendered as
unsigned 32-bit hex). -/
def hashString (s : Str) : Str :=
  natToHex (((s.map utf16Units).flatten.foldl djb2Step 5381) % 2 ^ 32)

/-- One day as seen by a watcher tick: its key, whether the week view holds
it as missing, and the content `readTextFile` would return now. -/
structure WatchDay where
  ymd : Str
  missing : Bool
  content : Str
deriving DecidableEq, Repr

/-- Observable outcome of one watcher tick: which days were read from disk,
in order, and whether a full week reload was triggered. -/
structure TickResult where
  reads : List Str
  reload : Bool
deriving DecidableEq, Repr

/-- The day loop of the watcher interval callback: skip missing days;
hash each remaining day's current content; on the first day whose recorded
hash is present (and truthy) and differs, reload and stop. -/
def watcherTickAux (prevHash : Str → Option Str) : List WatchDay → TickResult
  | [] => ⟨[], false⟩
  | d :: rest =>
    if d.missing then watcherTickAux prevHash rest
    else
      let h := hashString d.content
      match prevHash d.ymd with
      | some prev =>
        if prev ≠ [] ∧ h ≠ prev then ⟨[d.ymd], true⟩
        else
          let r := watcherTickAux prevHash rest
          ⟨d.ymd :: r.reads, r.reload⟩
      | none =>
        let r := watcherTickAux prevHash rest
        ⟨d.ymd :: r.reads, r.reload⟩

/-- One watcher tick: a no-op while a mutation is in flight (`busy`) or an
input holds focus (`isEditing`); otherwise the day loop. -/
def watcherTick (busy editing : Bool) (days : List WatchDay)
    (prevHash : Str → Option Str) : TickResult :=
  if busy || editing then ⟨[], false⟩ else watcherTickAux prevHash days

/-! ## Specification-side definitions

These restate individual claims in the spec's own vocabulary; the claim
theorems relate them to the source-model functions above. -/

/-- A day that triggers the watcher per the claim: held by the week view
with an existing file, a previously recorded (truthy) hash, and a current
content hash differing from it. -/
def staleDay (prevHash : Str → Option Str) (d : WatchDay) : Bool :=
  !d.missing &&
    match prevHash d.ymd with
    | some p => decide (p ≠ [] ∧ hashString d.content ≠ p)
    | none => false

/-- Validation verdict of the metadata save as the (amended) claim states
it: an est/act draft that is non-empty after trimming must be a digit
string; when both are digit strings and actual exceeds estimate, the
trimmed reason must be non-empty. -/
def metaValidationSpec (draft : TaskMetaDraft) : Option UiMsg :=
  let e := trimJS draft.estMin
  let a := trimJS draft.actMin
  if e ≠ [] ∧ ¬e.all (fun c => digitChar c) then some .estInvalid
  else if a ≠ [] ∧ ¬a.all (fun c => digitChar c) then some .actInvalid
  else if e ≠ [] ∧ a ≠ [] ∧ decDigitsVal e < decDigitsVal a ∧
      trimJS draft.reason = [] then some .reasonRequired
  else none

/-- Insertion position as the (amended) claim states it: one past the
first heading line plus the blank run following it, else end of file. -/
def insertIndexSpec (lines : List Str) : Nat :=
  match lines.findIdx? isTodoHeading with
  | some i => (i + 1) + countBlanks (lines.drop (i + 1))
  | none => lines.length

/-! ## Claim C3: week boundary resolution -/

/-- **C3.** For every anchor date, `startOfWeekMonday` lands on a Monday
(`getDay() = 1`), at most six days before the anchor and never after it,
and every anchor within the same Monday-based week (the week start plus an
offset reduced mod 7) resolves to the same week start. -/
theorem startOfWeekMonday_spec (d k : Int) :
    dayOfWeek (startOfWeekMonday d) = 1 ∧
    startOfWeekMonday d ≤ d ∧
    d - 6 ≤ startOfWeekMonday d ∧
    startOfWeekMonday (startOfWeekMonday d + k % 7) = startOfWeekMonday d := by
  simp only [startOfWeekMonday, dayOfWeek]
  split_ifs <;> omega

/-! ## Claim C2: token-stripping on the spec's example line -/

/-- **C2, counterexample.** The spec's literal example line spells the
metadata tokens without the emoji markers the code's regexes require
(`⏳est:` / `⌛act:` / `✍️reason:`), so it parses to a task whose display
text still contains `est:30 act:45 reason:ran late` and whose `estMin`,
`actMin` and `reason` are unset — not the values the claim states. -/
theorem parseTasks_specExample_cex :
    (parseTasks (fun _ => str "zzzzzzzz")
        (str "- [ ] Buy milk est:30 act:45 reason:ran late <!-- tid:ab12cd34 -->")).map
        (fun t => (t.text, t.done, t.estMin, t.actMin, t.reason)) =
      [(str "Buy milk est:30 act:45 reason:ran late", false, none, none, [])] ∧
    str "Buy milk est:30 act:45 reason:ran late" ≠ str "Buy milk" := by
  exact ⟨by rfl, by decide⟩

/-- **C2, amended.** With the markers spelled as in the code
(`⏳est:30 ⌛act:45 ✍️reason:ran late`), the example line parses to exactly
one task with `done = false`, text `Buy milk`, `estMin = 30`,
`actMin = 45` and reason `ran late`. -/
theorem parseTasks_specExample_amended :
    parseTasks (fun _ => str "zzzzzzzz")
        (str "- [ ] Buy milk ⏳est:30 ⌛act:45 ✍️reason:ran late <!-- tid:ab12cd34 -->") =
      [⟨str "ab12cd34", 0, str "Buy milk", false, true, some 30, some 45,
        str "ran late"⟩] := by
  rfl

/-! ## Claim C9: change-watcher tick -/

theorem watcherTickAux_reload (ph : Str → Option Str) (days : List WatchDay) :
    (watcherTickAux ph days).reload = days.any (staleDay ph) := by
  induction days with
  | nil => rfl
  | cons d rest ih =>
    unfold watcherTickAux
    by_cases hm : d.missing
    · simp [hm, staleDay, ih]
    · cases hp : ph d.ymd with
      | none => simp [hm, hp, staleDay, ih]
      | some p =>
        by_cases hc : p ≠ [] ∧ hashString d.content ≠ p
        · simp [hm, hp, hc, staleDay]
        · simp [hm, hp, hc, staleDay, ih]

theorem watcherTickAux_reads (ph : Str → Option Str) (days : List WatchDay) :
    (watcherTickAux ph days).reads =
      (((days.filter (fun d => !d.missing)).takeWhile
          (fun d => !staleDay ph d)).map (fun d => d.ymd))
        ++ ((((days.filter (fun d => !d.missing)).dropWhile
          (fun d => !staleDay ph d)).take 1).map (fun d => d.ymd)) := by
  induction days with
  | nil => rfl
  | cons d rest ih =>
    unfold watcherTickAux
    by_cases hm : d.missing
    · simp [hm, List.filter_cons, ih]
    · cases hp : ph d.ymd with
      | none =>
        have hs : staleDay ph d = false := by simp [staleDay, hm, hp]
        simp [hm, hp, List.filter_cons, List.takeWhile_cons, List.dropWhile_cons,
          hs, ih]
      | some p =>
        by_cases hc : p ≠ [] ∧ hashString d.content ≠ p
        · have hs : staleDay ph d = true := by simp [staleDay, hm, hp, hc]
          simp [hm, hp, hc, List.filter_cons, List.takeWhile_cons,
            List.dropWhile_cons, hs]
        · have hs : staleDay ph d = false := by
            simp only [staleDay, hm, hp]
            simpa using hc
          simp [hm, hp, hc, List.filter_cons, List.takeWhile_cons,
            List.dropWhile_cons, hs, ih]

/-- **C9.** A poll tick performs no reload while a mutation is in flight or
an input holds focus; otherwise it reads exactly the non-missing days up to
and including the first stale one (a day with a recorded hash differing
from the hash of its current content) and reloads exactly when some stale
day exists — days with no recorded hash never trigger, and nothing past
the first stale day is inspected. -/
theorem watcherTick_spec (busy editing : Bool) (days : List WatchDay)
    (ph : Str → Option Str) :
    watcherTick true editing days ph = ⟨[], false⟩ ∧
    watcherTick busy true days ph = ⟨[], false⟩ ∧
    (watcherTick false false days ph).reload = days.any (staleDay ph) ∧
    (watcherTick false false days ph).reads =
      (((days.filter (fun d => !d.missing)).takeWhile
          (fun d => !staleDay ph d)).map (fun d => d.ymd))
        ++ ((((days.filter (fun d => !d.missing)).dropWhile
          (fun d => !staleDay ph d)).take 1).map (fun d => d.ymd)) := by
  refine ⟨rfl, by simp [watcherTick], ?_, ?_⟩
  · simpa [watcherTick] using watcherTickAux_reload ph days
  · simpa [watcherTick] using watcherTickAux_reads ph days

/-! ## Claim C6: locate-by-identifier with recoverable not-found -/

/-- **C6.** Every mutation selects its target line purely from the task's
identifier — the cached `lineIndex` (and all other task fields) are
irrelevant; when no line of the (freshly read) file carries the identifier
token, toggle, delete and the metadata-save write phase write nothing,
surface the not-found message, and trigger a full reload — and this
not-found outcome occurs exactly in that case; the located index is the
first line containing the identifier token. -/
theorem mutations_locate_by_id (md id tx tx' r r' : Str) (li li' : Nat)
    (dn dn' hid hid' : Bool) (e e' a a' : Option Nat)
    (draft : TaskMetaDraft) (meta : TaskMeta) :
    (toggleTaskFile md ⟨id, li, tx, dn, hid, e, a, r⟩ =
        toggleTaskFile md ⟨id, li', tx', dn', hid', e', a', r'⟩) ∧
    (saveTaskMetaFile md ⟨id, li, tx, dn, hid, e, a, r⟩ draft =
        saveTaskMetaFile md ⟨id, li', tx', dn', hid', e', a', r'⟩ draft) ∧
    (deleteTaskFile md ⟨id, li, tx, dn, hid, e, a, r⟩ =
        deleteTaskFile md ⟨id, li', tx', dn', hid', e', a', r'⟩) ∧
    (toggleTaskFile md ⟨id, li, tx, dn, hid, e, a, r⟩ =
        ⟨none, some .notFound, true⟩ ↔
      ∀ l ∈ splitLines md, lineHasTaskId l id = false) ∧
    (deleteTaskFile md ⟨id, li, tx, dn, hid, e, a, r⟩ =
        ⟨none, some .notFound, true⟩ ↔
      ∀ l ∈ splitLines md, lineHasTaskId l id = false) ∧
    (savePhase md ⟨id, li, tx, dn, hid, e, a, r⟩ meta =
        ⟨none, some .notFound, true⟩ ↔
      ∀ l ∈ splitLines md, lineHasTaskId l id = false) ∧
    (∀ idx, findTaskLineIdx (splitLines md) id = some idx ↔
      ∃ h : idx < (splitLines md).length,
        lineHasTaskId ((splitLines md)[idx]) id = true ∧
        ∀ j (hj : j < idx), lineHasTaskId ((splitLines md)[j]) id = false) := by
  have hnone : findTaskLineIdx (splitLines md) id = none ↔
      ∀ l ∈ splitLines md, lineHasTaskId l id = false := by
    simp only [findTaskLineIdx]
    exact List.findIdx?_eq_none_iff
  refine ⟨rfl, rfl, rfl, ?_, ?_, ?_, ?_⟩
  · rw [← hnone]
    cases h : findTaskLineIdx (splitLines md) id with
    | none => simp [toggleTaskFile, h]
    | some idx =>
      simp only [toggleTaskFile, h]
      cases htm : toggleMatch ((splitLines md).getD idx []) <;> simp
  · rw [← hnone]
    cases h : findTaskLineIdx (splitLines md) id with
    | none => simp [deleteTaskFile, h]
    | some idx => simp [deleteTaskFile, h]
  · rw [← hnone]
    cases h : findTaskLineIdx (splitLines md) id with
    | none => simp [savePhase, h]
    | some idx =>
      simp only [savePhase, h]
      cases htm : matchTaskLine ((splitLines md).getD idx []) <;> simp
  · intro idx
    simpa [findTaskLineIdx] using
      (@List.findIdx?_eq_some_iff_getElem _ (splitLines md)
        (fun l => lineHasTaskId l id) idx)

/-! ## Claim C4: metadata-save validation -/

/-- **C4, counterexample.** A whitespace-only estimate draft is non-empty
draft text that is not a non-negative integer string, so the claim demands
the write be blocked; the code trims the draft first, treats it as absent,
and proceeds to write the file. -/
theorem saveTaskMeta_blankDraft_cex :
    (saveTaskMetaFile (str "- [ ] a <!-- tid:ab12cd34 -->")
        ⟨str "ab12cd34", 0, str "a", false, true, none, none, []⟩
        ⟨str " ", [], []⟩).written = some (str "- [ ] a <!-- tid:ab12cd34 -->") ∧
    str " " ≠ [] ∧ ¬(str " ").all (fun c => digitChar c) := by
  refine ⟨rfl, by decide, by decide⟩

/-- **C4, amended.** Validation is decided before the file is touched (the
rejection result does not depend on the file content): an est/act draft
that is non-empty after trimming and not a digit string blocks the write
with the corresponding message and no reload; when both are digit strings,
actual exceeds estimate and the trimmed reason is empty, the write is
blocked likewise; otherwise the handler proceeds to the locate-and-write
phase with the parsed values. -/
theorem saveTaskMeta_validation (md : Str) (t : Task) (draft : TaskMetaDraft) :
    saveTaskMetaFile md t draft =
      match metaValidationSpec draft with
      | some m => ⟨none, some m, false⟩
      | none =>
        savePhase md t
          ⟨(parseDraftMinutes draft.estMin).toOpt,
            (parseDraftMinutes draft.actMin).toOpt, trimJS draft.reason⟩ := by
  unfold saveTaskMetaFile metaValidationSpec
  by_cases he0 : trimJS draft.estMin = []
  · by_cases ha0 : trimJS draft.actMin = []
    · simp [parseDraftMinutes, he0, ha0, overrunNeedsReason, DraftVal.toOpt]
    · by_cases had : (trimJS draft.actMin).all (fun c => digitChar c)
      · simp [parseDraftMinutes, he0, ha0, had, overrunNeedsReason, DraftVal.toOpt]
      · simp [parseDraftMinutes, he0, ha0, had, overrunNeedsReason, DraftVal.toOpt]
  · by_cases hed : (trimJS draft.estMin).all (fun c => digitChar c)
    · by_cases ha0 : trimJS draft.actMin = []
      · simp [parseDraftMinutes, he0, hed, ha0, overrunNeedsReason, DraftVal.toOpt]
      · by_cases had : (trimJS draft.actMin).all (fun c => digitChar c)
        · by_cases hov : decDigitsVal (trimJS draft.estMin) <
              decDigitsVal (trimJS draft.actMin) ∧ trimJS draft.reason = []
          · simp [parseDraftMinutes, he0, hed, ha0, had, hov, overrunNeedsReason,
              DraftVal.toOpt, List.isEmpty_iff]
          · simp only [not_and_or] at hov
            rcases hov with hov | hov <;>
              simp [parseDraftMinutes, he0, hed, ha0, had, hov, overrunNeedsReason,
                DraftVal.toOpt, List.isEmpty_iff]
        · simp [parseDraftMinutes, he0, hed, ha0, had, overrunNeedsReason,
            DraftVal.toOpt]
    · simp [parseDraftMinutes, he0, hed, overrunNeedsReason, DraftVal.toOpt]

/-! ## Claim C7: add-task insertion position -/

theorem countBlanks_le (l : List Str) : countBlanks l ≤ l.length := by
  induction l with
  | nil => simp [countBlanks]
  | cons x xs ih =>
    by_cases h : trimJS x = []
    · simp only [countBlanks, if_pos h, List.length_cons]
      omega
    · simp [countBlanks, h]

theorem insertIndexSpec_le (lines : List Str) :
    insertIndexSpec lines ≤ lines.length := by
  unfold insertIndexSpec
  cases h : lines.findIdx? isTodoHeading with
  | none => simp
  | some i =>
    rcases List.findIdx?_eq_some_iff_getElem.1 h with ⟨hlt, -⟩
    have hc := countBlanks_le (lines.drop (i + 1))
    simp only [List.length_drop] at hc
    show (i + 1) + countBlanks (lines.drop (i + 1)) ≤ lines.length
    omega

theorem insertIdx_take_drop {α : Type} (n : Nat) (a : α) (l : List α)
    (h : n ≤ l.length) : l.insertIdx n a = l.take n ++ a :: l.drop n := by
  induction n generalizing l with
  | zero => simp [List.insertIdx_zero]
  | succ n ih =>
    cases l with
    | nil => simp at h
    | cons x xs =>
      simp only [List.insertIdx_succ_cons, List.take_succ_cons,
        List.drop_succ_cons, List.cons_append]
      rw [ih xs (by simpa using h)]

theorem insertIndexLoop_eq (lines : List Str) :
    ∀ i, insertIndexLoop lines i =
      (match lines.findIdx? isTodoHeading with
       | some j => i + ((j + 1) + countBlanks (lines.drop (j + 1)))
       | none => i + lines.length) := by
  induction lines with
  | nil => intro i; simp [insertIndexLoop]
  | cons l rest ih =>
    intro i
    by_cases h : isTodoHeading l
    · have hf : (l :: rest).findIdx? isTodoHeading = some 0 := by simp [h]
      rw [hf]
      show insertIndexLoop (l :: rest) i =
        i + ((0 + 1) + countBlanks ((l :: rest).drop (0 + 1)))
      have hd : (l :: rest).drop (0 + 1) = rest := rfl
      rw [hd]
      simp only [insertIndexLoop, h, if_true]
      omega
    · have hf : (l :: rest).findIdx? isTodoHeading =
          (rest.findIdx? isTodoHeading).map (· + 1) := by
        simp [h, List.findIdx?_succ]
      rw [hf]
      simp only [insertIndexLoop, h, if_false, Bool.false_eq_true]
      rw [ih (i + 1)]
      cases hr : rest.findIdx? isTodoHeading with
      | none =>
        simp only [Option.map_none']
        show (i + 1) + rest.length = i + (l :: rest).length
        simp only [List.length_cons]
        omega
      | some j =>
        simp only [Option.map_some']
        show (i + 1) + ((j + 1) + countBlanks (rest.drop (j + 1))) =
          i + ((j + 1 + 1) + countBlanks ((l :: rest).drop (j + 1 + 1)))
        simp only [List.drop_succ_cons]
        omega

/-- **C7, counterexample.** The heading match is case-insensitive after
trimming (`trim().toLowerCase() === "## todo"`), so a lowercase `## todo`
heading — which is not a literal `## Todo` line, for which the claim
prescribes an end-of-file append — still receives the insertion right
after it. -/
theorem addTask_heading_case_cex :
    addTaskFile (str "## todo\nx") (str "t") (str "ab12cd34") =
      ⟨some (str "## todo\n- [ ] t <!-- tid:ab12cd34 -->\nx"), none, true⟩ ∧
    str "## todo\n- [ ] t <!-- tid:ab12cd34 -->\nx" ≠
      str "## todo\nx\n- [ ] t <!-- tid:ab12cd34 -->" := by
  refine ⟨rfl, by decide⟩

/-- **C7, amended.** With the heading matched after trimming and
ASCII-case-insensitively, `addTask` splices the new checkbox line (fresh
identifier token included) at the position right after the first heading
line and its immediately-following blank run, or at end of file when no
heading exists; the splice keeps every pre-existing line, in order
(take/drop decomposition); a blank draft is a no-op. -/
theorem addTask_insertion (md draftText id : Str) :
    insertIndex (splitLines md) = insertIndexSpec (splitLines md) ∧
    addTaskFile md draftText id =
      (if trimJS draftText = [] then ⟨none, none, false⟩
       else
        ⟨some (joinLines
            ((splitLines md).take (insertIndexSpec (splitLines md))
              ++ (str "- [ ] " ++ trimJS draftText ++ [' '] ++ taskIdToken id)
                :: (splitLines md).drop (insertIndexSpec (splitLines md)))),
          none, true⟩) := by
  have hIdx : ∀ ls : List Str, insertIndex ls = insertIndexSpec ls := by
    intro ls
    unfold insertIndex insertIndexSpec
    rw [insertIndexLoop_eq]
    cases h : ls.findIdx? isTodoHeading <;> simp
  refine ⟨hIdx _, ?_⟩
  unfold addTaskFile
  by_cases h : trimJS draftText = []
  · simp [h]
  · simp only [h, if_neg, if_false]
    rw [hIdx, insertIdx_take_drop _ _ _ (insertIndexSpec_le _)]

/-! ## Line splitting and joining -/

theorem mem_splitLines_no_newline (s : Str) : ∀ l ∈ splitLines s, '\n' ∉ l := by
  unfold splitLines List.splitOn
  induction s with
  | nil =>
    intro l hl
    simp only [List.splitOnP_nil, List.mem_singleton] at hl
    simp [hl]
  | cons c t ih =>
    intro l hl
    rw [List.splitOnP_cons] at hl
    by_cases h : c = '\n'
    · simp only [h, beq_self_eq_true, if_true, List.mem_cons] at hl
      rcases hl with h1 | h1
      · simp [h1]
      · exact ih l h1
    · have hb : (c == '\n') = false := by simpa using h
      rw [hb] at hl
      simp only [Bool.false_eq_true, if_false] at hl
      cases hsp : List.splitOnP (fun a => a == '\n') t with
      | nil => exact absurd hsp (List.splitOnP_ne_nil _ t)
      | cons l0 ls =>
        rw [hsp] at hl
        simp only [List.modifyHead, List.mem_cons] at hl
        rcases hl with h1 | h1
        · subst h1
          intro hc
          rcases List.mem_cons.1 hc with h2 | h2
          · exact h h2.symm
          · exact ih l0 (by rw [hsp]; exact List.mem_cons_self _ _) h2
        · exact ih l (by rw [hsp]; exact List.mem_cons_of_mem _ h1)

theorem splitLines_joinLines (ls : List Str) (h : ∀ l ∈ ls, '\n' ∉ l)
    (hne : ls ≠ []) : splitLines (joinLines ls) = ls :=
  List.splitOn_intercalate ls '\n' h hne

theorem splitLines_ne_nil (s : Str) : splitLines s ≠ [] :=
  List.splitOnP_ne_nil _ s

theorem set_at_append {α : Type} (A : List α) (b b' : α) (C : List α) :
    (A ++ b :: C).set A.length b' = A ++ b' :: C := by
  induction A with
  | nil => rfl
  | cons a A ih => simp [List.set, ih]

theorem getD_at_append {α : Type} (A : List α) (b d : α) (C : List α) :
    (A ++ b :: C).getD A.length d = b := by
  induction A with
  | nil => rfl
  | cons a A ih => simpa [List.getD] using ih

/-! ## Claim C5: toggle frame property -/

theorem toggleMatch_decomp (line g1 : Str) (m : Char) (g3 : Str)
    (h : toggleMatch line = some (g1, m, g3)) :
    line = g1 ++ m :: g3 ∧ (m = ' ' ∨ m = 'x' ∨ m = 'X') := by
  unfold toggleMatch at h
  split at h
  next r heq1 =>
    split at h
    next m0 u heq2 =>
      split at h
      next hcond =>
        injection h with h
        simp only [Prod.mk.injEq] at h
        obtain ⟨hg1, hm, hg3⟩ := h
        subst hg1
        subst hm
        subst hg3
        constructor
        · have e1 : line = line.takeWhile (fun c => jsWS c) ++ ('-' :: r) := by
            conv_lhs => rw [← List.takeWhile_append_dropWhile
              (p := fun c => jsWS c) (l := line)]
            rw [heq1]
          have e2 : r = r.takeWhile (fun c => jsWS c) ++ ('[' :: m0 :: ']' :: u) := by
            conv_lhs => rw [← List.takeWhile_append_dropWhile
              (p := fun c => jsWS c) (l := r)]
            rw [heq2]
          calc line = List.takeWhile (fun c => jsWS c) line ++ '-' :: r := e1
            _ = List.takeWhile (fun c => jsWS c) line ++ '-' ::
                  (List.takeWhile (fun c => jsWS c) r ++ '[' :: m0 :: ']' :: u) := by
                rw [← e2]
            _ = (List.takeWhile (fun c => jsWS c) line ++
                  '-' :: (List.takeWhile (fun c => jsWS c) r ++ ['['])) ++
                    m0 :: ']' :: u := by
                simp [List.append_assoc]
        · simp only [Bool.and_eq_true, Bool.or_eq_true, beq_iff_eq] at hcond
          have := hcond.1.1
          tauto
      next => exact absurd h (by simp)
    next => exact absurd h (by simp)
  next => exact absurd h (by simp)

/-- **C5.** When `toggleTask` locates a line matching the checkbox pattern
and writes, the new file is the old one with exactly that line replaced,
and the replaced line is the old line with exactly one character changed:
the checkbox mark (space becomes `x`; `x` or `X` becomes space). -/
theorem toggle_frame (md out : Str) (t : Task)
    (h : (toggleTaskFile md t).written = some out) :
    ∃ idx j m m1,
      idx < (splitLines md).length ∧
      j < ((splitLines md).getD idx []).length ∧
      splitLines out =
        (splitLines md).set idx (((splitLines md).getD idx []).set j m1) ∧
      ((splitLines md).getD idx []).getD j ' ' = m ∧
      m1 ≠ m ∧
      ((m = ' ' ∧ m1 = 'x') ∨ ((m = 'x' ∨ m = 'X') ∧ m1 = ' ')) := by
  simp only [toggleTaskFile] at h
  split at h
  next => exact absurd h (by simp)
  next idx hfind =>
    split at h
    next => exact absurd h (by simp)
    next g1 m0 g3 htm =>
      simp only [Option.some.injEq] at h
      set lines := splitLines md with hlines
      obtain ⟨hline, hclass⟩ := toggleMatch_decomp _ _ _ _ htm
      have hidx : idx < lines.length := by
        rcases List.findIdx?_eq_some_iff_getElem.1 hfind with ⟨hlt, -⟩
        exact hlt
      set nm : Char := if m0 == 'x' || m0 == 'X' then ' ' else 'x' with hnm
      have hset : (lines.getD idx []).set g1.length nm = g1 ++ nm :: g3 := by
        rw [hline]; exact set_at_append g1 m0 nm g3
      have hnmval : (m0 = ' ' ∧ nm = 'x') ∨ ((m0 = 'x' ∨ m0 = 'X') ∧ nm = ' ') := by
        rcases hclass with hc | hc | hc
        · refine Or.inl ⟨hc, ?_⟩
          rw [hnm, hc]
          rfl
        · refine Or.inr ⟨Or.inl hc, ?_⟩
          rw [hnm, hc]
          rfl
        · refine Or.inr ⟨Or.inr hc, ?_⟩
          rw [hnm, hc]
          rfl
      have hmem : ∀ l ∈ lines.set idx (g1 ++ nm :: g3), '\n' ∉ l := by
        intro l hl
        rcases List.mem_or_eq_of_mem_set hl with h1 | h1
        · exact mem_splitLines_no_newline md l h1
        · subst h1
          have hgd : lines.getD idx [] ∈ lines := by
            rw [List.getD_eq_getElem lines [] hidx]
            exact List.getElem_mem hidx
          have hmemline := mem_splitLines_no_newline md (lines.getD idx []) hgd
          rw [hline] at hmemline
          intro hc
          rcases List.mem_append.1 hc with h2 | h2
          · exact hmemline (List.mem_append.2 (Or.inl h2))
          · rcases List.mem_cons.1 h2 with h3 | h3
            · rcases hnmval with ⟨-, h4⟩ | ⟨-, h4⟩ <;> rw [h4] at h3 <;> simp at h3
            · exact hmemline
                (List.mem_append.2 (Or.inr (List.mem_cons_of_mem _ h3)))
      have hsplit : splitLines out = lines.set idx (g1 ++ nm :: g3) := by
        rw [← h]
        refine splitLines_joinLines _ hmem ?_
        intro hc
        have hlen := List.length_set lines idx (g1 ++ nm :: g3)
        rw [hc] at hlen
        simp only [List.length_nil] at hlen
        omega
      refine ⟨idx, g1.length, m0, nm, hidx, ?_, ?_, ?_, ?_, ?_⟩
      · rw [hline]; simp
      · rw [hsplit, hset]
      · rw [hline]; exact getD_at_append g1 m0 ' ' g3
      · rcases hnmval with ⟨h1, h2⟩ | ⟨h1, h2⟩
        · rw [h1, h2]; decide
        · rcases h1 with h1 | h1 <;> rw [h1, h2] <;> decide
      · exact hnmval

/-- Concrete instantiation of `toggle_frame`: toggling the only task of a
one-line file. -/
theorem toggle_frame_witness :
    ∃ idx j m m1,
      idx < (splitLines (str "- [ ] a <!-- tid:ab12cd34 -->")).length ∧
      j < ((splitLines (str "- [ ] a <!-- tid:ab12cd34 -->")).getD idx []).length ∧
      splitLines (str "- [x] a <!-- tid:ab12cd34 -->") =
        (splitLines (str "- [ ] a <!-- tid:ab12cd34 -->")).set idx
          (((splitLines (str "- [ ] a <!-- tid:ab12cd34 -->")).getD idx []).set j m1) ∧
      ((splitLines (str "- [ ] a <!-- tid:ab12cd34 -->")).getD idx []).getD j ' ' = m ∧
      m1 ≠ m ∧
      ((m = ' ' ∧ m1 = 'x') ∨ ((m = 'x' ∨ m = 'X') ∧ m1 = ' ')) :=
  toggle_frame (str "- [ ] a <!-- tid:ab12cd34 -->")
    (str "- [x] a <!-- tid:ab12cd34 -->")
    ⟨str "ab12cd34", 0, str "a", false, true, none, none, []⟩ rfl

/-! ## Scanner toolkit

Lemmas about `takeLit`, whitespace dropping, and the id-token scanners,
used to show that the trailing canonical token of a built or migrated line
is always the one the parser extracts, whatever precedes it. -/

theorem takeLit_self (lit r : Str) : takeLit lit (lit ++ r) = some r := by
  induction lit with
  | nil => simp [takeLit]
  | cons c cs ih => simp [takeLit, ih]

theorem takeLit_eq_some (lit : Str) : ∀ s r : Str, takeLit lit s = some r →
    s = lit ++ r := by
  induction lit with
  | nil =>
    intro s r h
    simp only [takeLit, Option.some.injEq] at h
    simp [h]
  | cons c cs ih =>
    intro s r h
    cases s with
    | nil => simp [takeLit] at h
    | cons a as =>
      by_cases hc : a = c
      · subst hc
        simp only [takeLit, if_pos rfl] at h
        simp [ih as r h]
      · simp [takeLit, hc] at h

theorem takeLit_append_force (lit A : Str) (b : Char) (B r : Str)
    (hA : A ≠ [])
    (hno : ∀ k, 0 < k → k < lit.length → lit.getD k ' ' ≠ b)
    (h : takeLit lit (A ++ b :: B) = some r) :
    ∃ A2, A = lit ++ A2 ∧ r = A2 ++ b :: B := by
  have he : A ++ b :: B = lit ++ r := takeLit_eq_some _ _ _ h
  by_cases hlen : lit.length ≤ A.length
  · refine ⟨A.drop lit.length, ?_, ?_⟩
    · have h2 : A.take lit.length ++ (A.drop lit.length ++ b :: B) = lit ++ r := by
        rw [← List.append_assoc, List.take_append_drop]
        exact he
      have h3 := List.append_inj h2 (by simp [List.length_take]; omega)
      conv_lhs => rw [← List.take_append_drop lit.length A]
      rw [h3.1]
    · have h2 : A.take lit.length ++ (A.drop lit.length ++ b :: B) = lit ++ r := by
        rw [← List.append_assoc, List.take_append_drop]
        exact he
      have h3 := List.append_inj h2 (by simp [List.length_take]; omega)
      exact h3.2.symm
  · push_neg at hlen
    exfalso
    have hAl : 0 < A.length := List.length_pos.2 hA
    have hL : (A ++ b :: B).getD A.length ' ' = b := getD_at_append A b ' ' B
    have hR : (lit ++ r).getD A.length ' ' = lit.getD A.length ' ' :=
      List.getD_append _ _ _ _ hlen
    rw [he, hR] at hL
    exact hno A.length hAl hlen hL

theorem dropWS_cons_neg (c : Char) (t : Str) (h : jsWS c = false) :
    dropWS (c :: t) = c :: t := by
  simp [dropWS, List.dropWhile_cons, h]

theorem dropWS_append_head (A : Str) (b : Char) (B : Str) (hb : jsWS b = false) :
    dropWS (A ++ b :: B) =
      (if (dropWS A).isEmpty then [] else dropWS A) ++ b :: B := by
  simp only [dropWS, List.dropWhile_append]
  by_cases h : (A.dropWhile (fun c => jsWS c)).isEmpty
  · simp [h, List.dropWhile_cons, hb]
  · simp [h]

theorem mem_ws_of_dropWS_nil (A : Str) (h : dropWS A = []) :
    ∀ c ∈ A, jsWS c = true := by
  intro c hc
  have := List.dropWhile_eq_nil_iff.1 h
  exact this c hc

theorem taskIdToken_cons (id : Str) :
    taskIdToken id = '<' :: (str "!-- tid:" ++ id ++ str " -->") := by
  simp [taskIdToken, str]

/-- `takeLit` on junk followed by the canonical token, for a literal none
of whose later characters is `<`: the literal must be consumed entirely
inside the junk. -/
theorem takeLit_junk_tok_force (lit A id r : Str) (hA : A ≠ [])
    (hno : ∀ k, 0 < k → k < lit.length → lit.getD k ' ' ≠ '<')
    (h : takeLit lit (A ++ taskIdToken id) = some r) :
    ∃ A2, A = lit ++ A2 ∧ r = A2 ++ taskIdToken id := by
  rw [taskIdToken_cons] at h
  obtain ⟨A2, e1, e2⟩ := takeLit_append_force lit A '<' _ r hA hno h
  exact ⟨A2, e1, by rw [e2, ← taskIdToken_cons]⟩

theorem dropWS_junk_tok (A id : Str) :
    dropWS (A ++ taskIdToken id) =
      (if (dropWS A).isEmpty then [] else dropWS A) ++ taskIdToken id := by
  rw [taskIdToken_cons, dropWS_append_head A '<' _ (by decide), ← taskIdToken_cons]

theorem takeWhile_hex_junk_tok (A id : Str) :
    (A ++ taskIdToken id).takeWhile (fun c => hexChar c) =
      A.takeWhile (fun c => hexChar c) := by
  rw [taskIdToken_cons, List.takeWhile_append]
  by_cases h : (A.takeWhile (fun c => hexChar c)).length = A.length
  · rw [if_pos h]
    have : A.takeWhile (fun c => hexChar c) = A :=
      (List.takeWhile_prefix _).eq_of_length h
    rw [this]
    simp [List.takeWhile_cons, hexChar]
  · rw [if_neg h]

theorem dropWhile_hex_junk_tok (A id : Str) :
    (A ++ taskIdToken id).dropWhile (fun c => hexChar c) =
      A.dropWhile (fun c => hexChar c) ++ taskIdToken id := by
  rw [taskIdToken_cons, List.dropWhile_append]
  by_cases h : (A.dropWhile (fun c => hexChar c)).isEmpty
  · rw [if_pos h]
    rw [List.isEmpty_iff.1 h]
    simp [List.dropWhile_cons, hexChar]
  · rw [if_neg h]

theorem dropWS_junk_tok_ne_nil (A id : Str) :
    dropWS (A ++ taskIdToken id) ≠ [] := by
  intro hnil
  have h := mem_ws_of_dropWS_nil _ hnil '<'
    (by rw [taskIdToken_cons]; exact List.mem_append.2 (Or.inr (List.mem_cons_self _ _)))
  simp [jsWS] at h

/-- The canonical token never matches the html-token scanner when preceded
by non-empty junk: the scanner must consume to the very end of the input,
and every continuation is blocked by the `<` that opens the trailing
token. -/
theorem htmlIdHere_junk_tok (id Y : Str) (hY : Y ≠ []) :
    htmlIdHere (Y ++ taskIdToken id) = none := by
  cases hre : htmlIdHere (Y ++ taskIdToken id) with
  | none => rfl
  | some v =>
    exfalso
    unfold htmlIdHere at hre
    cases h1 : takeLit (str "<!--") (Y ++ taskIdToken id) with
    | none => rw [h1] at hre; simp at hre
    | some s1 =>
      rw [h1] at hre
      simp only [Option.bind_eq_bind, Option.some_bind] at hre
      obtain ⟨Y1, -, hs1⟩ := takeLit_junk_tok_force (str "<!--") Y id s1 hY
        (by intro k hk1 hk2
            rw [show (str "<!--").length = 4 from rfl] at hk2
            interval_cases k <;> decide) h1
      subst hs1
      rw [dropWS_junk_tok] at hre
      by_cases he1 : (dropWS Y1).isEmpty
      · rw [if_pos he1] at hre
        rw [show ([] : Str) ++ taskIdToken id = taskIdToken id from rfl,
          taskIdToken_cons] at hre
        simp [takeLit, str] at hre
      · rw [if_neg he1] at hre
        cases h2 : takeLit (str "tid:") (dropWS Y1 ++ taskIdToken id) with
        | none => rw [h2] at hre; simp at hre
        | some s2 =>
          rw [h2] at hre
          simp only [Option.some_bind] at hre
          obtain ⟨Y2, -, hs2⟩ := takeLit_junk_tok_force (str "tid:")
            (dropWS Y1) id s2 (by simpa [List.isEmpty_iff] using he1)
            (by intro k hk1 hk2
                rw [show (str "tid:").length = 4 from rfl] at hk2
                interval_cases k <;> decide) h2
          subst hs2
          rw [takeWhile_hex_junk_tok, dropWhile_hex_junk_tok] at hre
          by_cases hg : 6 ≤ (Y2.takeWhile (fun c => hexChar c)).length ∧
              (Y2.takeWhile (fun c => hexChar c)).length ≤ 32
          · rw [if_pos hg] at hre
            rw [dropWS_junk_tok] at hre
            by_cases he2 : (dropWS (Y2.dropWhile (fun c => hexChar c))).isEmpty
            · rw [if_pos he2] at hre
              rw [show ([] : Str) ++ taskIdToken id = taskIdToken id from rfl,
                taskIdToken_cons] at hre
              simp [takeLit, str] at hre
            · rw [if_neg he2] at hre
              cases h3 : takeLit (str "-->")
                  (dropWS (Y2.dropWhile (fun c => hexChar c)) ++ taskIdToken id) with
              | none => rw [h3] at hre; simp at hre
              | some s3 =>
                rw [h3] at hre
                simp only [Option.some_bind] at hre
                obtain ⟨Y3, -, hs3⟩ := takeLit_junk_tok_force (str "-->")
                  (dropWS (Y2.dropWhile (fun c => hexChar c))) id s3
                  (by simpa [List.isEmpty_iff] using he2)
                  (by intro k hk1 hk2
                      rw [show (str "-->").length = 3 from rfl] at hk2
                      interval_cases k <;> decide) h3
                subst hs3
                rw [if_neg (by simpa using dropWS_junk_tok_ne_nil Y3 id)] at hre
                exact Option.noConfusion hre
          · rw [if_neg hg] at hre
            exact Option.noConfusion hre

/-- The html-token scanner accepts the canonical token of a well-formed id
and captures exactly the id. -/
theorem htmlIdHere_tok (id : Str) (hhex : id.all (fun c => hexChar c) = true)
    (h6 : 6 ≤ id.length) (h32 : id.length ≤ 32) :
    htmlIdHere (taskIdToken id) = some id := by
  unfold htmlIdHere
  have e1 : takeLit (str "<!--") (taskIdToken id) =
      some (str " tid:" ++ (id ++ str " -->")) := by
    rw [show taskIdToken id =
      str "<!--" ++ (str " tid:" ++ (id ++ str " -->")) from rfl]
    exact takeLit_self _ _
  rw [e1]
  simp only [Option.bind_eq_bind, Option.some_bind]
  have e2 : dropWS (str " tid:" ++ (id ++ str " -->")) =
      str "tid:" ++ (id ++ str " -->") := rfl
  rw [e2, takeLit_self]
  simp only [Option.some_bind]
  have htid : id.takeWhile (fun c => hexChar c) = id :=
    List.takeWhile_eq_self_iff.2 (fun x hx => List.all_eq_true.1 hhex x hx)
  have hdid : id.dropWhile (fun c => hexChar c) = [] :=
    List.dropWhile_eq_nil_iff.2 (fun x hx => List.all_eq_true.1 hhex x hx)
  have e3 : (id ++ str " -->").takeWhile (fun c => hexChar c) = id := by
    rw [List.takeWhile_append, if_pos (by rw [htid])]
    rw [show List.takeWhile (fun c => hexChar c) (str " -->") = [] from rfl]
    simp
  have e4 : (id ++ str " -->").dropWhile (fun c => hexChar c) = str " -->" := by
    rw [List.dropWhile_append, if_pos (by rw [hdid]; rfl)]
    rfl
  rw [e3, e4, if_pos ⟨h6, h32⟩]
  rw [show dropWS (str " -->") = str "-->" from rfl]
  rw [show takeLit (str "-->") (str "-->") = some [] from rfl]
  simp only [Option.some_bind]
  rw [show dropWS ([] : Str) = [] from rfl]
  simp

/-- Whatever precedes it, the trailing canonical token of a line is the
(unique, leftmost) match of `TASK_ID_HTML_RE`, and the extracted id is its
payload. -/
theorem findHtmlId_junk_tok (id : Str) (hhex : id.all (fun c => hexChar c) = true)
    (h6 : 6 ≤ id.length) (h32 : id.length ≤ 32) (X : Str) :
    findHtmlId (X ++ taskIdToken id) = some id := by
  induction X with
  | nil =>
    rw [List.nil_append, taskIdToken_cons]
    show (htmlIdHere ('<' :: (str "!-- tid:" ++ id ++ str " -->"))).orElse
      (fun _ => findHtmlId (str "!-- tid:" ++ id ++ str " -->")) = some id
    rw [← taskIdToken_cons, htmlIdHere_tok id hhex h6 h32]
    rfl
  | cons c X ih =>
    rw [List.cons_append]
    show (htmlIdHere ((c :: X) ++ taskIdToken id)).orElse
      (fun _ => findHtmlId (X ++ taskIdToken id)) = some id
    rw [htmlIdHere_junk_tok id (c :: X) (by simp), ih]
    rfl

theorem htmlIdHere_payload (s id : Str) (h : htmlIdHere s = some id) :
    id.all (fun c => hexChar c) = true ∧ 6 ≤ id.length ∧ id.length ≤ 32 := by
  unfold htmlIdHere at h
  cases h1 : takeLit (str "<!--") s with
  | none => rw [h1] at h; simp at h
  | some s1 =>
    rw [h1] at h
    simp only [Option.bind_eq_bind, Option.some_bind] at h
    cases h2 : takeLit (str "tid:") (dropWS s1) with
    | none => rw [h2] at h; simp at h
    | some s2 =>
      rw [h2] at h
      simp only [Option.some_bind] at h
      by_cases hg : 6 ≤ (s2.takeWhile (fun c => hexChar c)).length ∧
          (s2.takeWhile (fun c => hexChar c)).length ≤ 32
      · rw [if_pos hg] at h
        cases h3 : takeLit (str "-->")
            (dropWS (s2.dropWhile (fun c => hexChar c))) with
        | none => rw [h3] at h; simp at h
        | some s3 =>
          rw [h3] at h
          simp only [Option.some_bind] at h
          by_cases h4 : dropWS s3 = []
          · rw [if_pos h4] at h
            injection h with h
            subst h
            refine ⟨List.all_eq_true.2 (fun x hx => List.mem_takeWhile_imp hx),
              hg.1, hg.2⟩
          · rw [if_neg h4] at h
            exact absurd h (by simp)
      · rw [if_neg hg] at h
        exact absurd h (by simp)

theorem legacyIdHere_payload (s id : Str) (h : legacyIdHere s = some id) :
    id.all (fun c => hexChar c) = true ∧ 6 ≤ id.length ∧ id.length ≤ 32 := by
  unfold legacyIdHere at h
  cases h1 : takeLit (str "\x7b#t:") s with
  | none => rw [h1] at h; simp at h
  | some s1 =>
    rw [h1] at h
    simp only [Option.bind_eq_bind, Option.some_bind] at h
    by_cases hg : 6 ≤ (s1.takeWhile (fun c => hexChar c)).length ∧
        (s1.takeWhile (fun c => hexChar c)).length ≤ 32
    · rw [if_pos hg] at h
      cases h3 : takeLit (str "\x7d") (s1.dropWhile (fun c => hexChar c)) with
      | none => rw [h3] at h; simp at h
      | some s3 =>
        rw [h3] at h
        simp only [Option.some_bind] at h
        by_cases h4 : dropWS s3 = []
        · rw [if_pos h4] at h
          injection h with h
          subst h
          refine ⟨List.all_eq_true.2 (fun x hx => List.mem_takeWhile_imp hx),
            hg.1, hg.2⟩
        · rw [if_neg h4] at h
          exact absurd h (by simp)
    · rw [if_neg hg] at h
      exact absurd h (by simp)

theorem findHtmlId_payload (s id : Str) (h : findHtmlId s = some id) :
    id.all (fun c => hexChar c) = true ∧ 6 ≤ id.length ∧ id.length ≤ 32 := by
  induction s with
  | nil => simp [findHtmlId] at h
  | cons c t ih =>
    rw [show findHtmlId (c :: t) =
      (htmlIdHere (c :: t)).orElse (fun _ => findHtmlId t) from rfl] at h
    cases h1 : htmlIdHere (c :: t) with
    | none =>
      rw [h1] at h
      exact ih (by simpa using h)
    | some v =>
      rw [h1] at h
      have hv : v = id := by simpa using h
      exact hv ▸ htmlIdHere_payload _ _ h1

theorem findLegacyId_payload (s id : Str) (h : findLegacyId s = some id) :
    id.all (fun c => hexChar c) = true ∧ 6 ≤ id.length ∧ id.length ≤ 32 := by
  induction s with
  | nil => simp [findLegacyId] at h
  | cons c t ih =>
    rw [show findLegacyId (c :: t) =
      (legacyIdHere (c :: t)).orElse (fun _ => findLegacyId t) from rfl] at h
    cases h1 : legacyIdHere (c :: t) with
    | none =>
      rw [h1] at h
      exact ih (by simpa using h)
    | some v =>
      rw [h1] at h
      have hv : v = id := by simpa using h
      exact hv ▸ legacyIdHere_payload _ _ h1

theorem extractTaskId_payload (s id : Str) (h : extractTaskId s = some id) :
    id.all (fun c => hexChar c) = true ∧ 6 ≤ id.length ∧ id.length ≤ 32 := by
  unfold extractTaskId at h
  cases h1 : findHtmlId s with
  | some v =>
    rw [h1] at h
    injection h with h
    exact h ▸ findHtmlId_payload s v h1
  | none =>
    rw [h1] at h
    exact findLegacyId_payload s id h

/-! ## Character-class and whitespace facts -/

theorem lineTerm_imp_ws (c : Char) (h : lineTerm c = true) : jsWS c = true := by
  simp only [lineTerm, Bool.or_eq_true, beq_iff_eq] at h
  simp only [jsWS, Bool.or_eq_true, beq_iff_eq, Bool.and_eq_true,
    decide_eq_true_eq]
  omega

theorem not_ws_not_term (c : Char) (h : jsWS c = false) : lineTerm c = false := by
  cases ht : lineTerm c
  · rfl
  · rw [lineTerm_imp_ws c ht] at h
    exact Bool.noConfusion h

theorem hexChar_not_ws (c : Char) (h : hexChar c = true) : jsWS c = false := by
  simp only [hexChar, Bool.or_eq_true, Bool.and_eq_true, decide_eq_true_eq] at h
  simp only [jsWS, Bool.or_eq_true, beq_iff_eq, Bool.and_eq_true,
    decide_eq_true_eq, Bool.eq_false_iff, ne_eq, not_or, not_and, not_le]
  omega

theorem digitChar_not_ws (c : Char) (h : digitChar c = true) : jsWS c = false := by
  simp only [digitChar, Bool.and_eq_true, decide_eq_true_eq] at h
  simp only [jsWS, Bool.or_eq_true, beq_iff_eq, Bool.and_eq_true,
    decide_eq_true_eq, Bool.eq_false_iff, ne_eq, not_or, not_and, not_le]
  omega

/-- Strings free of line terminators (the `.`/`$`-blocking characters). -/
def noTerm (s : Str) : Prop := ∀ c ∈ s, lineTerm c = false

theorem noTerm_append (A B : Str) (hA : noTerm A) (hB : noTerm B) :
    noTerm (A ++ B) := by
  intro c hc
  rcases List.mem_append.1 hc with h | h
  · exact hA c h
  · exact hB c h

theorem noTerm_of_all_hex (s : Str) (h : s.all (fun c => hexChar c) = true) :
    noTerm s := by
  intro c hc
  exact not_ws_not_term c (hexChar_not_ws c (List.all_eq_true.1 h c hc))

theorem noTerm_tok (id : Str) (hhex : id.all (fun c => hexChar c) = true) :
    noTerm (taskIdToken id) := by
  intro c hc
  rw [show taskIdToken id = str "<!-- tid:" ++ (id ++ str " -->") from rfl] at hc
  rcases List.mem_append.1 hc with h | h
  · exact (by decide : ∀ c ∈ str "<!-- tid:", lineTerm c = false) c h
  · rcases List.mem_append.1 h with h | h
    · exact noTerm_of_all_hex id hhex c h
    · exact (by decide : ∀ c ∈ str " -->", lineTerm c = false) c h

theorem collapseGo_noTerm (b : Bool) (s : Str) : noTerm (collapseGo b s) := by
  induction s generalizing b with
  | nil => intro c hc; simp [collapseGo] at hc
  | cons a t ih =>
    intro c hc
    unfold collapseGo at hc
    by_cases hw : jsWS a
    · rw [if_pos hw] at hc
      by_cases hb : b
      · rw [if_pos hb] at hc
        exact ih true c hc
      · rw [if_neg hb] at hc
        rcases List.mem_cons.1 hc with h | h
        · subst h; decide
        · exact ih true c h
    · rw [if_neg hw] at hc
      rcases List.mem_cons.1 hc with h | h
      · rw [h]
        exact not_ws_not_term a (by simpa using hw)
      · exact ih false c h

theorem collapseWS_noTerm (s : Str) : noTerm (collapseWS s) :=
  collapseGo_noTerm false s

theorem mem_trimJS (s : Str) (c : Char) (h : c ∈ trimJS s) : c ∈ s := by
  unfold trimJS dropWS at h
  have h1 := (List.dropWhile_sublist (l := (List.dropWhile (fun c => jsWS c) s).reverse)
    (p := fun c => jsWS c)).subset (List.mem_reverse.1 h)
  have h2 := (List.dropWhile_sublist (l := s) (p := fun c => jsWS c)).subset
    (List.mem_reverse.1 h1)
  exact h2

theorem noTerm_trimJS (s : Str) (h : noTerm s) : noTerm (trimJS s) :=
  fun c hc => h c (mem_trimJS s c hc)

theorem trimJS_isPrefix_dropWS (s : Str) : trimJS s <+: dropWS s := by
  have h0 : List.dropWhile (fun c => jsWS c) ((dropWS s).reverse) <:+
      (dropWS s).reverse := List.dropWhile_suffix _
  have h1 := List.reverse_prefix.2 h0
  rw [List.reverse_reverse] at h1
  exact h1

theorem trimJS_head_not_ws (s : Str) (c : Char) (t : Str)
    (h : trimJS s = c :: t) : jsWS c = false := by
  have hpre := trimJS_isPrefix_dropWS s
  rw [h] at hpre
  obtain ⟨r, hr⟩ := hpre
  have hd : List.dropWhile (fun c => jsWS c) s = c :: (t ++ r) := by
    rw [show List.dropWhile (fun c => jsWS c) s = dropWS s from rfl, ← hr]
    simp
  have hh := List.head_dropWhile_not (p := fun c => jsWS c) (l := s)
    (w := by rw [hd]; simp)
  simpa [hd] using hh

theorem trimJS_self (s : Str) (h1 : ∀ w, s.head? = some w → jsWS w = false)
    (h2 : ∀ w, s.getLast? = some w → jsWS w = false) : trimJS s = s := by
  cases s with
  | nil => rfl
  | cons c t =>
    unfold trimJS
    rw [show dropWS (c :: t) = c :: t from dropWS_cons_neg c t (h1 c rfl)]
    cases hrev : (c :: t).reverse with
    | nil => exact absurd hrev (by simp)
    | cons d r =>
      have hdw : jsWS d = false := by
        refine h2 d ?_
        rw [← List.head?_reverse, hrev]
        rfl
      have hdrop : List.dropWhile (fun c => jsWS c) (d :: r) = d :: r := by
        rw [List.dropWhile_cons, if_neg (by simp [hdw])]
      rw [hdrop, ← hrev, List.reverse_reverse]

/-! ## Intercalate and digit-rendering facts -/

theorem intercalate_cons_ne (a : Str) (rest : List Str) (h : rest ≠ []) :
    List.intercalate [' '] (a :: rest) =
      a ++ ' ' :: List.intercalate [' '] rest := by
  cases rest with
  | nil => exact absurd rfl h
  | cons b bs => simp [List.intercalate]

theorem mem_natBaseAux10 : ∀ fuel n acc c, c ∈ natBaseAux 10 fuel n acc →
    c ∈ acc ∨ digitChar c = true := by
  intro fuel
  induction fuel with
  | zero =>
    intro n acc c hc
    cases n <;> exact Or.inl (by simpa [natBaseAux] using hc)
  | succ f ih =>
    intro n acc c hc
    cases n with
    | zero => exact Or.inl (by simpa [natBaseAux] using hc)
    | succ k =>
      rw [show natBaseAux 10 (f + 1) (k + 1) acc =
        natBaseAux 10 f ((k + 1) / 10)
          ((if (k + 1) % 10 < 10 then Char.ofNat ('0'.toNat + (k + 1) % 10)
            else Char.ofNat ('a'.toNat + ((k + 1) % 10 - 10))) :: acc) from rfl] at hc
      rcases ih _ _ _ hc with h | h
      · rcases List.mem_cons.1 h with h1 | h1
        · right
          rw [h1, if_pos (Nat.mod_lt _ (by omega))]
          have hd : (k + 1) % 10 < 10 := Nat.mod_lt _ (by omega)
          set d := (k + 1) % 10 with hdd
          interval_cases d <;> decide
        · exact Or.inl h1
      · exact Or.inr h

theorem natBaseAux_acc_suffix : ∀ fuel n acc,
    ∃ pre : Str, natBaseAux 10 fuel n acc = pre ++ acc := by
  intro fuel
  induction fuel with
  | zero =>
    intro n acc
    cases n <;> exact ⟨[], rfl⟩
  | succ f ih =>
    intro n acc
    cases n with
    | zero => exact ⟨[], rfl⟩
    | succ k =>
      obtain ⟨pre, hpre⟩ := ih ((k + 1) / 10)
        ((if (k + 1) % 10 < 10 then Char.ofNat ('0'.toNat + (k + 1) % 10)
          else Char.ofNat ('a'.toNat + ((k + 1) % 10 - 10))) :: acc)
      refine ⟨pre ++ [(if (k + 1) % 10 < 10 then Char.ofNat ('0'.toNat + (k + 1) % 10)
          else Char.ofNat ('a'.toNat + ((k + 1) % 10 - 10)))], ?_⟩
      rw [show natBaseAux 10 (f + 1) (k + 1) acc =
        natBaseAux 10 f ((k + 1) / 10)
          ((if (k + 1) % 10 < 10 then Char.ofNat ('0'.toNat + (k + 1) % 10)
            else Char.ofNat ('a'.toNat + ((k + 1) % 10 - 10))) :: acc) from rfl, hpre]
      simp

theorem natDigits_all_digit (n : Nat) :
    ∀ c ∈ natDigits n, digitChar c = true := by
  intro c hc
  unfold natDigits at hc
  by_cases h : n = 0
  · rw [if_pos h] at hc
    rcases List.mem_singleton.1 hc with rfl
    decide
  · rw [if_neg h] at hc
    rcases mem_natBaseAux10 n n [] c hc with h1 | h1
    · simp at h1
    · exact h1

theorem natDigits_ne_nil (n : Nat) : natDigits n ≠ [] := by
  unfold natDigits
  by_cases h : n = 0
  · rw [if_pos h]; simp
  · rw [if_neg h]
    cases n with
    | zero => exact absurd rfl h
    | succ k =>
      rw [show natBaseAux 10 (k + 1) (k + 1) [] =
        natBaseAux 10 k ((k + 1) / 10)
          ((if (k + 1) % 10 < 10 then Char.ofNat ('0'.toNat + (k + 1) % 10)
            else Char.ofNat ('a'.toNat + ((k + 1) % 10 - 10))) :: []) from rfl]
      obtain ⟨pre, hpre⟩ := natBaseAux_acc_suffix k ((k + 1) / 10) _
      rw [hpre]
      simp

/-! ## The built line parses -/

theorem splitLines_single (s : Str) (h : '\n' ∉ s) : splitLines s = [s] := by
  unfold splitLines List.splitOn
  refine List.splitOnP_eq_single _ _ ?_
  intro x hx
  simp only [beq_iff_eq]
  intro he
  exact h (he ▸ hx)

theorem matchTaskLine_build (m : Char) (hm : m = ' ' ∨ m = 'x') (r : Char)
    (R : Str) (hr : jsWS r = false) (hnt : noTerm (r :: R)) :
    matchTaskLine ('-' :: ' ' :: '[' :: m :: ']' :: ' ' :: r :: R) =
      some (m, r :: R) := by
  have e0 : dropWS ('-' :: ' ' :: '[' :: m :: ']' :: ' ' :: r :: R) =
      '-' :: (' ' :: '[' :: m :: ']' :: ' ' :: r :: R) :=
    dropWS_cons_neg _ _ (by decide)
  have e1 : dropWS (' ' :: '[' :: m :: ']' :: ' ' :: r :: R) =
      '[' :: m :: ']' :: ' ' :: r :: R := by
    rw [show dropWS (' ' :: '[' :: m :: ']' :: ' ' :: r :: R) =
      dropWS ('[' :: m :: ']' :: ' ' :: r :: R) from rfl,
      dropWS_cons_neg _ _ (by decide)]
  have e2 : dropWS (' ' :: r :: R) = r :: R := by
    rw [show dropWS (' ' :: r :: R) = dropWS (r :: R) from rfl,
      dropWS_cons_neg r R hr]
  have e3 : (r :: R).any (fun c => lineTerm c) = false := by
    rw [List.any_eq_false]
    intro x hx
    simp [hnt x hx]
  have e4 : jsWS ' ' = true := by decide
  rcases hm with rfl | rfl <;>
    simp [matchTaskLine, e0, e1, e2, e3, e4]

theorem parseMeta_cleanedText_shape (text : Str) :
    ∃ W, (parseMeta text).cleanedText = trimJS (collapseWS W) := by
  cases h : findReason (replTok actMarker (replTok estMarker (stripTaskIdToken text))) with
  | some p => exact ⟨trimJS p.1, by simp [parseMeta, h]⟩
  | none =>
    exact ⟨replTok actMarker (replTok estMarker (stripTaskIdToken text)),
      by simp [parseMeta, h]⟩

/-- Well-behaved line fragment: non-empty, starting with a non-whitespace
character, free of line terminators. -/
def goodPart (p : Str) : Prop :=
  p ≠ [] ∧ jsWS (p.headD 'x') = false ∧ noTerm p

theorem intercalate_mid_tok (mid : List Str) (tokL : Str)
    (htok2 : ∀ w, tokL.head? = some w → jsWS w = false)
    (htok3 : noTerm tokL) (hmid : ∀ p ∈ mid, goodPart p) :
    ∃ Z, List.intercalate [' '] (mid ++ [tokL]) = Z ++ tokL ∧
      (∀ w, (Z ++ tokL).head? = some w → jsWS w = false) ∧
      noTerm (Z ++ tokL) := by
  induction mid with
  | nil =>
    refine ⟨[], by simp [List.intercalate], ?_, by simpa using htok3⟩
    simpa using htok2
  | cons p ps ih =>
    obtain ⟨Z, hZ, hh, hn⟩ := ih (fun q hq => hmid q (List.mem_cons_of_mem _ hq))
    obtain ⟨hp1, hp2, hp3⟩ := hmid p (List.mem_cons_self _ _)
    refine ⟨p ++ ' ' :: Z, ?_, ?_, ?_⟩
    · rw [List.cons_append, intercalate_cons_ne _ _ (by simp), hZ]
      simp
    · intro w hw
      cases p with
      | nil => exact absurd rfl hp1
      | cons a t =>
        simp only [List.cons_append, List.head?_cons] at hw
        injection hw with hw
        rw [← hw]
        simpa using hp2
    · rw [show (p ++ ' ' :: Z) ++ tokL = p ++ ' ' :: (Z ++ tokL) by simp]
      refine noTerm_append _ _ hp3 ?_
      intro c hc
      rcases List.mem_cons.1 hc with h | h
      · rw [h]; decide
      · exact hn c h

theorem noTerm_natDigits (n : Nat) : noTerm (natDigits n) := by
  intro c hc
  exact not_ws_not_term c (digitChar_not_ws c (natDigits_all_digit n c hc))

theorem buildTaskLine_structure (done : Bool) (text : Str) (meta : TaskMeta)
    (id : Str) (hreason : noTerm meta.reason) :
    ∃ mid : List Str,
      buildTaskLine done text meta id =
        '-' :: ' ' :: '[' :: (if done then 'x' else ' ') :: ']' :: ' ' ::
          List.intercalate [' '] (mid ++ [taskIdToken id]) ∧
      ∀ p ∈ mid, goodPart p := by
  refine ⟨(if (parseMeta text).cleanedText = [] then []
      else [(parseMeta text).cleanedText])
    ++ (match meta.estMin with
        | some n => [estMarker ++ natDigits n]
        | none => [])
    ++ (match meta.actMin with
        | some n => [actMarker ++ natDigits n]
        | none => [])
    ++ (if trimJS meta.reason = [] then []
        else [penFull ++ trimJS meta.reason]), ?_, ?_⟩
  · simp only [buildTaskLine]
    rw [show [str "- [" ++ [if done then 'x' else ' '] ++ [']']]
          ++ (if (parseMeta text).cleanedText = [] then []
              else [(parseMeta text).cleanedText])
          ++ (match meta.estMin with
              | some n => [estMarker ++ natDigits n]
              | none => [])
          ++ (match meta.actMin with
              | some n => [actMarker ++ natDigits n]
              | none => [])
          ++ (if trimJS meta.reason = [] then []
              else [penFull ++ trimJS meta.reason])
          ++ [taskIdToken id] =
        (str "- [" ++ [if done then 'x' else ' '] ++ [']'])
          :: ((if (parseMeta text).cleanedText = [] then []
              else [(parseMeta text).cleanedText])
            ++ (match meta.estMin with
                | some n => [estMarker ++ natDigits n]
                | none => [])
            ++ (match meta.actMin with
                | some n => [actMarker ++ natDigits n]
                | none => [])
            ++ (if trimJS meta.reason = [] then []
                else [penFull ++ trimJS meta.reason])
            ++ [taskIdToken id]) by simp]
    rw [intercalate_cons_ne _ _ (by simp)]
    cases done <;> simp [str, List.append_assoc]
  · intro p hp
    rcases List.mem_append.1 hp with hp | hp
    · rcases List.mem_append.1 hp with hp | hp
      · rcases List.mem_append.1 hp with hp | hp
        · by_cases hb : (parseMeta text).cleanedText = []
          · rw [if_pos hb] at hp
            simp at hp
          · rw [if_neg hb] at hp
            rcases List.mem_singleton.1 hp with rfl
            obtain ⟨W, hW⟩ := parseMeta_cleanedText_shape text
            refine ⟨hb, ?_, ?_⟩
            · cases hc : (parseMeta text).cleanedText with
              | nil => exact absurd hc hb
              | cons c t =>
                simp only [List.headD_cons]
                exact trimJS_head_not_ws _ c t (by rw [← hW, hc])
            · rw [hW]
              exact noTerm_trimJS _ (collapseWS_noTerm W)
        · cases he : meta.estMin with
          | none => rw [he] at hp; simp at hp
          | some n =>
            rw [he] at hp
            rcases List.mem_singleton.1 hp with rfl
            refine ⟨by simp [estMarker, str], rfl, ?_⟩
            exact noTerm_append _ _
              (by decide : ∀ c ∈ estMarker, lineTerm c = false)
              (noTerm_natDigits n)
      · cases ha : meta.actMin with
        | none => rw [ha] at hp; simp at hp
        | some n =>
          rw [ha] at hp
          rcases List.mem_singleton.1 hp with rfl
          refine ⟨by simp [actMarker, str], rfl, ?_⟩
          exact noTerm_append _ _
            (by decide : ∀ c ∈ actMarker, lineTerm c = false)
            (noTerm_natDigits n)
    · by_cases hr : trimJS meta.reason = []
      · rw [if_pos hr] at hp
        simp at hp
      · rw [if_neg hr] at hp
        rcases List.mem_singleton.1 hp with rfl
        refine ⟨by simp [penFull, str], rfl, ?_⟩
        exact noTerm_append _ _
          (by decide : ∀ c ∈ penFull, lineTerm c = false)
          (noTerm_trimJS _ hreason)

theorem getLast_junk_tok (Z id : Str) :
    (Z ++ taskIdToken id).getLast? = some '>' := by
  rw [List.getLast?_append_of_ne_nil Z (by simp [taskIdToken_cons])]
  show ((str "<!-- tid:" ++ id) ++ str " -->").getLast? = some '>'
  rw [List.getLast?_append_of_ne_nil _ (by simp [str])]
  rfl

/-- C10 (counterexample): the serializer's output is not accepted by the
parser for every metadata value. A reason containing a carriage return
survives `.trim()` into the built line; the task-line regex `(.*)$` cannot
span the terminator, so the single built line yields no task at all. -/
theorem buildTaskLine_reason_terminator_cex :
    parseTasks (fun _ => str "zzzzzzzz")
      (buildTaskLine false (str "t") ⟨none, none, str "a\rb"⟩
        (str "ab12cd34")) = [] := by
  rfl

theorem tok_head_not_ws (id : Str) :
    ∀ w, (taskIdToken id).head? = some w → jsWS w = false := by
  intro w hw
  rw [taskIdToken_cons, List.head?_cons] at hw
  simp only [Option.some.injEq] at hw
  rw [← hw]
  decide

theorem getLast_head_ws (Z id : Str) (r : Char) (R' : Str)
    (hR : Z ++ taskIdToken id = r :: R') :
    ∀ w, (r :: R').getLast? = some w → jsWS w = false := by
  intro w hw
  rw [← hR, getLast_junk_tok Z id] at hw
  injection hw with hw
  rw [← hw]
  decide

theorem cons_head_ws (r : Char) (R' : Str) (hrw : jsWS r = false) :
    ∀ w, (r :: R').head? = some w → jsWS w = false := by
  intro w hw
  injection hw with hw
  rw [← hw]
  exact hrw

theorem no_nl_taskline (m r : Char) (R' : Str) (hm : m = ' ' ∨ m = 'x')
    (hnt : noTerm (r :: R')) :
    '\n' ∉ ('-' :: ' ' :: '[' :: m :: ']' :: ' ' :: r :: R') := by
  intro hc
  simp only [List.mem_cons] at hc
  rcases hc with h | h | h | h | h | h | h | h
  · exact absurd h (by decide)
  · exact absurd h (by decide)
  · exact absurd h (by decide)
  · rcases hm with rfl | rfl <;> exact absurd h (by decide)
  · exact absurd h (by decide)
  · exact absurd h (by decide)
  · exact absurd (hnt '\n' (by rw [h]; exact List.mem_cons_self _ _))
      (by decide)
  · exact absurd (hnt '\n' (List.mem_cons_of_mem r h)) (by decide)

/-- C10 (amended): for every done flag, display text, metadata whose reason
contains no line terminator, and hexadecimal id of length 6 to 32, the line
produced by `buildTaskLine` matches the checkbox-task pattern and carries a
canonical id token, so `parseTasks` on that single line yields exactly one
task with the given id, `hasId = true`, the requested done flag, and line
index 0 — including the edge case of an empty display text. -/
theorem buildTaskLine_parses (done : Bool) (text : Str) (meta : TaskMeta)
    (id : Str) (fresh : Nat → Str)
    (hhex : id.all (fun c => hexChar c) = true)
    (h6 : 6 ≤ id.length) (h32 : id.length ≤ 32)
    (hreason : noTerm meta.reason) :
    ∃ m cap tsk,
      matchTaskLine (buildTaskLine done text meta id) = some (m, cap) ∧
      hasCanonicalTaskId (trimJS cap) = true ∧
      parseTasks fresh (buildTaskLine done text meta id) = [tsk] ∧
      tsk.id = id ∧ tsk.hasId = true ∧ tsk.done = done ∧
      tsk.lineIndex = 0 := by
  obtain ⟨mid, hbody, hmid⟩ := buildTaskLine_structure done text meta id hreason
  obtain ⟨Z, hZ, hhead, hnt⟩ := intercalate_mid_tok mid (taskIdToken id)
    (tok_head_not_ws id) (noTerm_tok id hhex) hmid
  cases hR : Z ++ taskIdToken id with
  | nil => exact absurd hR (by simp [taskIdToken_cons])
  | cons r R' =>
    have hrw : jsWS r = false := hhead r (by rw [hR]; rfl)
    have hnt' : noTerm (r :: R') := by rw [← hR]; exact hnt
    have hline : buildTaskLine done text meta id =
        '-' :: ' ' :: '[' :: (if done then 'x' else ' ') :: ']' :: ' ' ::
          r :: R' := by
      rw [hbody, hZ, hR]
    have hmatch : matchTaskLine (buildTaskLine done text meta id) =
        some ((if done then 'x' else ' '), r :: R') := by
      rw [hline]
      exact matchTaskLine_build _ (by cases done <;> simp) r R' hrw hnt'
    have htrim : trimJS (r :: R') = r :: R' :=
      trimJS_self (r :: R') (cons_head_ws r R' hrw)
        (getLast_head_ws Z id r R' hR)
    have hex2 : extractTaskId (trimJS (r :: R')) = some id := by
      rw [htrim, ← hR]
      unfold extractTaskId
      rw [findHtmlId_junk_tok id hhex h6 h32 Z]
    have hcan : hasCanonicalTaskId (trimJS (r :: R')) = true := by
      rw [htrim, ← hR]
      unfold hasCanonicalTaskId
      rw [findHtmlId_junk_tok id hhex h6 h32 Z]
      rfl
    have hnl : '\n' ∉ buildTaskLine done text meta id := by
      rw [hline]
      exact no_nl_taskline _ r R' (by cases done <;> simp) hnt'
    refine ⟨(if done then 'x' else ' '), r :: R',
      ⟨id, 0, (parseMeta (trimJS (r :: R'))).cleanedText, done, true,
        (parseMeta (trimJS (r :: R'))).estMin,
        (parseMeta (trimJS (r :: R'))).actMin,
        (parseMeta (trimJS (r :: R'))).reason⟩,
      hmatch, hcan, ?_, rfl, rfl, rfl, rfl⟩
    unfold parseTasks
    rw [splitLines_single _ hnl]
    simp only [parseTasksAux, hmatch, hex2, hcan]
    cases done <;> simp

/-! ## Migration toolkit (C8) -/

theorem suffix_append_cases (l₁ l₂ l₃ : Str) (h : l₁ <:+ l₂ ++ l₃) :
    l₁ <:+ l₃ ∨ ∃ X, X <:+ l₂ ∧ l₁ = X ++ l₃ := by
  obtain ⟨U, hU⟩ := h
  rcases List.append_eq_append_iff.1 hU with ⟨a, ha1, ha2⟩ | ⟨c, hc1, hc2⟩
  · exact Or.inr ⟨a, ⟨U, ha1.symm⟩, ha2⟩
  · exact Or.inl ⟨c, hc2.symm⟩

theorem matchTaskLine_suffix (l : Str) (m : Char) (cap : Str)
    (h : matchTaskLine l = some (m, cap)) :
    ∃ u, (']' :: u) <:+ l ∧ cap = dropWS u := by
  unfold matchTaskLine at h
  split at h
  next r heq1 =>
    split at h
    next m0 u heq2 =>
      split at h
      next hcond =>
        dsimp only [] at h
        split at h
        next => exact absurd h (by simp)
        next =>
          injection h with h
          simp only [Prod.mk.injEq] at h
          refine ⟨u, ?_, h.2.symm⟩
          have s1 : ('-' :: r) <:+ l := by
            rw [← heq1]; exact List.dropWhile_suffix _
          have s2 : ('[' :: m0 :: ']' :: u) <:+ r := by
            rw [← heq2]; exact List.dropWhile_suffix _
          have s3 : (']' :: u) <:+ ('[' :: m0 :: ']' :: u) := ⟨['[', m0], rfl⟩
          exact (s3.trans s2).trans ((List.suffix_cons '-' r).trans s1)
      next => exact absurd h (by simp)
    next => exact absurd h (by simp)
  next => exact absurd h (by simp)

theorem taskLineTest_of_match (l : Str) (m : Char) (cap : Str)
    (h : matchTaskLine l = some (m, cap)) : taskLineTest l = true := by
  unfold matchTaskLine at h
  unfold taskLineTest
  split at h
  next r heq1 =>
    split at h
    next m0 u heq2 =>
      split at h
      next hcond =>
        exact hcond
      next => exact absurd h (by simp)
    next => exact absurd h (by simp)
  next => exact absurd h (by simp)

theorem trimEndJS_self (s : Str)
    (h2 : ∀ w, s.getLast? = some w → jsWS w = false) : trimEndJS s = s := by
  unfold trimEndJS
  cases hrev : s.reverse with
  | nil => rw [List.dropWhile_nil, ← hrev, List.reverse_reverse]
  | cons d r =>
    have hdw : jsWS d = false := h2 d (by rw [← List.head?_reverse, hrev]; rfl)
    rw [List.dropWhile_cons, if_neg (by simp [hdw]), ← hrev,
      List.reverse_reverse]

theorem trimEndJS_junk_tok (A id : Str) :
    trimEndJS (A ++ taskIdToken id) = A ++ taskIdToken id := by
  refine trimEndJS_self _ ?_
  intro w hw
  rw [getLast_junk_tok A id] at hw
  injection hw with hw
  rw [← hw]
  decide

theorem trimJS_junk_tok (Y id : Str) :
    trimJS (Y ++ taskIdToken id) =
      (if (dropWS Y).isEmpty then [] else dropWS Y) ++ taskIdToken id := by
  show trimEndJS (dropWS (Y ++ taskIdToken id)) = _
  rw [dropWS_junk_tok, trimEndJS_junk_tok]

theorem hasCanonical_junk_tok (Y tid : Str)
    (hhex : tid.all (fun c => hexChar c) = true)
    (h6 : 6 ≤ tid.length) (h32 : tid.length ≤ 32) :
    hasCanonicalTaskId (trimJS (Y ++ taskIdToken tid)) = true := by
  rw [trimJS_junk_tok]
  unfold hasCanonicalTaskId
  rw [findHtmlId_junk_tok tid hhex h6 h32 _]
  rfl

theorem bracket_not_in_tok (tid : Str)
    (hhex : tid.all (fun c => hexChar c) = true) :
    ']' ∉ taskIdToken tid := by
  intro hm
  rw [show taskIdToken tid = str "<!-- tid:" ++ (tid ++ str " -->") from by
    simp [taskIdToken, List.append_assoc]] at hm
  rcases List.mem_append.1 hm with h1 | h1
  · exact absurd h1 (by decide)
  · rcases List.mem_append.1 h1 with h2 | h2
    · exact absurd (List.all_eq_true.1 hhex _ h2) (by decide)
    · exact absurd h2 (by decide)

/-- Any successful task-line match on a line ending in the canonical token
captures a tail that still ends in that token, so the parsed task keeps a
canonical id. -/
theorem matchTaskLine_canonical (X tid : Str) (m : Char) (cap : Str)
    (hhex : tid.all (fun c => hexChar c) = true)
    (h6 : 6 ≤ tid.length) (h32 : tid.length ≤ 32)
    (h : matchTaskLine (X ++ taskIdToken tid) = some (m, cap)) :
    hasCanonicalTaskId (trimJS cap) = true := by
  obtain ⟨u, hsuf, hcap⟩ := matchTaskLine_suffix _ m cap h
  rcases suffix_append_cases _ X _ hsuf with hin | ⟨X₂, hX₂, he⟩
  · exact absurd (hin.subset (List.mem_cons_self _ _))
      (bracket_not_in_tok tid hhex)
  · cases X₂ with
    | nil =>
      rw [List.nil_append, taskIdToken_cons] at he
      injection he with h1 _
      exact absurd h1 (by decide)
    | cons x X₃ =>
      rw [List.cons_append] at he
      injection he with h1 h2
      rw [hcap, h2, dropWS_junk_tok]
      exact hasCanonical_junk_tok _ tid hhex h6 h32

theorem ensureTaskIdOnLine_eq (line id : Str) :
    ensureTaskIdOnLine line id =
      (stripTaskIdToken line ++ [' ']) ++ taskIdToken id := by
  unfold ensureTaskIdOnLine
  exact trimEndJS_junk_tok _ id

theorem htmlIdHere_hex (s tid : Str) (h : htmlIdHere s = some tid) :
    tid.all (fun c => hexChar c) = true ∧ 6 ≤ tid.length ∧
      tid.length ≤ 32 := by
  unfold htmlIdHere at h
  cases h1 : takeLit (str "<!--") s with
  | none => rw [h1] at h; exact absurd h (by simp)
  | some s1 =>
    rw [h1] at h
    simp only [Option.bind_eq_bind, Option.some_bind] at h
    cases h2 : takeLit (str "tid:") (dropWS s1) with
    | none => rw [h2] at h; exact absurd h (by simp)
    | some s2 =>
      rw [h2] at h
      simp only [Option.some_bind] at h
      split at h
      next hcond =>
        cases h3 : takeLit (str "-->")
            (dropWS (s2.dropWhile (fun c => hexChar c))) with
        | none => rw [h3] at h; exact absurd h (by simp)
        | some s3 =>
          rw [h3] at h
          simp only [Option.some_bind] at h
          split at h
          next =>
            injection h with h
            subst h
            exact ⟨List.all_eq_true.2 fun c hc => List.mem_takeWhile_imp hc,
              hcond.1, hcond.2⟩
          next => exact absurd h (by simp)
      next => exact absurd h (by simp)

theorem legacyIdHere_hex (s tid : Str) (h : legacyIdHere s = some tid) :
    tid.all (fun c => hexChar c) = true ∧ 6 ≤ tid.length ∧
      tid.length ≤ 32 := by
  unfold legacyIdHere at h
  cases h1 : takeLit (str "\x7b#t:") s with
  | none => rw [h1] at h; exact absurd h (by simp)
  | some s1 =>
    rw [h1] at h
    simp only [Option.bind_eq_bind, Option.some_bind] at h
    split at h
    next hcond =>
      cases h2 : takeLit (str "\x7d")
          (s1.dropWhile (fun c => hexChar c)) with
      | none => rw [h2] at h; exact absurd h (by simp)
      | some s2 =>
        rw [h2] at h
        simp only [Option.some_bind] at h
        split at h
        next =>
          injection h with h
          subst h
          exact ⟨List.all_eq_true.2 fun c hc => List.mem_takeWhile_imp hc,
            hcond.1, hcond.2⟩
        next => exact absurd h (by simp)
    next => exact absurd h (by simp)

theorem findHtmlId_hex (s tid : Str) (h : findHtmlId s = some tid) :
    tid.all (fun c => hexChar c) = true ∧ 6 ≤ tid.length ∧
      tid.length ≤ 32 := by
  induction s with
  | nil => exact absurd h (by simp [findHtmlId])
  | cons c t ih =>
    rw [show findHtmlId (c :: t) =
      (htmlIdHere (c :: t)).orElse (fun _ => findHtmlId t) from rfl] at h
    cases hh : htmlIdHere (c :: t) with
    | some v =>
      rw [hh] at h
      injection h with h
      subst h
      exact htmlIdHere_hex _ _ hh
    | none =>
      rw [hh] at h
      exact ih h

theorem findLegacyId_hex (s tid : Str) (h : findLegacyId s = some tid) :
    tid.all (fun c => hexChar c) = true ∧ 6 ≤ tid.length ∧
      tid.length ≤ 32 := by
  induction s with
  | nil => exact absurd h (by simp [findLegacyId])
  | cons c t ih =>
    rw [show findLegacyId (c :: t) =
      (legacyIdHere (c :: t)).orElse (fun _ => findLegacyId t) from rfl] at h
    cases hh : legacyIdHere (c :: t) with
    | some v =>
      rw [hh] at h
      injection h with h
      subst h
      exact legacyIdHere_hex _ _ hh
    | none =>
      rw [hh] at h
      exact ih h

theorem extractTaskId_hex (s tid : Str) (h : extractTaskId s = some tid) :
    tid.all (fun c => hexChar c) = true ∧ 6 ≤ tid.length ∧
      tid.length ≤ 32 := by
  unfold extractTaskId at h
  cases hh : findHtmlId s with
  | some v =>
    rw [hh] at h
    injection h with h
    subst h
    exact findHtmlId_hex _ _ hh
  | none =>
    rw [hh] at h
    exact findLegacyId_hex _ _ h

theorem parseTasksAux_mem (fresh : Nat → Str) (lines : List Str) :
    ∀ i k t, t ∈ parseTasksAux fresh lines i k →
      i ≤ t.lineIndex ∧ t.lineIndex < i + lines.length ∧
      ∃ m cap, matchTaskLine (lines.getD (t.lineIndex - i) []) = some (m, cap) ∧
        t.hasId = hasCanonicalTaskId (trimJS cap) ∧
        (extractTaskId (trimJS cap) = some t.id ∨ ∃ j, t.id = fresh j) := by
  induction lines with
  | nil => intro i k t ht; exact absurd ht (by simp [parseTasksAux])
  | cons l rest ih =>
    intro i k t ht
    unfold parseTasksAux at ht
    cases hm : matchTaskLine l with
    | none =>
      rw [hm] at ht
      obtain ⟨h1, h2, m, cap, h3, h4, h5⟩ := ih (i + 1) k t ht
      refine ⟨by omega, by simp only [List.length_cons]; omega,
        m, cap, ?_, h4, h5⟩
      rw [show t.lineIndex - i = (t.lineIndex - (i + 1)) + 1 from by omega]
      rw [List.getD_cons_succ]
      exact h3
    | some p =>
      obtain ⟨m0, cap0⟩ := p
      rw [hm] at ht
      dsimp only [] at ht
      cases hx : extractTaskId (trimJS cap0) with
      | some tid =>
        rw [hx] at ht
        rcases List.mem_cons.1 ht with rfl | ht2
        · refine ⟨le_refl _, by simp only [List.length_cons]; omega,
            m0, cap0, ?_, rfl, Or.inl ?_⟩
          · rw [show (i : Nat) - i = 0 from by omega, List.getD_cons_zero]
            exact hm
          · exact hx
        · obtain ⟨h1, h2, m, cap, h3, h4, h5⟩ := ih (i + 1) k t ht2
          refine ⟨by omega, by simp only [List.length_cons]; omega,
            m, cap, ?_, h4, h5⟩
          rw [show t.lineIndex - i = (t.lineIndex - (i + 1)) + 1 from by omega]
          rw [List.getD_cons_succ]
          exact h3
      | none =>
        rw [hx] at ht
        rcases List.mem_cons.1 ht with rfl | ht2
        · refine ⟨le_refl _, by simp only [List.length_cons]; omega,
            m0, cap0, ?_, rfl, Or.inr ⟨k, rfl⟩⟩
          rw [show (i : Nat) - i = 0 from by omega, List.getD_cons_zero]
          exact hm
        · obtain ⟨h1, h2, m, cap, h3, h4, h5⟩ := ih (i + 1) (k + 1) t ht2
          refine ⟨by omega, by simp only [List.length_cons]; omega,
            m, cap, ?_, h4, h5⟩
          rw [show t.lineIndex - i = (t.lineIndex - (i + 1)) + 1 from by omega]
          rw [List.getD_cons_succ]
          exact h3

theorem parseTasksAux_complete (fresh : Nat → Str) (lines : List Str) :
    ∀ i k j, j < lines.length →
      (∃ m cap, matchTaskLine (lines.getD j []) = some (m, cap)) →
      ∃ t, t ∈ parseTasksAux fresh lines i k ∧ t.lineIndex = i + j := by
  induction lines with
  | nil => intro i k j hj _; simp at hj
  | cons l rest ih =>
    intro i k j hj hm
    cases j with
    | zero =>
      obtain ⟨m, cap, hmc⟩ := hm
      rw [List.getD_cons_zero] at hmc
      unfold parseTasksAux
      rw [hmc]
      dsimp only []
      cases hx : extractTaskId (trimJS cap) with
      | some tid => exact ⟨_, List.mem_cons_self _ _, rfl⟩
      | none => exact ⟨_, List.mem_cons_self _ _, rfl⟩
    | succ j' =>
      obtain ⟨m, cap, hmc⟩ := hm
      rw [List.getD_cons_succ] at hmc
      have hj' : j' < rest.length := by
        simp only [List.length_cons] at hj
        omega
      unfold parseTasksAux
      cases hm0 : matchTaskLine l with
      | none =>
        obtain ⟨t, ht, hidx⟩ := ih (i + 1) k j' hj' ⟨m, cap, hmc⟩
        exact ⟨t, ht, by omega⟩
      | some p =>
        obtain ⟨m0, cap0⟩ := p
        dsimp only []
        cases hx : extractTaskId (trimJS cap0) with
        | some tid =>
          obtain ⟨t, ht, hidx⟩ := ih (i + 1) k j' hj' ⟨m, cap, hmc⟩
          exact ⟨t, List.mem_cons_of_mem _ ht, by omega⟩
        | none =>
          obtain ⟨t, ht, hidx⟩ := ih (i + 1) (k + 1) j' hj' ⟨m, cap, hmc⟩
          exact ⟨t, List.mem_cons_of_mem _ ht, by omega⟩

theorem parseTasksAux_pairwise (fresh : Nat → Str) (lines : List Str) :
    ∀ i k, (parseTasksAux fresh lines i k).Pairwise
      (fun a b => a.lineIndex ≠ b.lineIndex) := by
  induction lines with
  | nil => intro i k; simp [parseTasksAux]
  | cons l rest ih =>
    intro i k
    unfold parseTasksAux
    cases hm : matchTaskLine l with
    | none => exact ih (i + 1) k
    | some p =>
      obtain ⟨m0, cap0⟩ := p
      dsimp only []
      cases hx : extractTaskId (trimJS cap0) with
      | some tid =>
        refine List.Pairwise.cons ?_ (ih (i + 1) k)
        intro b hb
        have h1 := (parseTasksAux_mem fresh rest (i + 1) k b hb).1
        show i ≠ b.lineIndex
        omega
      | none =>
        refine List.Pairwise.cons ?_ (ih (i + 1) (k + 1))
        intro b hb
        have h1 := (parseTasksAux_mem fresh rest (i + 1) (k + 1) b hb).1
        show i ≠ b.lineIndex
        omega

theorem mem_trimEndJS (c : Char) (s : Str) (h : c ∈ trimEndJS s) : c ∈ s := by
  unfold trimEndJS at h
  rw [List.mem_reverse] at h
  exact List.mem_reverse.1 ((List.dropWhile_suffix _).subset h)

theorem mem_cutWhenTail (c : Char) (p : Str → Bool) (s : Str)
    (h : c ∈ cutWhenTail p s) : c ∈ s := by
  induction s with
  | nil => exact absurd h (by simp [cutWhenTail])
  | cons a t ih =>
    unfold cutWhenTail at h
    split at h
    next => exact absurd h (by simp)
    next =>
      rcases List.mem_cons.1 h with rfl | h2
      · exact List.mem_cons_self _ _
      · exact List.mem_cons_of_mem _ (ih h2)

theorem mem_stripTaskIdToken (c : Char) (line : Str)
    (h : c ∈ stripTaskIdToken line) : c ∈ line := by
  unfold stripTaskIdToken at h
  exact mem_cutWhenTail c _ _ (mem_cutWhenTail c _ _ (mem_trimJS _ c h))

theorem noNl_ensure (line id : Str) (hl : '\n' ∉ line)
    (hhex : id.all (fun c => hexChar c) = true) :
    '\n' ∉ ensureTaskIdOnLine line id := by
  rw [ensureTaskIdOnLine_eq]
  intro hmem
  rcases List.mem_append.1 hmem with h1 | h1
  · rcases List.mem_append.1 h1 with h2 | h2
    · exact hl (mem_stripTaskIdToken _ _ h2)
    · exact absurd h2 (by decide)
  · exact absurd (noTerm_tok id hhex '\n' h1) (by decide)

theorem migrateAux_length (ts : List Task) (lines : List Str) :
    (migrateAux ts lines).1.length = lines.length := by
  induction ts generalizing lines with
  | nil => rfl
  | cons t ts ih =>
    unfold migrateAux
    split
    next => exact ih lines
    next =>
      dsimp only []
      split
      next =>
        show (migrateAux ts (lines.set t.lineIndex
          (ensureTaskIdOnLine (lines.getD t.lineIndex []) t.id))).1.length =
            lines.length
        rw [ih _]
        exact List.length_set lines _ _
      next => exact ih lines

theorem migrateAux_allId (ts : List Task) (lines : List Str)
    (h : ∀ t ∈ ts, t.hasId = true) : migrateAux ts lines = (lines, false) := by
  induction ts with
  | nil => rfl
  | cons t ts ih =>
    unfold migrateAux
    split
    next => exact ih fun u hu => h u (List.mem_cons_of_mem _ hu)
    next hfalse => exact absurd (h t (List.mem_cons_self t ts)) hfalse

theorem migrateAux_no_nl (ts : List Task) (lines : List Str)
    (hl : ∀ l ∈ lines, '\n' ∉ l)
    (hts : ∀ t ∈ ts, t.id.all (fun c => hexChar c) = true) :
    ∀ l ∈ (migrateAux ts lines).1, '\n' ∉ l := by
  induction ts generalizing lines with
  | nil => exact hl
  | cons t ts ih =>
    unfold migrateAux
    split
    next => exact ih lines hl fun u hu => hts u (List.mem_cons_of_mem _ hu)
    next =>
      dsimp only []
      split
      next hg =>
        show ∀ l ∈ (migrateAux ts (lines.set t.lineIndex
          (ensureTaskIdOnLine (lines.getD t.lineIndex []) t.id))).1, '\n' ∉ l
        refine ih _ ?_ fun u hu => hts u (List.mem_cons_of_mem _ hu)
        intro l hl'
        rcases List.mem_or_eq_of_mem_set hl' with h | h
        · exact hl l h
        · rw [h]
          refine noNl_ensure _ _ ?_ (hts t (List.mem_cons_self t ts))
          by_cases hlen : t.lineIndex < lines.length
          · rw [List.getD_eq_getElem lines [] hlen]
            exact hl _ (List.getElem_mem hlen)
          · rw [List.getD_eq_default lines [] (by omega)]
            simp
      next => exact ih lines hl fun u hu => hts u (List.mem_cons_of_mem _ hu)

theorem migrateAux_getD (ts : List Task) (lines : List Str) (j : Nat)
    (hd : ts.Pairwise (fun a b => a.lineIndex ≠ b.lineIndex)) :
    (migrateAux ts lines).1.getD j [] =
      match ts.find? (fun t => t.lineIndex == j) with
      | some t =>
        if t.hasId = false ∧ taskLineTest (lines.getD j []) = true then
          ensureTaskIdOnLine (lines.getD j []) t.id
        else lines.getD j []
      | none => lines.getD j [] := by
  induction ts generalizing lines with
  | nil => rfl
  | cons t ts ih =>
    have hd1 : ∀ u ∈ ts, t.lineIndex ≠ u.lineIndex :=
      (List.pairwise_cons.1 hd).1
    have hd2 : ts.Pairwise (fun a b => a.lineIndex ≠ b.lineIndex) :=
      (List.pairwise_cons.1 hd).2
    unfold migrateAux
    by_cases hj : t.lineIndex = j
    · rw [List.find?_cons_of_pos _ (by simp [hj])]
      have hnone : ts.find? (fun u => u.lineIndex == j) = none :=
        List.find?_eq_none.2 fun u hu => by
          simp only [beq_iff_eq]
          rw [← hj]
          exact fun he => hd1 u hu he.symm
      split
      next hidT =>
        rw [ih lines hd2, hnone]
        dsimp only []
        rw [if_neg (by simp [hidT])]
      next hidF =>
        dsimp only []
        split
        next hg =>
          have hlt : t.lineIndex < lines.length := by
            by_contra hge
            rw [List.getD_eq_default lines [] (by omega)] at hg
            exact absurd hg (by decide)
          show (migrateAux ts (lines.set t.lineIndex
            (ensureTaskIdOnLine (lines.getD t.lineIndex []) t.id))).1.getD
              j [] = _
          rw [ih _ hd2, hnone]
          subst hj
          rw [if_pos ⟨by simpa using hidF, hg⟩]
          simp [List.getD, List.getElem?_set_self, hlt]
        next hg =>
          rw [ih lines hd2, hnone]
          subst hj
          rw [if_neg (by intro hc; exact hg hc.2)]
    · rw [List.find?_cons_of_neg _ (by simp [hj])]
      split
      next => exact ih lines hd2
      next =>
        dsimp only []
        split
        next hg =>
          show (migrateAux ts (lines.set t.lineIndex
            (ensureTaskIdOnLine (lines.getD t.lineIndex []) t.id))).1.getD
              j [] = _
          rw [ih _ hd2]
          have hset : (lines.set t.lineIndex
              (ensureTaskIdOnLine (lines.getD t.lineIndex []) t.id)).getD
                j [] = lines.getD j [] := by
            simp [List.getD, List.getElem?_set_ne hj]
          rw [hset]
        next => exact ih lines hd2

theorem migrateFile_nochange (fresh : Nat → Str) (L : List Str)
    (hne : L ≠ []) (hnl : ∀ l ∈ L, '\n' ∉ l)
    (hgood : ∀ t ∈ parseTasksAux fresh L 0 0, t.hasId = true) :
    migrateFile fresh (joinLines L) = (joinLines L, false) := by
  have hsplit : splitLines (joinLines L) = L := splitLines_joinLines L hnl hne
  simp only [migrateFile]
  unfold parseTasks
  rw [hsplit, migrateAux_allId _ L hgood]

/-- **C8.** The load-time identifier migration is idempotent: one pass
rewrites exactly the guarded task lines lacking a canonical id, and a
second pass over its own output (with any id generator for the re-parse)
changes no line and reports `changed = false`, so no file write occurs.
`fresh₁` models `genTaskId`, which always yields 6–32 hexadecimal
characters. -/
theorem migrate_idempotent (fresh₁ fresh₂ : Nat → Str) (md : Str)
    (hf : ∀ k, (fresh₁ k).all (fun c => hexChar c) = true ∧
      6 ≤ (fresh₁ k).length ∧ (fresh₁ k).length ≤ 32) :
    migrateFile fresh₂ (migrateFile fresh₁ md).1 =
      ((migrateFile fresh₁ md).1, false) := by
  have hid : ∀ t ∈ parseTasksAux fresh₁ (splitLines md) 0 0,
      t.id.all (fun c => hexChar c) = true ∧ 6 ≤ t.id.length ∧
        t.id.length ≤ 32 := by
    intro t ht
    obtain ⟨-, -, m, cap, -, -, h5⟩ :=
      parseTasksAux_mem fresh₁ (splitLines md) 0 0 t ht
    rcases h5 with h | ⟨j, hj⟩
    · exact extractTaskId_hex _ _ h
    · rw [hj]; exact hf j
  have hgood : ∀ j m cap,
      matchTaskLine ((migrateAux (parseTasksAux fresh₁ (splitLines md) 0 0)
        (splitLines md)).1.getD j []) = some (m, cap) →
      hasCanonicalTaskId (trimJS cap) = true := by
    intro j m cap hmc
    rw [migrateAux_getD _ _ j
      (parseTasksAux_pairwise fresh₁ (splitLines md) 0 0)] at hmc
    cases hfind : (parseTasksAux fresh₁ (splitLines md) 0 0).find?
        (fun t => t.lineIndex == j) with
    | some t =>
      rw [hfind] at hmc
      dsimp only [] at hmc
      split at hmc
      next hcond =>
        rw [ensureTaskIdOnLine_eq] at hmc
        obtain ⟨ha, hb, hc⟩ := hid t (List.mem_of_find?_eq_some hfind)
        exact matchTaskLine_canonical _ _ m cap ha hb hc hmc
      next hcond =>
        have htj : t.lineIndex = j := by
          simpa using List.find?_some hfind
        have htest : taskLineTest ((splitLines md).getD j []) = true :=
          taskLineTest_of_match _ m cap hmc
        obtain ⟨-, -, m', cap', h3, h4, -⟩ :=
          parseTasksAux_mem fresh₁ (splitLines md) 0 0 t
            (List.mem_of_find?_eq_some hfind)
        rw [show t.lineIndex - 0 = j from by omega] at h3
        rw [h3] at hmc
        injection hmc with hmc
        simp only [Prod.mk.injEq] at hmc
        by_cases hasid : t.hasId = true
        · rw [← hmc.2, ← h4]
          exact hasid
        · exact absurd ⟨by simpa using hasid, htest⟩ hcond
    | none =>
      rw [hfind] at hmc
      dsimp only [] at hmc
      have hjlt : j < (splitLines md).length := by
        by_contra hge
        rw [List.getD_eq_default _ _ (by omega)] at hmc
        have hnone : matchTaskLine ([] : Str) = none := rfl
        rw [hnone] at hmc
        exact absurd hmc (by simp)
      obtain ⟨t, ht, hidx⟩ :=
        parseTasksAux_complete fresh₁ (splitLines md) 0 0 j hjlt ⟨m, cap, hmc⟩
      exact absurd (by simp [hidx] : (t.lineIndex == j) = true)
        (List.find?_eq_none.1 hfind t ht)
  have hlen := migrateAux_length
    (parseTasksAux fresh₁ (splitLines md) 0 0) (splitLines md)
  have hnl := migrateAux_no_nl
    (parseTasksAux fresh₁ (splitLines md) 0 0) (splitLines md)
    (mem_splitLines_no_newline md) (fun t ht => (hid t ht).1)
  have hne : (migrateAux (parseTasksAux fresh₁ (splitLines md) 0 0)
      (splitLines md)).1 ≠ [] := by
    intro h0
    have h1 := splitLines_ne_nil md
    rw [h0] at hlen
    exact h1 (List.length_eq_zero.1 hlen.symm)
  have hall : ∀ t ∈ parseTasksAux fresh₂
      (migrateAux (parseTasksAux fresh₁ (splitLines md) 0 0)
        (splitLines md)).1 0 0,
      t.hasId = true := by
    intro t ht
    obtain ⟨-, -, m, cap, h3, h4, -⟩ := parseTasksAux_mem fresh₂ _ 0 0 t ht
    rw [h4]
    exact hgood (t.lineIndex - 0) m cap h3
  have hfin := migrateFile_nochange fresh₂ _ hne hnl hall
  show migrateFile fresh₂ (joinLines (migrateAux
    (parseTasksAux fresh₁ (splitLines md) 0 0) (splitLines md)).1) = _
  exact hfin

theorem migrate_idempotent_witness :
    migrateFile (fun _ => str "ab12cd34")
      (migrateFile (fun _ => str "ab12cd34")
        (str "- [ ] a\n- [x] b {#t:abc123}\nx")).1 =
      ((migrateFile (fun _ => str "ab12cd34")
        (str "- [ ] a\n- [x] b {#t:abc123}\nx")).1, false) :=
  migrate_idempotent (fun _ => str "ab12cd34") (fun _ => str "ab12cd34")
    (str "- [ ] a\n- [x] b {#t:abc123}\nx")
    (fun _ =>
      ⟨(by decide : (str "ab12cd34").all (fun c => hexChar c) = true),
        (by decide : 6 ≤ (str "ab12cd34").length),
        (by decide : (str "ab12cd34").length ≤ 32)⟩)

/-! ## Round-trip toolkit (C1) -/

theorem digit_char_val (r : Nat) (hr : r < 10) :
    (Char.ofNat ('0'.toNat + r)).toNat - '0'.toNat = r := by
  interval_cases r <;> decide

theorem natBaseAux_fold (fuel : Nat) :
    ∀ m acc, m ≤ fuel →
      List.foldl (fun a c => 10 * a + (c.toNat - '0'.toNat)) 0
          (natBaseAux 10 fuel m acc) =
        List.foldl (fun a c => 10 * a + (c.toNat - '0'.toNat)) m acc := by
  induction fuel with
  | zero =>
    intro m acc h
    have hm : m = 0 := by omega
    subst hm
    rfl
  | succ fuel ih =>
    intro m acc h
    cases m with
    | zero => rfl
    | succ n =>
      have hfuel : (n + 1) / 10 ≤ fuel := by
        have := Nat.div_lt_self (Nat.succ_pos n) (by norm_num : 1 < 10)
        omega
      show List.foldl (fun a c => 10 * a + (c.toNat - '0'.toNat)) 0
          (natBaseAux 10 fuel ((n + 1) / 10)
            ((if (n + 1) % 10 < 10 then Char.ofNat ('0'.toNat + (n + 1) % 10)
              else Char.ofNat ('a'.toNat + ((n + 1) % 10 - 10))) :: acc)) = _
      rw [ih ((n + 1) / 10) _ hfuel]
      show List.foldl (fun a c => 10 * a + (c.toNat - '0'.toNat))
          (10 * ((n + 1) / 10) +
            ((if (n + 1) % 10 < 10 then Char.ofNat ('0'.toNat + (n + 1) % 10)
              else Char.ofNat ('a'.toNat + ((n + 1) % 10 - 10))).toNat -
                '0'.toNat)) acc = _
      rw [if_pos (Nat.mod_lt _ (by norm_num))]
      rw [digit_char_val _ (Nat.mod_lt _ (by norm_num))]
      rw [Nat.div_add_mod (n + 1) 10]

theorem decVal_natDigits (n : Nat) : decDigitsVal (natDigits n) = n := by
  unfold natDigits
  by_cases h : n = 0
  · rw [if_pos h]
    subst h
    rfl
  · rw [if_neg h]
    unfold decDigitsVal
    rw [natBaseAux_fold n n [] (le_refl n)]
    rfl

theorem jsNonnegInt_digits (s : Str) (hne : s ≠ [])
    (hall : s.all (fun c => digitChar c) = true) :
    jsNonnegInt s = some (decDigitsVal s) := by
  cases s with
  | nil => exact absurd rfl hne
  | cons d ds =>
    have hd : digitChar d = true := List.all_eq_true.1 hall d
      (List.mem_cons_self _ _)
    have hd1 : d ≠ '+' := fun he => by
      rw [he] at hd; exact absurd hd (by decide)
    have hd2 : d ≠ '-' := fun he => by
      rw [he] at hd; exact absurd hd (by decide)
    unfold jsNonnegInt
    split
    next he => exact absurd he.symm (by simp)
    next tl he =>
      injection he with he1
      exact absurd he1 hd1
    next tl he =>
      injection he with he1
      exact absurd he1 hd2
    next h1 h2 h3 =>
      rw [if_pos hall]

theorem jsNonnegInt_natDigits (n : Nat) :
    jsNonnegInt (natDigits n) = some n := by
  rw [jsNonnegInt_digits _ (natDigits_ne_nil n)
    (List.all_eq_true.2 (natDigits_all_digit n)), decVal_natDigits]

theorem head?_mem {α : Type} (s : List α) (a : α) (h : s.head? = some a) :
    a ∈ s := by
  cases s with
  | nil => exact absurd h (by simp)
  | cons c t =>
    injection h with h
    rw [← h]
    exact List.mem_cons_self _ _

theorem takeLit_none_head (h0 : Char) (lt s : Str)
    (h : ∀ d, s.head? = some d → d ≠ h0) : takeLit (h0 :: lt) s = none := by
  cases s with
  | nil => rfl
  | cons c cs =>
    unfold takeLit
    rw [if_neg (h c rfl)]

theorem tokHere_none (h0 : Char) (lt u : Str)
    (h : ∀ d, u.head? = some d → d ≠ h0) : tokHere (h0 :: lt) u = none := by
  unfold tokHere
  rw [takeLit_none_head h0 lt u h]
  rfl

theorem takeWhile_nonws (D B : Str) (hDn : ∀ c ∈ D, jsWS c = false)
    (hB : B = [] ∨ ∃ B', B = ' ' :: B') :
    (D ++ B).takeWhile (fun c => !jsWS c) = D := by
  have hDall : D.takeWhile (fun c => !jsWS c) = D :=
    List.takeWhile_eq_self_iff.2 fun c hc => by simp [hDn c hc]
  rcases hB with rfl | ⟨B', rfl⟩
  · rw [List.append_nil]
    exact hDall
  · rw [List.takeWhile_append]
    rw [if_pos (by rw [hDall])]
    rw [show (' ' :: B').takeWhile (fun c => !jsWS c) = [] from by
      rw [List.takeWhile_cons]
      rw [if_neg (by decide)]]
    rw [List.append_nil]

theorem tokHere_val (lit D B : Str) (hD : D ≠ [])
    (hDn : ∀ c ∈ D, jsWS c = false)
    (hB : B = [] ∨ ∃ B', B = ' ' :: B') :
    tokHere lit (lit ++ (D ++ B)) = some D := by
  unfold tokHere
  rw [takeLit_self]
  simp only [Option.some_bind]
  rw [takeWhile_nonws D B hDn hB]
  rw [if_neg (by simp [List.isEmpty_iff, hD])]

theorem scanTokAux_none (h0 : Char) (lt : Str) : ∀ s, h0 ∉ s →
    scanTokAux (h0 :: lt) s = none := by
  intro s
  induction s with
  | nil => intro _; rfl
  | cons c t ih =>
    intro hh
    have hh' : h0 ∉ t := fun h => hh (List.mem_cons_of_mem c h)
    unfold scanTokAux
    rw [tokHere_none h0 lt t
      (fun d hd he => hh' (he ▸ head?_mem t d hd))]
    by_cases hw : jsWS c
    · rw [if_pos hw]
      show scanTokAux (h0 :: lt) t = none
      exact ih hh'
    · rw [if_neg hw]
      exact ih hh'

theorem scanTok_none (h0 : Char) (lt s : Str) (hh : h0 ∉ s) :
    scanTok (h0 :: lt) s = none := by
  unfold scanTok
  rw [tokHere_none h0 lt s (fun d hd he => hh (he ▸ head?_mem s d hd))]
  show scanTokAux (h0 :: lt) s = none
  exact scanTokAux_none h0 lt s hh

theorem tokHere_sep_none (h0 : Char) (lt A2 tail : Str)
    (hws : jsWS h0 = false) (hh : h0 ∉ A2) :
    tokHere (h0 :: lt) (A2 ++ ' ' :: tail) = none := by
  refine tokHere_none h0 lt _ (fun d hd he => ?_)
  cases A2 with
  | nil =>
    rw [List.nil_append] at hd
    injection hd with hd
    rw [← he, ← hd] at hws
    exact absurd hws (by decide)
  | cons b bt =>
    rw [List.cons_append] at hd
    injection hd with hd
    exact hh ((hd.trans he) ▸ List.mem_cons_self b bt)

theorem scanTokAux_sep (h0 : Char) (lt D B : Str) (hws : jsWS h0 = false)
    (hD : D ≠ []) (hDn : ∀ c ∈ D, jsWS c = false)
    (hB : B = [] ∨ ∃ B', B = ' ' :: B') :
    ∀ A, h0 ∉ A →
      scanTokAux (h0 :: lt) (A ++ ' ' :: ((h0 :: lt) ++ (D ++ B))) =
        some D := by
  intro A
  induction A with
  | nil =>
    intro _
    show scanTokAux (h0 :: lt) (' ' :: ((h0 :: lt) ++ (D ++ B))) = some D
    unfold scanTokAux
    rw [if_pos (by decide : jsWS ' ' = true)]
    rw [tokHere_val (h0 :: lt) D B hD hDn hB]
    rfl
  | cons a A' ih =>
    intro hh
    have hh' : h0 ∉ A' := fun h => hh (List.mem_cons_of_mem a h)
    have hne : h0 ≠ a := fun he => hh (he ▸ List.mem_cons_self _ _)
    show scanTokAux (h0 :: lt)
      (a :: (A' ++ ' ' :: ((h0 :: lt) ++ (D ++ B)))) = some D
    unfold scanTokAux
    rw [tokHere_sep_none h0 lt A' _ hws hh']
    by_cases hw : jsWS a
    · rw [if_pos hw]
      show scanTokAux (h0 :: lt) (A' ++ ' ' :: ((h0 :: lt) ++ (D ++ B))) =
        some D
      exact ih hh'
    · rw [if_neg hw]
      exact ih hh'

theorem scanTok_sep (h0 : Char) (lt D B : Str) (hws : jsWS h0 = false)
    (hD : D ≠ []) (hDn : ∀ c ∈ D, jsWS c = false)
    (hB : B = [] ∨ ∃ B', B = ' ' :: B') (A : Str) (hh : h0 ∉ A) :
    scanTok (h0 :: lt) (A ++ ' ' :: ((h0 :: lt) ++ (D ++ B))) = some D := by
  unfold scanTok
  rw [tokHere_sep_none h0 lt A _ hws hh]
  show scanTokAux (h0 :: lt) (A ++ ' ' :: ((h0 :: lt) ++ (D ++ B))) = some D
  exact scanTokAux_sep h0 lt D B hws hD hDn hB A hh

theorem scanTok_head (h0 : Char) (lt D B : Str) (hD : D ≠ [])
    (hDn : ∀ c ∈ D, jsWS c = false)
    (hB : B = [] ∨ ∃ B', B = ' ' :: B') :
    scanTok (h0 :: lt) ((h0 :: lt) ++ (D ++ B)) = some D := by
  unfold scanTok
  rw [tokHere_val (h0 :: lt) D B hD hDn hB]
  rfl

theorem replGo_id (h0 : Char) (lt : Str) : ∀ s, h0 ∉ s →
    replGo (h0 :: lt) false s = s := by
  intro s
  induction s with
  | nil => intro _; rfl
  | cons c t ih =>
    intro hh
    have hh' : h0 ∉ t := fun h => hh (List.mem_cons_of_mem c h)
    unfold replGo
    by_cases hw : jsWS c
    · rw [if_pos hw]
      rw [takeLit_none_head h0 lt t
        (fun d hd he => hh' (he ▸ head?_mem t d hd))]
      rw [ih hh']
    · rw [if_neg hw]
      simp only [Bool.false_eq_true, if_false]
      rw [ih hh']

theorem replTok_none (h0 : Char) (lt s : Str) (hh : h0 ∉ s) :
    replTok (h0 :: lt) s = s := by
  unfold replTok
  rw [takeLit_none_head h0 lt s (fun d hd he => hh (he ▸ head?_mem s d hd))]
  exact replGo_id h0 lt s hh

theorem replGo_skip (h0 : Char) (lt : Str) (B : Str)
    (hB : B = [] ∨ ∃ B', B = ' ' :: B') (hhB : h0 ∉ B) :
    ∀ D, (∀ c ∈ D, jsWS c = false) →
      replGo (h0 :: lt) true (D ++ B) = B := by
  intro D
  induction D with
  | nil =>
    intro _
    rw [List.nil_append]
    rcases hB with rfl | ⟨B', rfl⟩
    · rfl
    · have hhB' : h0 ∉ B' := fun h => hhB (List.mem_cons_of_mem ' ' h)
      show replGo (h0 :: lt) true (' ' :: B') = ' ' :: B'
      unfold replGo
      rw [if_pos (by decide : jsWS ' ' = true)]
      rw [takeLit_none_head h0 lt B'
        (fun d hd he => hhB' (he ▸ head?_mem B' d hd))]
      rw [replGo_id h0 lt B' hhB']
  | cons d D' ih =>
    intro hDn
    have hwd : jsWS d = false := hDn d (List.mem_cons_self _ _)
    show replGo (h0 :: lt) true (d :: (D' ++ B)) = B
    unfold replGo
    rw [if_neg (by simp [hwd])]
    simp only [if_true]
    exact ih fun c hc => hDn c (List.mem_cons_of_mem d hc)

theorem replGo_main (h0 : Char) (lt D B : Str) (hws : jsWS h0 = false)
    (hlitws : ∀ c ∈ h0 :: lt, jsWS c = false)
    (hD : D ≠ []) (hDn : ∀ c ∈ D, jsWS c = false)
    (hB : B = [] ∨ ∃ B', B = ' ' :: B') (hhB : h0 ∉ B) :
    ∀ A, h0 ∉ A →
      replGo (h0 :: lt) false (A ++ ' ' :: ((h0 :: lt) ++ (D ++ B))) =
        A ++ ' ' :: B := by
  intro A
  induction A with
  | nil =>
    intro _
    show replGo (h0 :: lt) false (' ' :: ((h0 :: lt) ++ (D ++ B))) =
      ' ' :: B
    unfold replGo
    rw [if_pos (by decide : jsWS ' ' = true)]
    rw [takeLit_self (h0 :: lt) (D ++ B)]
    dsimp only []
    rw [takeWhile_nonws D B hDn hB]
    rw [if_neg (by simp [List.isEmpty_iff, hD])]
    rw [show (h0 :: lt) ++ (D ++ B) = ((h0 :: lt) ++ D) ++ B from by
      rw [List.append_assoc]]
    rw [replGo_skip h0 lt B hB hhB ((h0 :: lt) ++ D)
      (fun c hc => by
        rcases List.mem_append.1 hc with h | h
        · exact hlitws c h
        · exact hDn c h)]
  | cons a A' ih =>
    intro hh
    have hh' : h0 ∉ A' := fun h => hh (List.mem_cons_of_mem a h)
    show replGo (h0 :: lt) false
      (a :: (A' ++ ' ' :: ((h0 :: lt) ++ (D ++ B)))) = a :: (A' ++ ' ' :: B)
    unfold replGo
    by_cases hw : jsWS a
    · rw [if_pos hw]
      rw [takeLit_none_head h0 lt (A' ++ ' ' :: ((h0 :: lt) ++ (D ++ B)))
        (fun d hd he => by
          cases A' with
          | nil =>
            rw [List.nil_append] at hd
            injection hd with hd
            rw [← he, ← hd] at hws
            exact absurd hws (by decide)
          | cons b bt =>
            rw [List.cons_append] at hd
            injection hd with hd
            exact hh' ((hd.trans he) ▸ List.mem_cons_self b bt))]
      rw [ih hh']
    · rw [if_neg hw]
      simp only [Bool.false_eq_true, if_false]
      rw [ih hh']

theorem replTok_sep (h0 : Char) (lt D B : Str) (hws : jsWS h0 = false)
    (hlitws : ∀ c ∈ h0 :: lt, jsWS c = false)
    (hD : D ≠ []) (hDn : ∀ c ∈ D, jsWS c = false)
    (hB : B = [] ∨ ∃ B', B = ' ' :: B') (hhB : h0 ∉ B)
    (A : Str) (hh : h0 ∉ A) :
    replTok (h0 :: lt) (A ++ ' ' :: ((h0 :: lt) ++ (D ++ B))) =
      A ++ ' ' :: B := by
  unfold replTok
  rw [takeLit_none_head h0 lt (A ++ ' ' :: ((h0 :: lt) ++ (D ++ B)))
    (fun d hd he => by
      cases A with
      | nil =>
        rw [List.nil_append] at hd
        injection hd with hd
        rw [← he, ← hd] at hws
        exact absurd hws (by decide)
      | cons b bt =>
        rw [List.cons_append] at hd
        injection hd with hd
        exact hh ((hd.trans he) ▸ List.mem_cons_self b bt))]
  exact replGo_main h0 lt D B hws hlitws hD hDn hB hhB A hh

theorem replTok_head (h0 : Char) (lt D B : Str)
    (hD : D ≠ []) (hDn : ∀ c ∈ D, jsWS c = false)
    (hB : B = [] ∨ ∃ B', B = ' ' :: B') (hhB : h0 ∉ B) :
    replTok (h0 :: lt) ((h0 :: lt) ++ (D ++ B)) = ' ' :: B := by
  unfold replTok
  rw [takeLit_self (h0 :: lt) (D ++ B)]
  dsimp only []
  rw [takeWhile_nonws D B hDn hB]
  rw [if_neg (by simp [List.isEmpty_iff, hD])]
  rw [replGo_skip h0 lt B hB hhB D hDn]

theorem takeLit_none_head2 (lit s : Str) (e : Char) (hl : lit.head? = some e)
    (h : ∀ d, s.head? = some d → d ≠ e) : takeLit lit s = none := by
  cases lit with
  | nil => exact absurd hl (by simp)
  | cons l ls =>
    injection hl with hl
    cases s with
    | nil => rfl
    | cons c cs =>
      unfold takeLit
      rw [if_neg (fun hce => (h c rfl) (hce.trans hl))]

theorem reasonHere_none (u : Str)
    (h : ∀ d, u.head? = some d → d ≠ '✍') : reasonHere u = none := by
  unfold reasonHere
  rw [takeLit_none_head2 penFull u '✍' rfl h]
  rw [takeLit_none_head2 penPlain u '✍' rfl h]

theorem reasonHere_val (R : Str) (hR : noTerm R) :
    reasonHere (penFull ++ R) = some R := by
  unfold reasonHere
  rw [takeLit_self penFull R]
  dsimp only []
  rw [if_neg (by
    rw [List.any_eq_false.2 (fun c hc => by simp [hR c hc])]
    simp)]

theorem head_ne_of_sep (e : Char) (hws : jsWS e = false) (A2 tail : Str)
    (hh : e ∉ A2) :
    ∀ d, (A2 ++ ' ' :: tail).head? = some d → d ≠ e := by
  intro d hd he
  cases A2 with
  | nil =>
    rw [List.nil_append] at hd
    injection hd with hd
    rw [← he, ← hd] at hws
    exact absurd hws (by decide)
  | cons b bt =>
    rw [List.cons_append] at hd
    injection hd with hd
    exact hh ((hd.trans he) ▸ List.mem_cons_self b bt)

theorem findReasonAux_sep (R : Str) (hR : noTerm R) :
    ∀ A, '✍' ∉ A →
      findReasonAux (A ++ ' ' :: (penFull ++ R)) = some (A, R) := by
  intro A
  induction A with
  | nil =>
    intro _
    show findReasonAux (' ' :: (penFull ++ R)) = some ([], R)
    unfold findReasonAux
    rw [if_pos (by decide : jsWS ' ' = true)]
    rw [reasonHere_val R hR]
  | cons a A' ih =>
    intro hh
    have hh' : '✍' ∉ A' := fun h => hh (List.mem_cons_of_mem a h)
    show findReasonAux (a :: (A' ++ ' ' :: (penFull ++ R))) =
      some (a :: A', R)
    unfold findReasonAux
    by_cases hw : jsWS a
    · rw [if_pos hw]
      rw [reasonHere_none _ (head_ne_of_sep '✍' (by decide) A' _ hh')]
      rw [ih hh']
      rfl
    · rw [if_neg hw]
      rw [ih hh']
      rfl

theorem findReason_sep (A R : Str) (hA : '✍' ∉ A) (hR : noTerm R) :
    findReason (A ++ ' ' :: (penFull ++ R)) = some (A, R) := by
  unfold findReason
  rw [reasonHere_none _ (head_ne_of_sep '✍' (by decide) A _ hA)]
  exact findReasonAux_sep R hR A hA

theorem findReason_head (R : Str) (hR : noTerm R) :
    findReason (penFull ++ R) = some ([], R) := by
  unfold findReason
  rw [reasonHere_val R hR]

theorem findReasonAux_none : ∀ s, '✍' ∉ s → findReasonAux s = none := by
  intro s
  induction s with
  | nil => intro _; rfl
  | cons c t ih =>
    intro hh
    have hh' : '✍' ∉ t := fun h => hh (List.mem_cons_of_mem c h)
    unfold findReasonAux
    by_cases hw : jsWS c
    · rw [if_pos hw]
      rw [reasonHere_none t
        (fun d hd he => hh' (he ▸ head?_mem t d hd))]
      rw [ih hh']
      rfl
    · rw [if_neg hw]
      rw [ih hh']
      rfl

theorem findReason_none (s : Str) (hh : '✍' ∉ s) : findReason s = none := by
  unfold findReason
  rw [reasonHere_none s (fun d hd he => hh (he ▸ head?_mem s d hd))]
  exact findReasonAux_none s hh

theorem htmlIdHere_none_head (u : Str)
    (h : ∀ d, u.head? = some d → d ≠ '<') : htmlIdHere u = none := by
  unfold htmlIdHere
  rw [takeLit_none_head2 (str "<!--") u '<' rfl h]
  rfl

theorem isHtml_false (S : Str) (h : '<' ∉ S) : isHtmlIdSuffix S = false := by
  unfold isHtmlIdSuffix
  rw [htmlIdHere_none_head (dropWS S) (fun d hd he =>
    h (he ▸ (List.dropWhile_suffix _).subset (head?_mem _ d hd)))]
  rfl

theorem cutWhenTail_html_noop (s : Str) (h : '<' ∉ s) :
    cutWhenTail isHtmlIdSuffix s = s := by
  induction s with
  | nil => rfl
  | cons c t ih =>
    unfold cutWhenTail
    rw [if_neg (by simp [isHtml_false (c :: t) h])]
    rw [ih fun hc => h (List.mem_cons_of_mem c hc)]

theorem legacyIdHere_none_head (u : Str)
    (h : ∀ d, u.head? = some d → d ≠ '\x7b') : legacyIdHere u = none := by
  unfold legacyIdHere
  rw [takeLit_none_head2 (str "\x7b#t:") u '\x7b' rfl h]
  rfl

theorem isLegacy_false (S : Str) (h : '\x7b' ∉ S) :
    isLegacyIdSuffix S = false := by
  unfold isLegacyIdSuffix
  rw [legacyIdHere_none_head (dropWS S) (fun d hd he =>
    h (he ▸ (List.dropWhile_suffix _).subset (head?_mem _ d hd)))]
  rfl

theorem cutWhenTail_legacy_noop (s : Str) (h : '\x7b' ∉ s) :
    cutWhenTail isLegacyIdSuffix s = s := by
  induction s with
  | nil => rfl
  | cons c t ih =>
    unfold cutWhenTail
    rw [if_neg (by simp [isLegacy_false (c :: t) h])]
    rw [ih fun hc => h (List.mem_cons_of_mem c hc)]

theorem isHtml_true_sep_tok (id : Str)
    (hhex : id.all (fun c => hexChar c) = true)
    (h6 : 6 ≤ id.length) (h32 : id.length ≤ 32) :
    isHtmlIdSuffix (' ' :: taskIdToken id) = true := by
  unfold isHtmlIdSuffix
  rw [show dropWS (' ' :: taskIdToken id) = dropWS (taskIdToken id) from rfl]
  rw [taskIdToken_cons, dropWS_cons_neg _ _ (by decide), ← taskIdToken_cons]
  rw [htmlIdHere_tok id hhex h6 h32]
  rfl

theorem isHtml_true_tok (id : Str)
    (hhex : id.all (fun c => hexChar c) = true)
    (h6 : 6 ≤ id.length) (h32 : id.length ≤ 32) :
    isHtmlIdSuffix (taskIdToken id) = true := by
  unfold isHtmlIdSuffix
  rw [taskIdToken_cons, dropWS_cons_neg _ _ (by decide), ← taskIdToken_cons]
  rw [htmlIdHere_tok id hhex h6 h32]
  rfl

theorem cutWhenTail_html_tok (id : Str)
    (hhex : id.all (fun c => hexChar c) = true)
    (h6 : 6 ≤ id.length) (h32 : id.length ≤ 32) :
    ∀ M, (∀ w, M.getLast? = some w → jsWS w = false) →
      cutWhenTail isHtmlIdSuffix (M ++ ' ' :: taskIdToken id) = M := by
  intro M
  induction M with
  | nil =>
    intro _
    show cutWhenTail isHtmlIdSuffix (' ' :: taskIdToken id) = []
    unfold cutWhenTail
    rw [if_pos (by simp [isHtml_true_sep_tok id hhex h6 h32])]
  | cons c Mt ih =>
    intro hlast
    have hfalse : isHtmlIdSuffix (c :: (Mt ++ ' ' :: taskIdToken id)) =
        false := by
      unfold isHtmlIdSuffix
      rw [show c :: (Mt ++ ' ' :: taskIdToken id) =
        ((c :: Mt) ++ [' ']) ++ taskIdToken id from by simp]
      rw [dropWS_junk_tok ((c :: Mt) ++ [' ']) id]
      by_cases he : (dropWS ((c :: Mt) ++ [' '])).isEmpty
      · exfalso
        have hnil : dropWS ((c :: Mt) ++ [' ']) = [] :=
          List.isEmpty_iff.1 he
        have hw := hlast ((c :: Mt).getLast (by simp))
          (List.getLast?_eq_getLast _ (by simp))
        have hmem : (c :: Mt).getLast (by simp) ∈ (c :: Mt) ++ [' '] :=
          List.mem_append.2 (Or.inl (List.getLast_mem _))
        rw [mem_ws_of_dropWS_nil _ hnil _ hmem] at hw
        exact absurd hw (by simp)
      · rw [if_neg he]
        rw [htmlIdHere_junk_tok id _ (by
          intro h0
          rw [h0] at he
          exact he rfl)]
        rfl
    show cutWhenTail isHtmlIdSuffix (c :: (Mt ++ ' ' :: taskIdToken id)) =
      c :: Mt
    unfold cutWhenTail
    rw [if_neg (by simp [hfalse])]
    have hlast' : ∀ w, Mt.getLast? = some w → jsWS w = false := by
      intro w hw
      cases Mt with
      | nil => simp at hw
      | cons b bt =>
        exact hlast w (by rw [List.getLast?_cons_cons]; exact hw)
    rw [ih hlast']

theorem cutWhenTail_html_tokOnly (id : Str)
    (hhex : id.all (fun c => hexChar c) = true)
    (h6 : 6 ≤ id.length) (h32 : id.length ≤ 32) :
    cutWhenTail isHtmlIdSuffix (taskIdToken id) = [] := by
  rw [taskIdToken_cons]
  unfold cutWhenTail
  rw [if_pos (by
    rw [← taskIdToken_cons]
    simp [isHtml_true_tok id hhex h6 h32])]

theorem stripTaskIdToken_built (id : Str)
    (hhex : id.all (fun c => hexChar c) = true)
    (h6 : 6 ≤ id.length) (h32 : id.length ≤ 32) (M : Str)
    (hlb : '\x7b' ∉ M)
    (hhead : ∀ w, M.head? = some w → jsWS w = false)
    (hlast : ∀ w, M.getLast? = some w → jsWS w = false) :
    stripTaskIdToken (M ++ ' ' :: taskIdToken id) = M := by
  unfold stripTaskIdToken
  rw [cutWhenTail_html_tok id hhex h6 h32 M hlast]
  rw [cutWhenTail_legacy_noop M hlb]
  exact trimJS_self M hhead hlast

theorem stripTaskIdToken_tokOnly (id : Str)
    (hhex : id.all (fun c => hexChar c) = true)
    (h6 : 6 ≤ id.length) (h32 : id.length ≤ 32) :
    stripTaskIdToken (taskIdToken id) = [] := by
  unfold stripTaskIdToken
  rw [cutWhenTail_html_tokOnly id hhex h6 h32]
  rfl

/-- Normal form of the whitespace collapse: every whitespace character is a
plain space and no two adjacent characters are both whitespace. -/
def spaced (s : Str) : Prop :=
  s.Chain' (fun a b => jsWS a = false ∨ jsWS b = false) ∧
    ∀ c ∈ s, jsWS c = true → c = ' '

theorem head?_dropWhile_ws (l : Str) (w : Char)
    (h : (l.dropWhile (fun c => jsWS c)).head? = some w) : jsWS w = false := by
  induction l with
  | nil => simp at h
  | cons c t ih =>
    rw [List.dropWhile_cons] at h
    by_cases hc : jsWS c
    · rw [if_pos (by simp [hc])] at h
      exact ih h
    · rw [if_neg (by simp [hc])] at h
      injection h with h
      rw [← h]
      simpa using hc

theorem trimJS_head?_not_ws (s : Str) (w : Char)
    (h : (trimJS s).head? = some w) : jsWS w = false := by
  cases he : trimJS s with
  | nil => rw [he] at h; simp at h
  | cons c t =>
    rw [he] at h
    injection h with h
    rw [← h]
    exact trimJS_head_not_ws s c t he

theorem trimEndJS_last_not_ws (s : Str) (w : Char)
    (h : (trimEndJS s).getLast? = some w) : jsWS w = false := by
  unfold trimEndJS at h
  rw [List.getLast?_reverse] at h
  exact head?_dropWhile_ws _ w h

theorem trimJS_last_not_ws (s : Str) (w : Char)
    (h : (trimJS s).getLast? = some w) : jsWS w = false := by
  have he : trimJS s = trimEndJS (dropWS s) := rfl
  rw [he] at h
  exact trimEndJS_last_not_ws _ w h

theorem collapseGo_cons (b : Bool) (c : Char) (t : Str) :
    collapseGo b (c :: t) =
      if jsWS c then
        (if b then collapseGo true t else ' ' :: collapseGo true t)
      else c :: collapseGo false t := rfl

theorem collapseGo_true_head (s : Str) :
    ∀ w, (collapseGo true s).head? = some w → jsWS w = false := by
  induction s with
  | nil => intro w h; simp [collapseGo] at h
  | cons c t ih =>
    intro w h
    unfold collapseGo at h
    by_cases hc : jsWS c
    · rw [if_pos hc, if_pos rfl] at h
      exact ih w h
    · rw [if_neg hc] at h
      injection h with h
      rw [← h]
      simpa using hc

theorem collapseGo_mem_ws : ∀ (b : Bool) (s : Str) (c : Char),
    c ∈ collapseGo b s → jsWS c = true → c = ' ' := by
  intro b s
  induction s generalizing b with
  | nil => intro c hc; simp [collapseGo] at hc
  | cons a t ih =>
    intro c hc hwc
    unfold collapseGo at hc
    by_cases hw : jsWS a
    · rw [if_pos hw] at hc
      cases b with
      | true => exact ih true c (by simpa using hc) hwc
      | false =>
        simp only [Bool.false_eq_true, if_false] at hc
        rcases List.mem_cons.1 hc with rfl | hc2
        · rfl
        · exact ih true c hc2 hwc
    · rw [if_neg hw] at hc
      rcases List.mem_cons.1 hc with rfl | hc2
      · rw [hwc] at hw; exact absurd rfl hw
      · exact ih false c hc2 hwc

theorem mem_collapseGo : ∀ (b : Bool) (s : Str) (c : Char),
    c ∈ collapseGo b s → c ∈ s ∨ c = ' ' := by
  intro b s
  induction s generalizing b with
  | nil => intro c hc; simp [collapseGo] at hc
  | cons a t ih =>
    intro c hc
    unfold collapseGo at hc
    by_cases hw : jsWS a
    · rw [if_pos hw] at hc
      cases b with
      | true =>
        rcases ih true c (by simpa using hc) with h | h
        · exact Or.inl (List.mem_cons_of_mem a h)
        · exact Or.inr h
      | false =>
        simp only [Bool.false_eq_true, if_false] at hc
        rcases List.mem_cons.1 hc with rfl | hc2
        · exact Or.inr rfl
        · rcases ih true c hc2 with h | h
          · exact Or.inl (List.mem_cons_of_mem a h)
          · exact Or.inr h
    · rw [if_neg hw] at hc
      rcases List.mem_cons.1 hc with rfl | hc2
      · exact Or.inl (List.mem_cons_self _ _)
      · rcases ih false c hc2 with h | h
        · exact Or.inl (List.mem_cons_of_mem a h)
        · exact Or.inr h

theorem collapseGo_chain : ∀ (b : Bool) (s : Str),
    (collapseGo b s).Chain' (fun a b => jsWS a = false ∨ jsWS b = false) := by
  intro b s
  induction s generalizing b with
  | nil => simp [collapseGo]
  | cons c t ih =>
    unfold collapseGo
    by_cases hw : jsWS c
    · rw [if_pos hw]
      cases b with
      | true => exact ih true
      | false =>
        simp only [Bool.false_eq_true, if_false]
        exact List.chain'_cons'.2
          ⟨fun y hy => Or.inr (collapseGo_true_head t y hy), ih true⟩
    · rw [if_neg hw]
      exact List.chain'_cons'.2
        ⟨fun y _ => Or.inl (by simpa using hw), ih false⟩

theorem collapseWS_spaced (s : Str) : spaced (collapseWS s) :=
  ⟨collapseGo_chain false s, collapseGo_mem_ws false s⟩

theorem collapseGo_spaced_id (s : Str) (hsp : spaced s) :
    collapseGo false s = s ∧
      ((∀ w, s.head? = some w → jsWS w = false) →
        collapseGo true s = s) := by
  induction s with
  | nil => exact ⟨rfl, fun _ => rfl⟩
  | cons c t ih =>
    have hch' : t.Chain' (fun a b => jsWS a = false ∨ jsWS b = false) :=
      (List.chain'_cons'.1 hsp.1).2
    have hcR := (List.chain'_cons'.1 hsp.1).1
    have hsp' : spaced t :=
      ⟨hch', fun c' h hw => hsp.2 c' (List.mem_cons_of_mem _ h) hw⟩
    obtain ⟨ih1, ih2⟩ := ih hsp'
    constructor
    · unfold collapseGo
      by_cases hw : jsWS c
      · rw [if_pos hw]
        simp only [Bool.false_eq_true, if_false]
        have hc' : c = ' ' := hsp.2 c (List.mem_cons_self _ _) hw
        rw [ih2 (fun w hw' => by
          rcases hcR w hw' with h | h
          · rw [hw] at h; exact absurd h (by simp)
          · exact h)]
        rw [hc']
      · rw [if_neg hw]
        rw [ih1]
    · intro hhead
      have hw : jsWS c = false := hhead c rfl
      unfold collapseGo
      rw [if_neg (by simp [hw])]
      rw [ih1]

theorem collapseWS_spaced_id (s : Str) (hsp : spaced s) :
    collapseWS s = s := (collapseGo_spaced_id s hsp).1

theorem spaced_within (s t : Str) (hs : spaced s) (h : t <:+: s) : spaced t :=
  ⟨ List.Chain'.infix hs.1 h, fun c hc hw => hs.2 c (h.subset hc) hw⟩

theorem trimJS_within (s : Str) : trimJS s <:+: s :=
  (trimJS_isPrefix_dropWS s).isInfix.trans (List.dropWhile_suffix _).isInfix

theorem trimCollapse_spaced (x : Str) : spaced (trimJS (collapseWS x)) :=
  spaced_within _ _ (collapseWS_spaced x) (trimJS_within _)

theorem trimCollapse_trim_stable (x : Str) :
    trimJS (trimJS (collapseWS x)) = trimJS (collapseWS x) :=
  trimJS_self _ (trimJS_head?_not_ws _) (trimJS_last_not_ws _)

theorem trimCollapse_collapse_stable (x : Str) :
    collapseWS (trimJS (collapseWS x)) = trimJS (collapseWS x) :=
  collapseWS_spaced_id _ (trimCollapse_spaced x)

theorem collapseGo_true_allws : ∀ W, (∀ c ∈ W, jsWS c = true) →
    collapseGo true W = [] := by
  intro W
  induction W with
  | nil => intro _; rfl
  | cons w W' ih =>
    intro hW
    unfold collapseGo
    rw [if_pos (hW w (List.mem_cons_self _ _)), if_pos rfl]
    exact ih fun c hc => hW c (List.mem_cons_of_mem w hc)

theorem collapseGo_false_allws (W : Str) (hne : W ≠ [])
    (hW : ∀ c ∈ W, jsWS c = true) : collapseGo false W = [' '] := by
  cases W with
  | nil => exact absurd rfl hne
  | cons w W' =>
    unfold collapseGo
    rw [if_pos (hW w (List.mem_cons_self _ _))]
    simp only [Bool.false_eq_true, if_false]
    rw [collapseGo_true_allws W' fun c hc => hW c (List.mem_cons_of_mem w hc)]

theorem collapseGo_true_ws_front : ∀ W, (∀ c ∈ W, jsWS c = true) →
    ∀ Y, collapseGo true (W ++ Y) = collapseGo true Y := by
  intro W
  induction W with
  | nil => intro _ Y; rfl
  | cons w W' ih =>
    intro hW Y
    show collapseGo true (w :: (W' ++ Y)) = collapseGo true Y
    rw [collapseGo_cons]
    rw [if_pos (hW w (List.mem_cons_self _ _)), if_pos rfl]
    exact ih (fun c hc => hW c (List.mem_cons_of_mem w hc)) Y

theorem collapseGo_false_ws_front (W : Str) (hne : W ≠ [])
    (hW : ∀ c ∈ W, jsWS c = true) (Y : Str) :
    collapseGo false (W ++ Y) = ' ' :: collapseGo true Y := by
  cases W with
  | nil => exact absurd rfl hne
  | cons w W' =>
    show collapseGo false (w :: (W' ++ Y)) = ' ' :: collapseGo true Y
    rw [collapseGo_cons]
    rw [if_pos (hW w (List.mem_cons_self _ _))]
    simp only [Bool.false_eq_true, if_false]
    rw [collapseGo_true_ws_front W'
      (fun c hc => hW c (List.mem_cons_of_mem w hc)) Y]

theorem collapseGo_true_eq_false (Y : Str)
    (h : ∀ w, Y.head? = some w → jsWS w = false) :
    collapseGo true Y = collapseGo false Y := by
  cases Y with
  | nil => rfl
  | cons c t =>
    have hw : jsWS c = false := h c rfl
    rw [collapseGo_cons, collapseGo_cons]
    rw [if_neg (by simp [hw]), if_neg (by simp [hw])]

theorem collapseGo_append_nonws :
    ∀ X, X ≠ [] → (∀ w, X.getLast? = some w → jsWS w = false) →
      ∀ (b : Bool) (Y : Str),
        collapseGo b (X ++ Y) = collapseGo b X ++ collapseGo false Y := by
  intro X
  induction X with
  | nil => intro h; exact absurd rfl h
  | cons x X' ih =>
    intro _ hlast b Y
    cases X' with
    | nil =>
      have hx : jsWS x = false := hlast x rfl
      show collapseGo b (x :: Y) = collapseGo b [x] ++ collapseGo false Y
      rw [collapseGo_cons b x Y, collapseGo_cons b x []]
      rw [if_neg (by simp [hx]), if_neg (by simp [hx])]
      rfl
    | cons x' Xt =>
      have hlast' : ∀ w, (x' :: Xt).getLast? = some w → jsWS w = false := by
        intro w hw
        exact hlast w (by rw [List.getLast?_cons_cons]; exact hw)
      show collapseGo b (x :: ((x' :: Xt) ++ Y)) =
        collapseGo b (x :: (x' :: Xt)) ++ collapseGo false Y
      rw [collapseGo_cons b x ((x' :: Xt) ++ Y), collapseGo_cons b x (x' :: Xt)]
      by_cases hw : jsWS x
      · rw [if_pos hw, if_pos hw]
        cases b with
        | true =>
          simp only [if_true]
          exact ih (by simp) hlast' true Y
        | false =>
          simp only [Bool.false_eq_true, if_false]
          rw [ih (by simp) hlast' true Y]
          rfl
      · rw [if_neg hw, if_neg hw]
        rw [ih (by simp) hlast' false Y]
        rfl

theorem trimJS_cons_ws (Z : Str) : trimJS (' ' :: Z) = trimJS Z := by
  show trimEndJS (dropWS (' ' :: Z)) = trimEndJS (dropWS Z)
  rw [show dropWS (' ' :: Z) = dropWS Z from by
    unfold dropWS
    rw [List.dropWhile_cons, if_pos (by decide)]]

theorem trimJS_append_allws (T W : Str)
    (hT : T = [] ∨ ∃ c t, T = c :: t ∧ jsWS c = false)
    (hW : ∀ c ∈ W, jsWS c = true) : trimJS (T ++ W) = trimJS T := by
  rcases hT with rfl | ⟨c, t, rfl, hc⟩
  · rw [List.nil_append]
    show trimEndJS (dropWS W) = trimJS []
    rw [show dropWS W = [] from List.dropWhile_eq_nil_iff.2
      (fun x hx => by simp [hW x hx])]
    rfl
  · show trimEndJS (dropWS ((c :: t) ++ W)) = trimEndJS (dropWS (c :: t))
    rw [List.cons_append]
    rw [dropWS_cons_neg _ _ hc, dropWS_cons_neg _ _ hc]
    show trimEndJS ((c :: t) ++ W) = trimEndJS (c :: t)
    unfold trimEndJS
    rw [List.reverse_append]
    rw [List.dropWhile_append]
    rw [if_pos (by
      rw [List.dropWhile_eq_nil_iff.2 (fun x hx => by
        simp [hW x (List.mem_reverse.1 hx)])]
      rfl)]

theorem dropWS_decomp (x : Str) :
    x = x.takeWhile (fun c => jsWS c) ++ dropWS x ∧
      ∀ c ∈ x.takeWhile (fun c => jsWS c), jsWS c = true :=
  ⟨(List.takeWhile_append_dropWhile _ x).symm,
    fun _ hc => List.mem_takeWhile_imp hc⟩

theorem trimEndJS_decomp (x : Str) :
    x = trimEndJS x ++ (x.reverse.takeWhile (fun c => jsWS c)).reverse ∧
      ∀ c ∈ (x.reverse.takeWhile (fun c => jsWS c)).reverse,
        jsWS c = true := by
  constructor
  · calc x = x.reverse.reverse := (List.reverse_reverse x).symm
      _ = (x.reverse.takeWhile (fun c => jsWS c) ++
            x.reverse.dropWhile (fun c => jsWS c)).reverse := by
          rw [List.takeWhile_append_dropWhile]
      _ = (x.reverse.dropWhile (fun c => jsWS c)).reverse ++
            (x.reverse.takeWhile (fun c => jsWS c)).reverse :=
          List.reverse_append _ _
  · intro c hc
    rw [List.mem_reverse] at hc
    exact List.mem_takeWhile_imp hc

theorem trimJS_collapse_allws (W : Str) (hW : ∀ c ∈ W, jsWS c = true) :
    trimJS (collapseWS W) = [] := by
  cases hWe : W with
  | nil => rfl
  | cons w W' =>
    show trimJS (collapseGo false (w :: W')) = []
    rw [collapseGo_false_allws (w :: W') (by simp) (by rw [← hWe]; exact hW)]
    rfl

theorem clean3_core (C W₂ : Str) (hC : C ≠ [])
    (hChead : ∀ w, C.head? = some w → jsWS w = false)
    (hClast : ∀ w, C.getLast? = some w → jsWS w = false)
    (hW₂ : ∀ c ∈ W₂, jsWS c = true) :
    trimJS (collapseGo false (C ++ W₂)) = trimJS (collapseWS C) := by
  rw [collapseGo_append_nonws C hC hClast false W₂]
  by_cases hW₂e : W₂ = []
  · subst hW₂e
    rw [show collapseGo false ([] : Str) = [] from rfl, List.append_nil]
    rfl
  · rw [collapseGo_false_allws W₂ hW₂e hW₂]
    refine trimJS_append_allws _ _ ?_
      (by intro c hc; simp at hc; subst hc; decide)
    cases C with
    | nil => exact absurd rfl hC
    | cons c t =>
      have hc : jsWS c = false := hChead c rfl
      right
      refine ⟨c, collapseGo false t, ?_, hc⟩
      show collapseGo false (c :: t) = c :: collapseGo false t
      rw [collapseGo_cons]
      rw [if_neg (by simp [hc])]

theorem clean3 (x : Str) :
    trimJS (collapseWS x) = trimJS (collapseWS (trimJS x)) := by
  obtain ⟨hx1, hW₁⟩ := dropWS_decomp x
  obtain ⟨hx2, hW₂⟩ := trimEndJS_decomp (dropWS x)
  have hCdef : trimJS x = trimEndJS (dropWS x) := rfl
  by_cases hC : trimEndJS (dropWS x) = []
  · -- degenerate: the trimmed string is empty, so x is all whitespace
    have hxws : ∀ c ∈ x, jsWS c = true := by
      intro c hc
      conv at hc => rw [hx1]
      rcases List.mem_append.1 hc with h | h
      · exact hW₁ c h
      · conv at h => rw [hx2]
        rcases List.mem_append.1 h with h2 | h2
        · rw [hC] at h2; simp at h2
        · exact hW₂ c h2
    rw [trimJS_collapse_allws x hxws, hCdef, hC]
    rfl
  · have hChead : ∀ w, (trimEndJS (dropWS x)).head? = some w →
        jsWS w = false := by
      intro w hw
      rw [← hCdef] at hw
      exact trimJS_head?_not_ws x w hw
    have hClast : ∀ w, (trimEndJS (dropWS x)).getLast? = some w →
        jsWS w = false := fun w hw => trimEndJS_last_not_ws _ w hw
    have hstep : collapseWS x =
        collapseGo false (x.takeWhile (fun c => jsWS c) ++
          (trimEndJS (dropWS x) ++
            ((dropWS x).reverse.takeWhile (fun c => jsWS c)).reverse)) := by
      show collapseGo false x = _
      conv_lhs => rw [hx1, hx2]
    rw [hstep, hCdef]
    by_cases hW₁e : x.takeWhile (fun c => jsWS c) = []
    · rw [hW₁e, List.nil_append]
      exact clean3_core _ _ hC hChead hClast hW₂
    · rw [collapseGo_false_ws_front _ hW₁e hW₁ _]
      rw [collapseGo_true_eq_false _ (by
        intro w hw
        cases hcc : trimEndJS (dropWS x) with
        | nil => exact absurd hcc hC
        | cons c t =>
          rw [hcc, List.cons_append, List.head?_cons] at hw
          injection hw with hw
          rw [← hw]
          exact hChead c (by rw [hcc]; rfl))]
      rw [trimJS_cons_ws]
      exact clean3_core _ _ hC hChead hClast hW₂

theorem not_mem_app {c : Char} {X Y : Str} (hX : c ∉ X) (hY : c ∉ Y) :
    c ∉ X ++ Y := fun h => (List.mem_append.1 h).elim hX hY

theorem not_mem_cons {c a : Char} {Z : Str} (ha : c ≠ a) (hZ : c ∉ Z) :
    c ∉ a :: Z := fun h => (List.mem_cons.1 h).elim ha hZ

theorem not_mem_natDigits (c : Char) (hc : digitChar c = false) (n : Nat) :
    c ∉ natDigits n := fun h => by
  rw [natDigits_all_digit n c h] at hc
  exact absurd hc (by simp)

theorem natDigits_nonws (n : Nat) : ∀ c ∈ natDigits n, jsWS c = false :=
  fun c h => digitChar_not_ws c (natDigits_all_digit n c h)

theorem trim_stable_head (R : Str) (h : trimJS R = R) :
    ∀ w, R.head? = some w → jsWS w = false :=
  fun w hw => trimJS_head?_not_ws R w (by rw [h]; exact hw)

theorem trim_stable_last (R : Str) (h : trimJS R = R) :
    ∀ w, R.getLast? = some w → jsWS w = false :=
  fun w hw => trimJS_last_not_ws R w (by rw [h]; exact hw)

theorem trimJS_allws (W : Str) (hW : ∀ c ∈ W, jsWS c = true) :
    trimJS W = [] := by
  show trimEndJS (dropWS W) = []
  rw [show dropWS W = [] from List.dropWhile_eq_nil_iff.2
    (fun x hx => by simp [hW x hx])]
  rfl

theorem scanTok_est_sep (A D B : Str) (hD : D ≠ [])
    (hDn : ∀ c ∈ D, jsWS c = false)
    (hB : B = [] ∨ ∃ B', B = ' ' :: B') (hh : '⏳' ∉ A) :
    scanTok estMarker (A ++ ' ' :: (estMarker ++ (D ++ B))) = some D := by
  rw [show estMarker = '⏳' :: str "est:" from rfl]
  exact scanTok_sep '⏳' (str "est:") D B (by decide) hD hDn hB A hh

theorem scanTok_est_head (D B : Str) (hD : D ≠ [])
    (hDn : ∀ c ∈ D, jsWS c = false)
    (hB : B = [] ∨ ∃ B', B = ' ' :: B') :
    scanTok estMarker (estMarker ++ (D ++ B)) = some D := by
  rw [show estMarker = '⏳' :: str "est:" from rfl]
  exact scanTok_head '⏳' (str "est:") D B hD hDn hB

theorem scanTok_est_none (s : Str) (hh : '⏳' ∉ s) :
    scanTok estMarker s = none := by
  rw [show estMarker = '⏳' :: str "est:" from rfl]
  exact scanTok_none '⏳' (str "est:") s hh

theorem replTok_est_sep (A D B : Str) (hD : D ≠ [])
    (hDn : ∀ c ∈ D, jsWS c = false)
    (hB : B = [] ∨ ∃ B', B = ' ' :: B') (hhB : '⏳' ∉ B)
    (hh : '⏳' ∉ A) :
    replTok estMarker (A ++ ' ' :: (estMarker ++ (D ++ B))) =
      A ++ ' ' :: B := by
  rw [show estMarker = '⏳' :: str "est:" from rfl]
  exact replTok_sep '⏳' (str "est:") D B (by decide) (by decide)
    hD hDn hB hhB A hh

theorem replTok_est_head (D B : Str) (hD : D ≠ [])
    (hDn : ∀ c ∈ D, jsWS c = false)
    (hB : B = [] ∨ ∃ B', B = ' ' :: B') (hhB : '⏳' ∉ B) :
    replTok estMarker (estMarker ++ (D ++ B)) = ' ' :: B := by
  rw [show estMarker = '⏳' :: str "est:" from rfl]
  exact replTok_head '⏳' (str "est:") D B hD hDn hB hhB

theorem replTok_est_none (s : Str) (hh : '⏳' ∉ s) :
    replTok estMarker s = s := by
  rw [show estMarker = '⏳' :: str "est:" from rfl]
  exact replTok_none '⏳' (str "est:") s hh

theorem scanTok_act_sep (A D B : Str) (hD : D ≠ [])
    (hDn : ∀ c ∈ D, jsWS c = false)
    (hB : B = [] ∨ ∃ B', B = ' ' :: B') (hh : '⌛' ∉ A) :
    scanTok actMarker (A ++ ' ' :: (actMarker ++ (D ++ B))) = some D := by
  rw [show actMarker = '⌛' :: str "act:" from rfl]
  exact scanTok_sep '⌛' (str "act:") D B (by decide) hD hDn hB A hh

theorem scanTok_act_head (D B : Str) (hD : D ≠ [])
    (hDn : ∀ c ∈ D, jsWS c = false)
    (hB : B = [] ∨ ∃ B', B = ' ' :: B') :
    scanTok actMarker (actMarker ++ (D ++ B)) = some D := by
  rw [show actMarker = '⌛' :: str "act:" from rfl]
  exact scanTok_head '⌛' (str "act:") D B hD hDn hB

theorem scanTok_act_none (s : Str) (hh : '⌛' ∉ s) :
    scanTok actMarker s = none := by
  rw [show actMarker = '⌛' :: str "act:" from rfl]
  exact scanTok_none '⌛' (str "act:") s hh

theorem replTok_act_sep (A D B : Str) (hD : D ≠ [])
    (hDn : ∀ c ∈ D, jsWS c = false)
    (hB : B = [] ∨ ∃ B', B = ' ' :: B') (hhB : '⌛' ∉ B)
    (hh : '⌛' ∉ A) :
    replTok actMarker (A ++ ' ' :: (actMarker ++ (D ++ B))) =
      A ++ ' ' :: B := by
  rw [show actMarker = '⌛' :: str "act:" from rfl]
  exact replTok_sep '⌛' (str "act:") D B (by decide) (by decide)
    hD hDn hB hhB A hh

theorem replTok_act_head (D B : Str) (hD : D ≠ [])
    (hDn : ∀ c ∈ D, jsWS c = false)
    (hB : B = [] ∨ ∃ B', B = ' ' :: B') (hhB : '⌛' ∉ B) :
    replTok actMarker (actMarker ++ (D ++ B)) = ' ' :: B := by
  rw [show actMarker = '⌛' :: str "act:" from rfl]
  exact replTok_head '⌛' (str "act:") D B hD hDn hB hhB

theorem replTok_act_none (s : Str) (hh : '⌛' ∉ s) :
    replTok actMarker s = s := by
  rw [show actMarker = '⌛' :: str "act:" from rfl]
  exact replTok_none '⌛' (str "act:") s hh

theorem intercalate_one (a : Str) : List.intercalate [' '] [a] = a := by
  simp [List.intercalate]

theorem intercalate_two (a b : Str) :
    List.intercalate [' '] [a, b] = a ++ ' ' :: b := by
  rw [intercalate_cons_ne _ _ (by simp), intercalate_one]

theorem intercalate_three (a b c : Str) :
    List.intercalate [' '] [a, b, c] = a ++ ' ' :: (b ++ ' ' :: c) := by
  rw [intercalate_cons_ne _ _ (by simp), intercalate_two]

theorem intercalate_four (a b c d : Str) :
    List.intercalate [' '] [a, b, c, d] =
      a ++ ' ' :: (b ++ ' ' :: (c ++ ' ' :: d)) := by
  rw [intercalate_cons_ne _ _ (by simp), intercalate_three]

theorem intercalate_five (a b c d e : Str) :
    List.intercalate [' '] [a, b, c, d, e] =
      a ++ ' ' :: (b ++ ' ' :: (c ++ ' ' :: (d ++ ' ' :: e))) := by
  rw [intercalate_cons_ne _ _ (by simp), intercalate_four]

theorem parseMeta_token_free (x : Str)
    (h1 : '⏳' ∉ x) (h2 : '⌛' ∉ x) (h3 : '✍' ∉ x)
    (h4 : '<' ∉ x) (h5 : '\x7b' ∉ x) :
    parseMeta x = ⟨none, none, [], trimJS (collapseWS x)⟩ := by
  have e0 : stripTaskIdToken x = trimJS x := by
    unfold stripTaskIdToken
    rw [cutWhenTail_html_noop x h4, cutWhenTail_legacy_noop x h5]
  have m1 : '⏳' ∉ trimJS x := fun h => h1 (mem_trimJS x _ h)
  have m2 : '⌛' ∉ trimJS x := fun h => h2 (mem_trimJS x _ h)
  have m3 : '✍' ∉ trimJS x := fun h => h3 (mem_trimJS x _ h)
  have e1 := scanTok_est_none _ m1
  have e2 := replTok_est_none _ m1
  have e3 := scanTok_act_none _ m2
  have e4 := replTok_act_none _ m2
  have e5 := findReason_none _ m3
  simp only [parseMeta, e0, e1, e2, e3, e4, e5, Option.none_bind]
  rw [← clean3 x]

theorem buildTaskLine_parses_witness :
    ∃ m cap tsk,
      matchTaskLine (buildTaskLine true [] ⟨some 30, some 45, str "ok"⟩
        (str "ab12cd34")) = some (m, cap) ∧
      hasCanonicalTaskId (trimJS cap) = true ∧
      parseTasks (fun _ => str "ffffffff")
        (buildTaskLine true [] ⟨some 30, some 45, str "ok"⟩
          (str "ab12cd34")) = [tsk] ∧
      tsk.id = str "ab12cd34" ∧ tsk.hasId = true ∧ tsk.done = true ∧
      tsk.lineIndex = 0 :=
  buildTaskLine_parses true [] ⟨some 30, some 45, str "ok"⟩ (str "ab12cd34")
    (fun _ => str "ffffffff") (by decide) (by decide) (by decide)
    (by decide : ∀ c ∈ str "ok", lineTerm c = false)

/-! ## Token-level freedom

The scan and replace passes ignore a suffix that contains no
whitespace-delimited token of their marker, even when it shares characters
with the marker; the legacy strip ignores a string that does not end in a
legacy token. These lemmas weaken the character-level freedom conditions
to the matchers' own failure, as computed by the source's regexes. -/

theorem scanTokAux_cons (lit : Str) (c : Char) (t : Str) :
    scanTokAux lit (c :: t) =
      if jsWS c then (tokHere lit t).orElse fun _ => scanTokAux lit t
      else scanTokAux lit t := rfl

theorem replGo_cons (lit : Str) (b : Bool) (c : Char) (t : Str) :
    replGo lit b (c :: t) =
      if jsWS c then
        match takeLit lit t with
        | some r =>
          if (r.takeWhile (fun a => !jsWS a)).isEmpty then
            c :: replGo lit false t
          else ' ' :: replGo lit true t
        | none => c :: replGo lit false t
      else if b then replGo lit true t
      else c :: replGo lit false t := rfl

theorem scanTok_none_parts (lit s : Str) (h : scanTok lit s = none) :
    tokHere lit s = none ∧ scanTokAux lit s = none := by
  unfold scanTok at h
  cases h1 : tokHere lit s with
  | some v => rw [h1] at h; exact Option.noConfusion h
  | none =>
    rw [h1] at h
    exact ⟨rfl, h⟩

theorem tokHere_none_cap_empty (lit s r : Str) (h1 : tokHere lit s = none)
    (htl : takeLit lit s = some r) :
    (r.takeWhile (fun a => !jsWS a)).isEmpty = true := by
  by_contra hne
  unfold tokHere at h1
  rw [htl] at h1
  simp only [Option.some_bind] at h1
  rw [if_neg hne] at h1
  exact Option.noConfusion h1

theorem scanTokAux_nonws_app (lit P Y : Str)
    (hP : ∀ c ∈ P, jsWS c = false) :
    scanTokAux lit (P ++ Y) = scanTokAux lit Y := by
  induction P with
  | nil => rw [List.nil_append]
  | cons c t ih =>
    rw [List.cons_append, scanTokAux_cons]
    rw [if_neg (by simp [hP c (List.mem_cons_self _ _)])]
    exact ih fun a ha => hP a (List.mem_cons_of_mem c ha)

theorem scanTokAux_app_none (h0 : Char) (lt X Y : Str) (hX : h0 ∉ X)
    (hjY : tokHere (h0 :: lt) Y = none)
    (hY : scanTokAux (h0 :: lt) Y = none) :
    scanTokAux (h0 :: lt) (X ++ Y) = none := by
  induction X with
  | nil => rw [List.nil_append]; exact hY
  | cons c t ih =>
    have ht : h0 ∉ t := fun h => hX (List.mem_cons_of_mem c h)
    rw [List.cons_append, scanTokAux_cons]
    have htok : tokHere (h0 :: lt) (t ++ Y) = none := by
      cases t with
      | nil => rw [List.nil_append]; exact hjY
      | cons b bt =>
        refine tokHere_none h0 lt _ (fun d hd he => ?_)
        rw [List.cons_append] at hd
        injection hd with hd
        exact ht ((hd.trans he) ▸ List.mem_cons_self b bt)
    by_cases hw : jsWS c
    · rw [if_pos hw, htok]
      exact ih ht
    · rw [if_neg hw]
      exact ih ht

theorem replGo_false_of_aux_none (lit : Str) :
    ∀ s, scanTokAux lit s = none → replGo lit false s = s := by
  intro s
  induction s with
  | nil => intro _; rfl
  | cons c t ih =>
    intro h
    rw [scanTokAux_cons] at h
    rw [replGo_cons]
    by_cases hw : jsWS c
    · rw [if_pos hw] at h ⊢
      have h1 : tokHere lit t = none := by
        cases hx : tokHere lit t with
        | some v => rw [hx] at h; exact Option.noConfusion h
        | none => rfl
      have h2 : scanTokAux lit t = none := by rw [h1] at h; exact h
      cases htl : takeLit lit t with
      | none =>
        dsimp only []
        rw [ih h2]
      | some r =>
        have hemp := tokHere_none_cap_empty lit t r h1 htl
        dsimp only []
        rw [if_pos hemp, ih h2]
    · rw [if_neg hw] at h ⊢
      rw [if_neg (by simp)]
      rw [ih h]

theorem replTok_of_scan_none (lit s : Str) (h : scanTok lit s = none) :
    replTok lit s = s := by
  obtain ⟨h1, h2⟩ := scanTok_none_parts lit s h
  unfold replTok
  cases htl : takeLit lit s with
  | none => exact replGo_false_of_aux_none lit s h2
  | some r =>
    have hemp := tokHere_none_cap_empty lit s r h1 htl
    dsimp only []
    rw [if_pos hemp]
    exact replGo_false_of_aux_none lit s h2

theorem replGo_skip2 (lit B : Str)
    (hB : B = [] ∨ ∃ B', B = ' ' :: B')
    (hBaux : scanTokAux lit B = none) :
    ∀ D, (∀ c ∈ D, jsWS c = false) → replGo lit true (D ++ B) = B := by
  intro D
  induction D with
  | nil =>
    intro _
    rw [List.nil_append]
    rcases hB with rfl | ⟨B', rfl⟩
    · rfl
    · rw [scanTokAux_cons, if_pos (by decide : jsWS ' ' = true)] at hBaux
      have h1 : tokHere lit B' = none := by
        cases hx : tokHere lit B' with
        | some v => rw [hx] at hBaux; exact Option.noConfusion hBaux
        | none => rfl
      have h2 : scanTokAux lit B' = none := by rw [h1] at hBaux; exact hBaux
      rw [replGo_cons, if_pos (by decide : jsWS ' ' = true)]
      cases htl : takeLit lit B' with
      | none =>
        dsimp only []
        rw [replGo_false_of_aux_none lit B' h2]
      | some r =>
        have hemp := tokHere_none_cap_empty lit B' r h1 htl
        dsimp only []
        rw [if_pos hemp, replGo_false_of_aux_none lit B' h2]
  | cons d D' ih =>
    intro hDn
    have hwd : jsWS d = false := hDn d (List.mem_cons_self _ _)
    rw [List.cons_append, replGo_cons, if_neg (by simp [hwd])]
    rw [if_pos rfl]
    exact ih fun c hc => hDn c (List.mem_cons_of_mem d hc)

theorem replGo_main2 (h0 : Char) (lt D B : Str) (hws : jsWS h0 = false)
    (hlitws : ∀ c ∈ h0 :: lt, jsWS c = false)
    (hD : D ≠ []) (hDn : ∀ c ∈ D, jsWS c = false)
    (hB : B = [] ∨ ∃ B', B = ' ' :: B')
    (hBaux : scanTokAux (h0 :: lt) B = none) :
    ∀ A, h0 ∉ A →
      replGo (h0 :: lt) false (A ++ ' ' :: ((h0 :: lt) ++ (D ++ B))) =
        A ++ ' ' :: B := by
  intro A
  induction A with
  | nil =>
    intro _
    show replGo (h0 :: lt) false (' ' :: ((h0 :: lt) ++ (D ++ B))) =
      ' ' :: B
    unfold replGo
    rw [if_pos (by decide : jsWS ' ' = true)]
    rw [takeLit_self (h0 :: lt) (D ++ B)]
    dsimp only []
    rw [takeWhile_nonws D B hDn hB]
    rw [if_neg (by simp [List.isEmpty_iff, hD])]
    rw [show (h0 :: lt) ++ (D ++ B) = ((h0 :: lt) ++ D) ++ B from by
      rw [List.append_assoc]]
    rw [replGo_skip2 (h0 :: lt) B hB hBaux ((h0 :: lt) ++ D)
      (fun c hc => by
        rcases List.mem_append.1 hc with h | h
        · exact hlitws c h
        · exact hDn c h)]
  | cons a A' ih =>
    intro hh
    have hh' : h0 ∉ A' := fun h => hh (List.mem_cons_of_mem a h)
    show replGo (h0 :: lt) false
      (a :: (A' ++ ' ' :: ((h0 :: lt) ++ (D ++ B)))) = a :: (A' ++ ' ' :: B)
    unfold replGo
    by_cases hw : jsWS a
    · rw [if_pos hw]
      rw [takeLit_none_head h0 lt (A' ++ ' ' :: ((h0 :: lt) ++ (D ++ B)))
        (fun d hd he => by
          cases A' with
          | nil =>
            rw [List.nil_append] at hd
            injection hd with hd
            rw [← he, ← hd] at hws
            exact absurd hws (by decide)
          | cons b bt =>
            rw [List.cons_append] at hd
            injection hd with hd
            exact hh' ((hd.trans he) ▸ List.mem_cons_self b bt))]
      rw [ih hh']
    · rw [if_neg hw]
      simp only [Bool.false_eq_true, if_false]
      rw [ih hh']

theorem replTok_sep2 (h0 : Char) (lt D B : Str) (hws : jsWS h0 = false)
    (hlitws : ∀ c ∈ h0 :: lt, jsWS c = false)
    (hD : D ≠ []) (hDn : ∀ c ∈ D, jsWS c = false)
    (hB : B = [] ∨ ∃ B', B = ' ' :: B')
    (hBaux : scanTokAux (h0 :: lt) B = none)
    (A : Str) (hh : h0 ∉ A) :
    replTok (h0 :: lt) (A ++ ' ' :: ((h0 :: lt) ++ (D ++ B))) =
      A ++ ' ' :: B := by
  unfold replTok
  rw [takeLit_none_head h0 lt (A ++ ' ' :: ((h0 :: lt) ++ (D ++ B)))
    (fun d hd he => by
      cases A with
      | nil =>
        rw [List.nil_append] at hd
        injection hd with hd
        rw [← he, ← hd] at hws
        exact absurd hws (by decide)
      | cons b bt =>
        rw [List.cons_append] at hd
        injection hd with hd
        exact hh ((hd.trans he) ▸ List.mem_cons_self b bt))]
  exact replGo_main2 h0 lt D B hws hlitws hD hDn hB hBaux A hh

theorem replTok_head2 (h0 : Char) (lt D B : Str)
    (hD : D ≠ []) (hDn : ∀ c ∈ D, jsWS c = false)
    (hB : B = [] ∨ ∃ B', B = ' ' :: B')
    (hBaux : scanTokAux (h0 :: lt) B = none) :
    replTok (h0 :: lt) ((h0 :: lt) ++ (D ++ B)) = ' ' :: B := by
  unfold replTok
  rw [takeLit_self (h0 :: lt) (D ++ B)]
  dsimp only []
  rw [takeWhile_nonws D B hDn hB]
  rw [if_neg (by simp [List.isEmpty_iff, hD])]
  rw [replGo_skip2 (h0 :: lt) B hB hBaux D hDn]

theorem penFull_nonws : ∀ c ∈ penFull, jsWS c = false := by decide

theorem penFull_ne_lb : ∀ c ∈ penFull, c ≠ '\x7b' := by decide

theorem tokHere_pen_none (h0 : Char) (lt : Str) (hne : h0 ≠ '✍')
    (R : Str) : tokHere (h0 :: lt) (penFull ++ R) = none := by
  refine tokHere_none h0 lt _ (fun d hd he => ?_)
  rw [show (penFull ++ R).head? = some '✍' from rfl] at hd
  injection hd with hd
  exact hne (hd.trans he).symm

theorem scanTokAux_pen_none (h0 : Char) (lt : Str) (R : Str)
    (hRa : scanTokAux (h0 :: lt) R = none) :
    scanTokAux (h0 :: lt) (penFull ++ R) = none := by
  rw [scanTokAux_nonws_app (h0 :: lt) penFull R penFull_nonws]
  exact hRa

theorem scanTokAux_cons_ws_none (lit Z : Str)
    (hj : tokHere lit Z = none) (ha : scanTokAux lit Z = none) :
    scanTokAux lit (' ' :: Z) = none := by
  rw [scanTokAux_cons, if_pos (by decide : jsWS ' ' = true), hj]
  exact ha

theorem scanTokAux_sep_pen_none (h0 : Char) (lt : Str)
    (hws : jsWS h0 = false) (hne : h0 ≠ '✍') (P R : Str) (hP : h0 ∉ P)
    (hRa : scanTokAux (h0 :: lt) R = none) :
    scanTokAux (h0 :: lt) (P ++ ' ' :: (penFull ++ R)) = none := by
  refine scanTokAux_app_none h0 lt P (' ' :: (penFull ++ R)) hP ?_ ?_
  · refine tokHere_none h0 lt _ (fun d hd he => ?_)
    injection hd with hd
    rw [← he, ← hd] at hws
    exact absurd hws (by decide)
  · exact scanTokAux_cons_ws_none _ _ (tokHere_pen_none h0 lt hne R)
      (scanTokAux_pen_none h0 lt R hRa)

theorem scanTok_sep_pen_none (h0 : Char) (lt : Str)
    (hws : jsWS h0 = false) (hne : h0 ≠ '✍') (P R : Str) (hP : h0 ∉ P)
    (hR : scanTok (h0 :: lt) R = none) :
    scanTok (h0 :: lt) (P ++ ' ' :: (penFull ++ R)) = none := by
  unfold scanTok
  rw [tokHere_sep_none h0 lt P _ hws hP]
  show scanTokAux (h0 :: lt) (P ++ ' ' :: (penFull ++ R)) = none
  exact scanTokAux_sep_pen_none h0 lt hws hne P R hP
    (scanTok_none_parts _ _ hR).2

theorem scanTok_head_pen_none (h0 : Char) (lt : Str) (hne : h0 ≠ '✍')
    (R : Str) (hR : scanTok (h0 :: lt) R = none) :
    scanTok (h0 :: lt) (penFull ++ R) = none := by
  unfold scanTok
  rw [tokHere_pen_none h0 lt hne R]
  show scanTokAux (h0 :: lt) (penFull ++ R) = none
  exact scanTokAux_pen_none h0 lt R (scanTok_none_parts _ _ hR).2

theorem scanTok_est_pen_sep_none (P R : Str) (hP : '⏳' ∉ P)
    (hR : scanTok estMarker R = none) :
    scanTok estMarker (P ++ ' ' :: (penFull ++ R)) = none := by
  rw [show estMarker = '⏳' :: str "est:" from rfl] at hR ⊢
  exact scanTok_sep_pen_none '⏳' (str "est:") (by decide) (by decide)
    P R hP hR

theorem scanTok_est_pen_head_none (R : Str)
    (hR : scanTok estMarker R = none) :
    scanTok estMarker (penFull ++ R) = none := by
  rw [show estMarker = '⏳' :: str "est:" from rfl] at hR ⊢
  exact scanTok_head_pen_none '⏳' (str "est:") (by decide) R hR

theorem scanTok_act_pen_sep_none (P R : Str) (hP : '⌛' ∉ P)
    (hR : scanTok actMarker R = none) :
    scanTok actMarker (P ++ ' ' :: (penFull ++ R)) = none := by
  rw [show actMarker = '⌛' :: str "act:" from rfl] at hR ⊢
  exact scanTok_sep_pen_none '⌛' (str "act:") (by decide) (by decide)
    P R hP hR

theorem scanTok_act_pen_head_none (R : Str)
    (hR : scanTok actMarker R = none) :
    scanTok actMarker (penFull ++ R) = none := by
  rw [show actMarker = '⌛' :: str "act:" from rfl] at hR ⊢
  exact scanTok_head_pen_none '⌛' (str "act:") (by decide) R hR

theorem scanTokAux_est_cons_sep_none (P R : Str) (hP : '⏳' ∉ P)
    (hR : scanTok estMarker R = none) :
    scanTokAux estMarker (' ' :: (P ++ ' ' :: (penFull ++ R))) = none := by
  rw [show estMarker = '⏳' :: str "est:" from rfl] at hR ⊢
  refine scanTokAux_cons_ws_none _ _ ?_ ?_
  · exact tokHere_sep_none '⏳' (str "est:") P _ (by decide) hP
  · exact scanTokAux_sep_pen_none '⏳' (str "est:") (by decide) (by decide)
      P R hP (scanTok_none_parts _ _ hR).2

theorem scanTokAux_est_cons_pen_none (R : Str)
    (hR : scanTok estMarker R = none) :
    scanTokAux estMarker (' ' :: (penFull ++ R)) = none := by
  rw [show estMarker = '⏳' :: str "est:" from rfl] at hR ⊢
  refine scanTokAux_cons_ws_none _ _ ?_ ?_
  · exact tokHere_pen_none '⏳' (str "est:") (by decide) R
  · exact scanTokAux_pen_none '⏳' (str "est:") R
      (scanTok_none_parts _ _ hR).2

theorem scanTokAux_act_cons_pen_none (R : Str)
    (hR : scanTok actMarker R = none) :
    scanTokAux actMarker (' ' :: (penFull ++ R)) = none := by
  rw [show actMarker = '⌛' :: str "act:" from rfl] at hR ⊢
  refine scanTokAux_cons_ws_none _ _ ?_ ?_
  · exact tokHere_pen_none '⌛' (str "act:") (by decide) R
  · exact scanTokAux_pen_none '⌛' (str "act:") R
      (scanTok_none_parts _ _ hR).2

theorem replTok_est_sep2 (A D B : Str) (hD : D ≠ [])
    (hDn : ∀ c ∈ D, jsWS c = false)
    (hB : B = [] ∨ ∃ B', B = ' ' :: B')
    (hBaux : scanTokAux estMarker B = none) (hh : '⏳' ∉ A) :
    replTok estMarker (A ++ ' ' :: (estMarker ++ (D ++ B))) =
      A ++ ' ' :: B := by
  rw [show estMarker = '⏳' :: str "est:" from rfl] at hBaux ⊢
  exact replTok_sep2 '⏳' (str "est:") D B (by decide) (by decide)
    hD hDn hB hBaux A hh

theorem replTok_est_head2 (D B : Str) (hD : D ≠ [])
    (hDn : ∀ c ∈ D, jsWS c = false)
    (hB : B = [] ∨ ∃ B', B = ' ' :: B')
    (hBaux : scanTokAux estMarker B = none) :
    replTok estMarker (estMarker ++ (D ++ B)) = ' ' :: B := by
  rw [show estMarker = '⏳' :: str "est:" from rfl] at hBaux ⊢
  exact replTok_head2 '⏳' (str "est:") D B hD hDn hB hBaux

theorem replTok_act_sep2 (A D B : Str) (hD : D ≠ [])
    (hDn : ∀ c ∈ D, jsWS c = false)
    (hB : B = [] ∨ ∃ B', B = ' ' :: B')
    (hBaux : scanTokAux actMarker B = none) (hh : '⌛' ∉ A) :
    replTok actMarker (A ++ ' ' :: (actMarker ++ (D ++ B))) =
      A ++ ' ' :: B := by
  rw [show actMarker = '⌛' :: str "act:" from rfl] at hBaux ⊢
  exact replTok_sep2 '⌛' (str "act:") D B (by decide) (by decide)
    hD hDn hB hBaux A hh

theorem replTok_act_head2 (D B : Str) (hD : D ≠ [])
    (hDn : ∀ c ∈ D, jsWS c = false)
    (hB : B = [] ∨ ∃ B', B = ' ' :: B')
    (hBaux : scanTokAux actMarker B = none) :
    replTok actMarker (actMarker ++ (D ++ B)) = ' ' :: B := by
  rw [show actMarker = '⌛' :: str "act:" from rfl] at hBaux ⊢
  exact replTok_head2 '⌛' (str "act:") D B hD hDn hB hBaux

theorem findLegacyId_none_every (R : Str) (h : findLegacyId R = none) :
    ∀ u, u <:+ R → legacyIdHere u = none := by
  induction R with
  | nil =>
    intro u hu
    rw [List.suffix_nil.1 hu]
    rfl
  | cons c t ih =>
    intro u hu
    have hhere : legacyIdHere (c :: t) = none := by
      unfold findLegacyId at h
      cases hx : legacyIdHere (c :: t) with
      | some v => rw [hx] at h; exact Option.noConfusion h
      | none => rfl
    have h' : findLegacyId t = none := by
      unfold findLegacyId at h
      rw [hhere] at h
      exact h
    rcases List.suffix_cons_iff.1 hu with rfl | hu'
    · exact hhere
    · exact ih h' u hu'

theorem cutWhenTail_noop_of (p : Str → Bool) :
    ∀ s, (∀ u, u <:+ s → p u = false) → cutWhenTail p s = s := by
  intro s
  induction s with
  | nil => intro _; rfl
  | cons c t ih =>
    intro h
    unfold cutWhenTail
    rw [if_neg (by simp [h (c :: t) (List.suffix_refl _)])]
    rw [ih fun u hu => h u (hu.trans (List.suffix_cons c t))]

theorem isLegacy_false_of_suffix (R u : Str) (hu : u <:+ R)
    (h : findLegacyId R = none) : isLegacyIdSuffix u = false := by
  unfold isLegacyIdSuffix
  rw [findLegacyId_none_every R h (dropWS u)
    ((List.dropWhile_suffix _).trans hu)]
  rfl

theorem legacy_suffix_false_pen (R : Str) (hR : findLegacyId R = none) :
    ∀ u, u <:+ (penFull ++ R) → isLegacyIdSuffix u = false := by
  intro u hu
  rcases suffix_append_cases u penFull R hu with hu' | ⟨X, hX, rfl⟩
  · exact isLegacy_false_of_suffix R u hu' hR
  · cases X with
    | nil =>
      rw [List.nil_append]
      exact isLegacy_false_of_suffix R R (List.suffix_refl R) hR
    | cons x X' =>
      have hx : x ∈ penFull := hX.subset (List.mem_cons_self _ _)
      unfold isLegacyIdSuffix
      rw [List.cons_append]
      rw [dropWS_cons_neg x (X' ++ R) (penFull_nonws x hx)]
      rw [legacyIdHere_none_head (x :: (X' ++ R)) (fun d hd he =>
        penFull_ne_lb x hx (by injection hd with hd2; exact hd2.trans he))]
      rfl

theorem legacy_suffix_false_full (P R : Str) (hP : '\x7b' ∉ P)
    (hR : findLegacyId R = none) :
    ∀ u, u <:+ (P ++ ' ' :: (penFull ++ R)) →
      isLegacyIdSuffix u = false := by
  intro u hu
  rcases suffix_append_cases u P (' ' :: (penFull ++ R)) hu
    with hu' | ⟨X, hX, rfl⟩
  · rcases List.suffix_cons_iff.1 hu' with rfl | hu''
    · rfl
    · exact legacy_suffix_false_pen R hR u hu''
  · cases X with
    | nil =>
      rw [List.nil_append]
      rfl
    | cons x X' =>
      have hxP : x ∈ P := hX.subset (List.mem_cons_self _ _)
      unfold isLegacyIdSuffix
      rw [List.cons_append]
      show (legacyIdHere
        ((x :: (X' ++ ' ' :: (penFull ++ R))).dropWhile
          (fun c => jsWS c))).isSome = false
      rw [show x :: (X' ++ ' ' :: (penFull ++ R)) =
        (x :: X') ++ ' ' :: (penFull ++ R) from by simp]
      rw [List.dropWhile_append]
      by_cases hemp : ((x :: X').dropWhile (fun c => jsWS c)).isEmpty = true
      · rw [if_pos hemp]
        rw [show (' ' :: (penFull ++ R)).dropWhile (fun c => jsWS c) =
          penFull ++ R from rfl]
        rfl
      · rw [if_neg hemp]
        cases hdw : (x :: X').dropWhile (fun c => jsWS c) with
        | nil => rw [hdw] at hemp; exact absurd rfl hemp
        | cons d t =>
          have hdP : d ∈ P := by
            have : d ∈ x :: X' := (List.dropWhile_suffix _).subset
              (by rw [hdw]; exact List.mem_cons_self _ _)
            exact hX.subset this
          rw [List.cons_append]
          rw [legacyIdHere_none_head
            (d :: (t ++ ' ' :: (penFull ++ R))) (fun e he1 he2 => by
              injection he1 with he1
              exact hP ((he1.trans he2) ▸ hdP))]
          rfl

theorem stripTaskIdToken_built_pen (id : Str)
    (hhex : id.all (fun c => hexChar c) = true)
    (h6 : 6 ≤ id.length) (h32 : id.length ≤ 32) (P R : Str)
    (hP : '\x7b' ∉ P) (hRleg : findLegacyId R = none)
    (hhead : ∀ w, (P ++ ' ' :: (penFull ++ R)).head? = some w →
      jsWS w = false)
    (hRne : R ≠ [])
    (hRlast : ∀ w, R.getLast? = some w → jsWS w = false) :
    stripTaskIdToken ((P ++ ' ' :: (penFull ++ R)) ++ ' ' :: taskIdToken id)
      = P ++ ' ' :: (penFull ++ R) := by
  have hlast : ∀ w, (P ++ ' ' :: (penFull ++ R)).getLast? = some w →
      jsWS w = false := by
    intro w hw
    rw [List.getLast?_append_of_ne_nil _ (by simp)] at hw
    rw [show (' ' :: (penFull ++ R)) = (' ' :: penFull) ++ R from by
      simp] at hw
    rw [List.getLast?_append_of_ne_nil _ hRne] at hw
    exact hRlast w hw
  unfold stripTaskIdToken
  rw [cutWhenTail_html_tok id hhex h6 h32 _ hlast]
  rw [cutWhenTail_noop_of _ _ (legacy_suffix_false_full P R hP hRleg)]
  exact trimJS_self _ hhead hlast

theorem stripTaskIdToken_built_penOnly (id : Str)
    (hhex : id.all (fun c => hexChar c) = true)
    (h6 : 6 ≤ id.length) (h32 : id.length ≤ 32) (R : Str)
    (hRleg : findLegacyId R = none) (hRne : R ≠ [])
    (hRlast : ∀ w, R.getLast? = some w → jsWS w = false) :
    stripTaskIdToken ((penFull ++ R) ++ ' ' :: taskIdToken id) =
      penFull ++ R := by
  have hlast : ∀ w, (penFull ++ R).getLast? = some w → jsWS w = false := by
    intro w hw
    rw [List.getLast?_append_of_ne_nil _ hRne] at hw
    exact hRlast w hw
  unfold stripTaskIdToken
  rw [cutWhenTail_html_tok id hhex h6 h32 _ hlast]
  rw [cutWhenTail_noop_of _ _ (legacy_suffix_false_pen R hRleg)]
  refine trimJS_self _ (fun w hw => ?_) hlast
  rw [show (penFull ++ R).head? = some '✍' from rfl] at hw
  injection hw with hw
  rw [← hw]
  decide
set_option maxHeartbeats 3000000 in
/-- Value of `parseMeta` on a serialized parts list: a trim-stable,
collapse-stable, marker-character-free text part, optional est/act
tokens, and a reason that is terminator-free, trim-stable, contains no
whitespace-delimited est or act token of its own (the scanners fail on
it) and does not end in a legacy id token, followed by the canonical id
token, parse back to exactly the serialized fields. -/
theorem parseMeta_built (T R : Str) (eo ao : Option Nat) (id : Str)
    (hhex : id.all (fun c => hexChar c) = true)
    (h6 : 6 ≤ id.length) (h32 : id.length ≤ 32)
    (hT1 : '⏳' ∉ T) (hT2 : '⌛' ∉ T) (hT3 : '✍' ∉ T)
    (hT5 : '\x7b' ∉ T)
    (hTtrim : trimJS T = T) (hTcol : collapseWS T = T)
    (hR1 : scanTok estMarker R = none)
    (hR2 : scanTok actMarker R = none)
    (hRleg : findLegacyId R = none)
    (hRterm : noTerm R) (hRtrim : trimJS R = R) :
    parseMeta (List.intercalate [' ']
      (((if T = [] then [] else [T])
        ++ (match eo with
            | some n => [estMarker ++ natDigits n]
            | none => [])
        ++ (match ao with
            | some m => [actMarker ++ natDigits m]
            | none => [])
        ++ (if R = [] then [] else [penFull ++ R]))
        ++ [taskIdToken id])) = ⟨eo, ao, R, T⟩ := by
  have hThead := trim_stable_head T hTtrim
  have hTlast := trim_stable_last T hTtrim
  have hRlast := trim_stable_last R hRtrim
  have hTws : T = [] ∨ ∃ c t, T = c :: t ∧ jsWS c = false := by
    cases T with
    | nil => exact Or.inl rfl
    | cons c t => exact Or.inr ⟨c, t, rfl, hThead c rfl⟩
  have hTclean : trimJS (collapseWS T) = T := by rw [hTcol, hTtrim]
  have hTtrimW : ∀ W, (∀ c ∈ W, jsWS c = true) → trimJS (T ++ W) = T :=
    fun W hW => by rw [trimJS_append_allws T W hTws hW, hTtrim]
  have hTcleanW : ∀ W, (∀ c ∈ W, jsWS c = true) →
      trimJS (collapseWS (T ++ W)) = T := by
    intro W hW
    rcases eq_or_ne T [] with h | h
    · subst h
      rw [List.nil_append, trimJS_collapse_allws W hW]
    · rw [show collapseWS (T ++ W) = collapseGo false (T ++ W) from rfl]
      rw [clean3_core T W h hThead hTlast hW]
      exact hTclean
  have hTRclean : ∀ W, (∀ c ∈ W, jsWS c = true) →
      trimJS (collapseWS (trimJS (T ++ W))) = T :=
    fun W hW => by rw [hTtrimW W hW, hTclean]
  have hElast : ∀ (n : Nat) w,
      (estMarker ++ natDigits n).getLast? = some w → jsWS w = false := by
    intro n w hw
    rw [List.getLast?_append_of_ne_nil _ (natDigits_ne_nil n)] at hw
    exact natDigits_nonws n w (List.mem_of_mem_getLast? hw)
  have hAlast : ∀ (m : Nat) w,
      (actMarker ++ natDigits m).getLast? = some w → jsWS w = false := by
    intro m w hw
    rw [List.getLast?_append_of_ne_nil _ (natDigits_ne_nil m)] at hw
    exact natDigits_nonws m w (List.mem_of_mem_getLast? hw)
  have hE2 : ∀ n : Nat, '⌛' ∉ estMarker ++ natDigits n :=
    fun n => not_mem_app (by decide) (not_mem_natDigits _ (by decide) n)
  have hE3 : ∀ n : Nat, '✍' ∉ estMarker ++ natDigits n :=
    fun n => not_mem_app (by decide) (not_mem_natDigits _ (by decide) n)
  have hE5 : ∀ n : Nat, '\x7b' ∉ estMarker ++ natDigits n :=
    fun n => not_mem_app (by decide) (not_mem_natDigits _ (by decide) n)
  have hA1 : ∀ m : Nat, '⏳' ∉ actMarker ++ natDigits m :=
    fun m => not_mem_app (by decide) (not_mem_natDigits _ (by decide) m)
  have hA3 : ∀ m : Nat, '✍' ∉ actMarker ++ natDigits m :=
    fun m => not_mem_app (by decide) (not_mem_natDigits _ (by decide) m)
  have hA5 : ∀ m : Nat, '\x7b' ∉ actMarker ++ natDigits m :=
    fun m => not_mem_app (by decide) (not_mem_natDigits _ (by decide) m)
  rcases eq_or_ne T [] with hTe | hTe
  · subst hTe
    rw [if_pos rfl]
    cases eo with
    | some n =>
      cases ao with
      | some m =>
        rcases eq_or_ne R [] with hRe | hRe
        · subst hRe
          rw [if_pos rfl]
          show parseMeta (List.intercalate [' '] [estMarker ++ natDigits n, actMarker ++ natDigits m, taskIdToken id]) =
            ⟨some n, some m, [], []⟩
          rw [intercalate_three]
          have e0 : stripTaskIdToken ((estMarker ++ natDigits n) ++ ' ' :: ((actMarker ++ natDigits m) ++ ' ' :: (taskIdToken id))) =
              (estMarker ++ natDigits n) ++ ' ' :: ((actMarker ++ natDigits m)) := by
            rw [show (estMarker ++ natDigits n) ++ ' ' :: ((actMarker ++ natDigits m) ++ ' ' :: (taskIdToken id)) =
              ((estMarker ++ natDigits n) ++ ' ' :: ((actMarker ++ natDigits m))) ++ ' ' :: taskIdToken id from by
                simp [List.append_assoc]]
            refine stripTaskIdToken_built id hhex h6 h32 _ ?_ ?_ ?_
            · exact (not_mem_app (hE5 n) (not_mem_cons (by decide) (hA5 m)))
            · intro w hw
              rw [show ((estMarker ++ natDigits n) ++ ' ' :: ((actMarker ++ natDigits m))).head? = some '⏳' from rfl] at hw
              injection hw with hw
              rw [← hw]
              decide
            · intro w hw
              rw [show (estMarker ++ natDigits n) ++ ' ' :: ((actMarker ++ natDigits m)) =
                ((estMarker ++ natDigits n) ++ [' ']) ++ (actMarker ++ natDigits m) from by
                  simp [List.append_assoc]] at hw
              rw [List.getLast?_append_of_ne_nil _ (by simp [actMarker, str])] at hw
              exact hAlast m w hw
          have e1 : scanTok estMarker ((estMarker ++ natDigits n) ++ ' ' :: ((actMarker ++ natDigits m))) =
              some (natDigits n) := by
            rw [show (estMarker ++ natDigits n) ++ ' ' :: ((actMarker ++ natDigits m)) =
              estMarker ++ (natDigits n ++ (' ' :: ((actMarker ++ natDigits m)))) from by simp [List.append_assoc]]
            exact scanTok_est_head _ _ (natDigits_ne_nil n)
              (natDigits_nonws n) (Or.inr ⟨_, rfl⟩)
          have e2 : replTok estMarker ((estMarker ++ natDigits n) ++ ' ' :: ((actMarker ++ natDigits m))) =
              ' ' :: (' ' :: ((actMarker ++ natDigits m))) := by
            rw [show (estMarker ++ natDigits n) ++ ' ' :: ((actMarker ++ natDigits m)) =
              estMarker ++ (natDigits n ++ (' ' :: ((actMarker ++ natDigits m)))) from by simp [List.append_assoc]]
            exact replTok_est_head _ _ (natDigits_ne_nil n)
              (natDigits_nonws n) (Or.inr ⟨_, rfl⟩) (not_mem_cons (by decide) (hA1 m))
          have e3 : scanTok actMarker (' ' :: (' ' :: ((actMarker ++ natDigits m)))) =
              some (natDigits m) := by
            rw [show ' ' :: (' ' :: ((actMarker ++ natDigits m))) =
              [' '] ++ ' ' :: (actMarker ++ (natDigits m ++ ([]))) from by simp [List.append_assoc]]
            exact scanTok_act_sep _ _ _ (natDigits_ne_nil m)
              (natDigits_nonws m) (Or.inl rfl) (by decide)
          have e4 : replTok actMarker (' ' :: (' ' :: ((actMarker ++ natDigits m)))) =
              [' '] ++ [' '] := by
            rw [show ' ' :: (' ' :: ((actMarker ++ natDigits m))) =
              [' '] ++ ' ' :: (actMarker ++ (natDigits m ++ ([]))) from by simp [List.append_assoc]]
            exact replTok_act_sep _ _ _ (natDigits_ne_nil m)
              (natDigits_nonws m) (Or.inl rfl) (by simp) (by decide)
          have e5 : findReason ([' '] ++ [' ']) = none :=
            findReason_none _ (not_mem_app (by decide) (by decide))
          simp only [parseMeta, e0, e1, e2, e3, e4, e5, Option.some_bind,
            Option.none_bind, jsNonnegInt_natDigits]
          rw [show trimJS (collapseWS ([' '] ++ [' '])) = [] from
            trimJS_collapse_allws _ (by decide)]
        · rw [if_neg hRe]
          show parseMeta (List.intercalate [' '] [estMarker ++ natDigits n, actMarker ++ natDigits m, penFull ++ R, taskIdToken id]) =
            ⟨some n, some m, R, []⟩
          rw [intercalate_four]
          have e0 : stripTaskIdToken ((estMarker ++ natDigits n) ++ ' ' :: ((actMarker ++ natDigits m) ++ ' ' :: ((penFull ++ R) ++ ' ' :: (taskIdToken id)))) =
              (estMarker ++ natDigits n) ++ ' ' :: ((actMarker ++ natDigits m) ++ ' ' :: ((penFull ++ R))) := by
            rw [show (estMarker ++ natDigits n) ++ ' ' :: ((actMarker ++ natDigits m) ++ ' ' :: ((penFull ++ R) ++ ' ' :: (taskIdToken id))) =
              (((estMarker ++ natDigits n) ++ ' ' :: ((actMarker ++ natDigits m))) ++ ' ' :: (penFull ++ R)) ++ ' ' :: taskIdToken id from by
                simp [List.append_assoc]]
            rw [show (estMarker ++ natDigits n) ++ ' ' :: ((actMarker ++ natDigits m) ++ ' ' :: ((penFull ++ R))) =
              ((estMarker ++ natDigits n) ++ ' ' :: ((actMarker ++ natDigits m))) ++ ' ' :: (penFull ++ R) from by simp [List.append_assoc]]
            refine stripTaskIdToken_built_pen id hhex h6 h32 _ R ?_ hRleg ?_ hRe hRlast
            · exact (not_mem_app (hE5 n) (not_mem_cons (by decide) (hA5 m)))
            · intro w hw
              rw [show (((estMarker ++ natDigits n) ++ ' ' :: ((actMarker ++ natDigits m))) ++ ' ' :: (penFull ++ R)).head? =
                some '⏳' from rfl] at hw
              injection hw with hw
              rw [← hw]
              decide
          have e1 : scanTok estMarker ((estMarker ++ natDigits n) ++ ' ' :: ((actMarker ++ natDigits m) ++ ' ' :: ((penFull ++ R)))) =
              some (natDigits n) := by
            rw [show (estMarker ++ natDigits n) ++ ' ' :: ((actMarker ++ natDigits m) ++ ' ' :: ((penFull ++ R))) =
              estMarker ++ (natDigits n ++ (' ' :: ((actMarker ++ natDigits m) ++ ' ' :: ((penFull ++ R))))) from by simp [List.append_assoc]]
            exact scanTok_est_head _ _ (natDigits_ne_nil n)
              (natDigits_nonws n) (Or.inr ⟨_, rfl⟩)
          have e2 : replTok estMarker ((estMarker ++ natDigits n) ++ ' ' :: ((actMarker ++ natDigits m) ++ ' ' :: ((penFull ++ R)))) =
              ' ' :: (' ' :: ((actMarker ++ natDigits m) ++ ' ' :: ((penFull ++ R)))) := by
            rw [show (estMarker ++ natDigits n) ++ ' ' :: ((actMarker ++ natDigits m) ++ ' ' :: ((penFull ++ R))) =
              estMarker ++ (natDigits n ++ (' ' :: ((actMarker ++ natDigits m) ++ ' ' :: ((penFull ++ R))))) from by simp [List.append_assoc]]
            exact replTok_est_head2 _ _ (natDigits_ne_nil n)
              (natDigits_nonws n) (Or.inr ⟨_, rfl⟩) (scanTokAux_est_cons_sep_none (actMarker ++ natDigits m) R (hA1 m) hR1)
          have e3 : scanTok actMarker (' ' :: (' ' :: ((actMarker ++ natDigits m) ++ ' ' :: ((penFull ++ R))))) =
              some (natDigits m) := by
            rw [show ' ' :: (' ' :: ((actMarker ++ natDigits m) ++ ' ' :: ((penFull ++ R)))) =
              [' '] ++ ' ' :: (actMarker ++ (natDigits m ++ (' ' :: ((penFull ++ R))))) from by simp [List.append_assoc]]
            exact scanTok_act_sep _ _ _ (natDigits_ne_nil m)
              (natDigits_nonws m) (Or.inr ⟨_, rfl⟩) (by decide)
          have e4 : replTok actMarker (' ' :: (' ' :: ((actMarker ++ natDigits m) ++ ' ' :: ((penFull ++ R))))) =
              [' '] ++ ' ' :: (' ' :: ((penFull ++ R))) := by
            rw [show ' ' :: (' ' :: ((actMarker ++ natDigits m) ++ ' ' :: ((penFull ++ R)))) =
              [' '] ++ ' ' :: (actMarker ++ (natDigits m ++ (' ' :: ((penFull ++ R))))) from by simp [List.append_assoc]]
            exact replTok_act_sep2 _ _ _ (natDigits_ne_nil m)
              (natDigits_nonws m) (Or.inr ⟨_, rfl⟩) (scanTokAux_act_cons_pen_none R hR2) (by decide)
          have e5 : findReason ([' '] ++ ' ' :: (' ' :: ((penFull ++ R)))) =
              some (([' '] ++ [' ']), R) := by
            rw [show [' '] ++ ' ' :: (' ' :: ((penFull ++ R))) =
              ([' '] ++ [' ']) ++ ' ' :: (penFull ++ R) from by simp [List.append_assoc]]
            exact findReason_sep _ R (not_mem_app (by decide) (by decide)) hRterm
          simp only [parseMeta, e0, e1, e2, e3, e4, e5, Option.some_bind,
            Option.none_bind, jsNonnegInt_natDigits]
          rw [hRtrim]
          rw [show trimJS (([' '] ++ [' '])) = [] from trimJS_allws _ (by decide)]
          rfl
      | none =>
        rcases eq_or_ne R [] with hRe | hRe
        · subst hRe
          rw [if_pos rfl]
          show parseMeta (List.intercalate [' '] [estMarker ++ natDigits n, taskIdToken id]) =
            ⟨some n, none, [], []⟩
          rw [intercalate_two]
          have e0 : stripTaskIdToken ((estMarker ++ natDigits n) ++ ' ' :: (taskIdToken id)) =
              (estMarker ++ natDigits n) := by
            rw [show (estMarker ++ natDigits n) ++ ' ' :: (taskIdToken id) =
              ((estMarker ++ natDigits n)) ++ ' ' :: taskIdToken id from by
                simp [List.append_assoc]]
            refine stripTaskIdToken_built id hhex h6 h32 _ ?_ ?_ ?_
            · exact (hE5 n)
            · intro w hw
              rw [show ((estMarker ++ natDigits n)).head? = some '⏳' from rfl] at hw
              injection hw with hw
              rw [← hw]
              decide
            · exact hElast n
          have e1 : scanTok estMarker ((estMarker ++ natDigits n)) =
              some (natDigits n) := by
            rw [show (estMarker ++ natDigits n) =
              estMarker ++ (natDigits n ++ ([])) from by simp [List.append_assoc]]
            exact scanTok_est_head _ _ (natDigits_ne_nil n)
              (natDigits_nonws n) (Or.inl rfl)
          have e2 : replTok estMarker ((estMarker ++ natDigits n)) =
              [' '] := by
            rw [show (estMarker ++ natDigits n) =
              estMarker ++ (natDigits n ++ ([])) from by simp [List.append_assoc]]
            exact replTok_est_head _ _ (natDigits_ne_nil n)
              (natDigits_nonws n) (Or.inl rfl) (by simp)
          have e3 : scanTok actMarker ([' ']) = none :=
            scanTok_act_none _ (by decide)
          have e4 : replTok actMarker ([' ']) =
              [' '] :=
            replTok_act_none _ (by decide)
          have e5 : findReason ([' ']) = none :=
            findReason_none _ (by decide)
          simp only [parseMeta, e0, e1, e2, e3, e4, e5, Option.some_bind,
            Option.none_bind, jsNonnegInt_natDigits]
          rw [show trimJS (collapseWS ([' '])) = [] from
            trimJS_collapse_allws _ (by decide)]
        · rw [if_neg hRe]
          show parseMeta (List.intercalate [' '] [estMarker ++ natDigits n, penFull ++ R, taskIdToken id]) =
            ⟨some n, none, R, []⟩
          rw [intercalate_three]
          have e0 : stripTaskIdToken ((estMarker ++ natDigits n) ++ ' ' :: ((penFull ++ R) ++ ' ' :: (taskIdToken id))) =
              (estMarker ++ natDigits n) ++ ' ' :: ((penFull ++ R)) := by
            rw [show (estMarker ++ natDigits n) ++ ' ' :: ((penFull ++ R) ++ ' ' :: (taskIdToken id)) =
              (((estMarker ++ natDigits n)) ++ ' ' :: (penFull ++ R)) ++ ' ' :: taskIdToken id from by
                simp [List.append_assoc]]
            rw [show (estMarker ++ natDigits n) ++ ' ' :: ((penFull ++ R)) =
              ((estMarker ++ natDigits n)) ++ ' ' :: (penFull ++ R) from by simp [List.append_assoc]]
            refine stripTaskIdToken_built_pen id hhex h6 h32 _ R ?_ hRleg ?_ hRe hRlast
            · exact (hE5 n)
            · intro w hw
              rw [show (((estMarker ++ natDigits n)) ++ ' ' :: (penFull ++ R)).head? =
                some '⏳' from rfl] at hw
              injection hw with hw
              rw [← hw]
              decide
          have e1 : scanTok estMarker ((estMarker ++ natDigits n) ++ ' ' :: ((penFull ++ R))) =
              some (natDigits n) := by
            rw [show (estMarker ++ natDigits n) ++ ' ' :: ((penFull ++ R)) =
              estMarker ++ (natDigits n ++ (' ' :: ((penFull ++ R)))) from by simp [List.append_assoc]]
            exact scanTok_est_head _ _ (natDigits_ne_nil n)
              (natDigits_nonws n) (Or.inr ⟨_, rfl⟩)
          have e2 : replTok estMarker ((estMarker ++ natDigits n) ++ ' ' :: ((penFull ++ R))) =
              ' ' :: (' ' :: ((penFull ++ R))) := by
            rw [show (estMarker ++ natDigits n) ++ ' ' :: ((penFull ++ R)) =
              estMarker ++ (natDigits n ++ (' ' :: ((penFull ++ R)))) from by simp [List.append_assoc]]
            exact replTok_est_head2 _ _ (natDigits_ne_nil n)
              (natDigits_nonws n) (Or.inr ⟨_, rfl⟩) (scanTokAux_est_cons_pen_none R hR1)
          have e3 : scanTok actMarker (' ' :: (' ' :: ((penFull ++ R)))) = none := by
            rw [show ' ' :: (' ' :: ((penFull ++ R))) =
              ([' ']) ++ ' ' :: (penFull ++ R) from by simp [List.append_assoc]]
            exact scanTok_act_pen_sep_none _ R (by decide) hR2
          have e4 : replTok actMarker (' ' :: (' ' :: ((penFull ++ R)))) =
              ' ' :: (' ' :: ((penFull ++ R))) :=
            replTok_of_scan_none _ _ e3
          have e5 : findReason (' ' :: (' ' :: ((penFull ++ R)))) =
              some ([' '], R) := by
            rw [show ' ' :: (' ' :: ((penFull ++ R))) =
              [' '] ++ ' ' :: (penFull ++ R) from by simp [List.append_assoc]]
            exact findReason_sep _ R (by decide) hRterm
          simp only [parseMeta, e0, e1, e2, e3, e4, e5, Option.some_bind,
            Option.none_bind, jsNonnegInt_natDigits]
          rw [hRtrim]
          rw [show trimJS ([' ']) = [] from trimJS_allws _ (by decide)]
          rfl
    | none =>
      cases ao with
      | some m =>
        rcases eq_or_ne R [] with hRe | hRe
        · subst hRe
          rw [if_pos rfl]
          show parseMeta (List.intercalate [' '] [actMarker ++ natDigits m, taskIdToken id]) =
            ⟨none, some m, [], []⟩
          rw [intercalate_two]
          have e0 : stripTaskIdToken ((actMarker ++ natDigits m) ++ ' ' :: (taskIdToken id)) =
              (actMarker ++ natDigits m) := by
            rw [show (actMarker ++ natDigits m) ++ ' ' :: (taskIdToken id) =
              ((actMarker ++ natDigits m)) ++ ' ' :: taskIdToken id from by
                simp [List.append_assoc]]
            refine stripTaskIdToken_built id hhex h6 h32 _ ?_ ?_ ?_
            · exact (hA5 m)
            · intro w hw
              rw [show ((actMarker ++ natDigits m)).head? = some '⌛' from rfl] at hw
              injection hw with hw
              rw [← hw]
              decide
            · exact hAlast m
          have e1 : scanTok estMarker ((actMarker ++ natDigits m)) = none :=
            scanTok_est_none _ (hA1 m)
          have e2 : replTok estMarker ((actMarker ++ natDigits m)) =
              (actMarker ++ natDigits m) :=
            replTok_est_none _ (hA1 m)
          have e3 : scanTok actMarker ((actMarker ++ natDigits m)) =
              some (natDigits m) := by
            rw [show (actMarker ++ natDigits m) =
              actMarker ++ (natDigits m ++ ([])) from by simp [List.append_assoc]]
            exact scanTok_act_head _ _ (natDigits_ne_nil m)
              (natDigits_nonws m) (Or.inl rfl)
          have e4 : replTok actMarker ((actMarker ++ natDigits m)) =
              [' '] := by
            rw [show (actMarker ++ natDigits m) =
              actMarker ++ (natDigits m ++ ([])) from by simp [List.append_assoc]]
            exact replTok_act_head _ _ (natDigits_ne_nil m)
              (natDigits_nonws m) (Or.inl rfl) (by simp)
          have e5 : findReason ([' ']) = none :=
            findReason_none _ (by decide)
          simp only [parseMeta, e0, e1, e2, e3, e4, e5, Option.some_bind,
            Option.none_bind, jsNonnegInt_natDigits]
          rw [show trimJS (collapseWS ([' '])) = [] from
            trimJS_collapse_allws _ (by decide)]
        · rw [if_neg hRe]
          show parseMeta (List.intercalate [' '] [actMarker ++ natDigits m, penFull ++ R, taskIdToken id]) =
            ⟨none, some m, R, []⟩
          rw [intercalate_three]
          have e0 : stripTaskIdToken ((actMarker ++ natDigits m) ++ ' ' :: ((penFull ++ R) ++ ' ' :: (taskIdToken id))) =
              (actMarker ++ natDigits m) ++ ' ' :: ((penFull ++ R)) := by
            rw [show (actMarker ++ natDigits m) ++ ' ' :: ((penFull ++ R) ++ ' ' :: (taskIdToken id)) =
              (((actMarker ++ natDigits m)) ++ ' ' :: (penFull ++ R)) ++ ' ' :: taskIdToken id from by
                simp [List.append_assoc]]
            rw [show (actMarker ++ natDigits m) ++ ' ' :: ((penFull ++ R)) =
              ((actMarker ++ natDigits m)) ++ ' ' :: (penFull ++ R) from by simp [List.append_assoc]]
            refine stripTaskIdToken_built_pen id hhex h6 h32 _ R ?_ hRleg ?_ hRe hRlast
            · exact (hA5 m)
            · intro w hw
              rw [show (((actMarker ++ natDigits m)) ++ ' ' :: (penFull ++ R)).head? =
                some '⌛' from rfl] at hw
              injection hw with hw
              rw [← hw]
              decide
          have e1 : scanTok estMarker ((actMarker ++ natDigits m) ++ ' ' :: ((penFull ++ R))) = none := by
            rw [show (actMarker ++ natDigits m) ++ ' ' :: ((penFull ++ R)) =
              ((actMarker ++ natDigits m)) ++ ' ' :: (penFull ++ R) from by simp [List.append_assoc]]
            exact scanTok_est_pen_sep_none _ R (hA1 m) hR1
          have e2 : replTok estMarker ((actMarker ++ natDigits m) ++ ' ' :: ((penFull ++ R))) =
              (actMarker ++ natDigits m) ++ ' ' :: ((penFull ++ R)) :=
            replTok_of_scan_none _ _ e1
          have e3 : scanTok actMarker ((actMarker ++ natDigits m) ++ ' ' :: ((penFull ++ R))) =
              some (natDigits m) := by
            rw [show (actMarker ++ natDigits m) ++ ' ' :: ((penFull ++ R)) =
              actMarker ++ (natDigits m ++ (' ' :: ((penFull ++ R)))) from by simp [List.append_assoc]]
            exact scanTok_act_head _ _ (natDigits_ne_nil m)
              (natDigits_nonws m) (Or.inr ⟨_, rfl⟩)
          have e4 : replTok actMarker ((actMarker ++ natDigits m) ++ ' ' :: ((penFull ++ R))) =
              ' ' :: (' ' :: ((penFull ++ R))) := by
            rw [show (actMarker ++ natDigits m) ++ ' ' :: ((penFull ++ R)) =
              actMarker ++ (natDigits m ++ (' ' :: ((penFull ++ R)))) from by simp [List.append_assoc]]
            exact replTok_act_head2 _ _ (natDigits_ne_nil m)
              (natDigits_nonws m) (Or.inr ⟨_, rfl⟩) (scanTokAux_act_cons_pen_none R hR2)
          have e5 : findReason (' ' :: (' ' :: ((penFull ++ R)))) =
              some ([' '], R) := by
            rw [show ' ' :: (' ' :: ((penFull ++ R))) =
              [' '] ++ ' ' :: (penFull ++ R) from by simp [List.append_assoc]]
            exact findReason_sep _ R (by decide) hRterm
          simp only [parseMeta, e0, e1, e2, e3, e4, e5, Option.some_bind,
            Option.none_bind, jsNonnegInt_natDigits]
          rw [hRtrim]
          rw [show trimJS ([' ']) = [] from trimJS_allws _ (by decide)]
          rfl
      | none =>
        rcases eq_or_ne R [] with hRe | hRe
        · subst hRe
          rw [if_pos rfl]
          show parseMeta (List.intercalate [' '] [taskIdToken id]) = ⟨none, none, [], []⟩
          rw [intercalate_one]
          have e0 : stripTaskIdToken (taskIdToken id) = [] :=
            stripTaskIdToken_tokOnly id hhex h6 h32
          have e1 : scanTok estMarker ([] : Str) = none :=
            scanTok_est_none [] (by simp)
          have e2 : replTok estMarker ([] : Str) = [] :=
            replTok_est_none [] (by simp)
          have e3 : scanTok actMarker ([] : Str) = none :=
            scanTok_act_none [] (by simp)
          have e4 : replTok actMarker ([] : Str) = [] :=
            replTok_act_none [] (by simp)
          have e5 : findReason ([] : Str) = none :=
            findReason_none [] (by simp)
          simp only [parseMeta, e0, e1, e2, e3, e4, e5, Option.none_bind]
          rfl
        · rw [if_neg hRe]
          show parseMeta (List.intercalate [' '] [penFull ++ R, taskIdToken id]) =
            ⟨none, none, R, []⟩
          rw [intercalate_two]
          have e0 : stripTaskIdToken ((penFull ++ R) ++ ' ' :: (taskIdToken id)) =
              (penFull ++ R) :=
            stripTaskIdToken_built_penOnly id hhex h6 h32 R hRleg hRe hRlast
          have e1 : scanTok estMarker ((penFull ++ R)) = none :=
            scanTok_est_pen_head_none R hR1
          have e2 : replTok estMarker ((penFull ++ R)) =
              (penFull ++ R) :=
            replTok_of_scan_none _ _ e1
          have e3 : scanTok actMarker ((penFull ++ R)) = none :=
            scanTok_act_pen_head_none R hR2
          have e4 : replTok actMarker ((penFull ++ R)) =
              (penFull ++ R) :=
            replTok_of_scan_none _ _ e3
          have e5 : findReason ((penFull ++ R)) = some ([], R) :=
            findReason_head R hRterm
          simp only [parseMeta, e0, e1, e2, e3, e4, e5, Option.some_bind,
            Option.none_bind, jsNonnegInt_natDigits]
          rw [hRtrim]
          rfl
  · rw [if_neg hTe]
    have hTheadApp : ∀ (X : Str) w, (T ++ X).head? = some w →
        jsWS w = false := by
      intro X w hw
      cases T with
      | nil => exact absurd rfl hTe
      | cons c t =>
        rw [List.cons_append, List.head?_cons] at hw
        injection hw with hw
        rw [← hw]
        exact hThead c rfl
    cases eo with
    | some n =>
      cases ao with
      | some m =>
        rcases eq_or_ne R [] with hRe | hRe
        · subst hRe
          rw [if_pos rfl]
          show parseMeta (List.intercalate [' '] [T, estMarker ++ natDigits n, actMarker ++ natDigits m, taskIdToken id]) =
            ⟨some n, some m, [], T⟩
          rw [intercalate_four]
          have e0 : stripTaskIdToken (T ++ ' ' :: ((estMarker ++ natDigits n) ++ ' ' :: ((actMarker ++ natDigits m) ++ ' ' :: (taskIdToken id)))) =
              T ++ ' ' :: ((estMarker ++ natDigits n) ++ ' ' :: ((actMarker ++ natDigits m))) := by
            rw [show T ++ ' ' :: ((estMarker ++ natDigits n) ++ ' ' :: ((actMarker ++ natDigits m) ++ ' ' :: (taskIdToken id))) =
              (T ++ ' ' :: ((estMarker ++ natDigits n) ++ ' ' :: ((actMarker ++ natDigits m)))) ++ ' ' :: taskIdToken id from by
                simp [List.append_assoc]]
            refine stripTaskIdToken_built id hhex h6 h32 _ ?_ ?_ ?_
            · exact (not_mem_app hT5 (not_mem_cons (by decide) (not_mem_app (hE5 n) (not_mem_cons (by decide) (hA5 m)))))
            · exact hTheadApp _
            · intro w hw
              rw [show T ++ ' ' :: ((estMarker ++ natDigits n) ++ ' ' :: ((actMarker ++ natDigits m))) =
                (T ++ ' ' :: ((estMarker ++ natDigits n) ++ [' '])) ++ (actMarker ++ natDigits m) from by
                  simp [List.append_assoc]] at hw
              rw [List.getLast?_append_of_ne_nil _ (by simp [actMarker, str])] at hw
              exact hAlast m w hw
          have e1 : scanTok estMarker (T ++ ' ' :: ((estMarker ++ natDigits n) ++ ' ' :: ((actMarker ++ natDigits m)))) =
              some (natDigits n) := by
            rw [show T ++ ' ' :: ((estMarker ++ natDigits n) ++ ' ' :: ((actMarker ++ natDigits m))) =
              T ++ ' ' :: (estMarker ++ (natDigits n ++ (' ' :: ((actMarker ++ natDigits m))))) from by simp [List.append_assoc]]
            exact scanTok_est_sep _ _ _ (natDigits_ne_nil n)
              (natDigits_nonws n) (Or.inr ⟨_, rfl⟩) hT1
          have e2 : replTok estMarker (T ++ ' ' :: ((estMarker ++ natDigits n) ++ ' ' :: ((actMarker ++ natDigits m)))) =
              T ++ ' ' :: (' ' :: ((actMarker ++ natDigits m))) := by
            rw [show T ++ ' ' :: ((estMarker ++ natDigits n) ++ ' ' :: ((actMarker ++ natDigits m))) =
              T ++ ' ' :: (estMarker ++ (natDigits n ++ (' ' :: ((actMarker ++ natDigits m))))) from by simp [List.append_assoc]]
            exact replTok_est_sep _ _ _ (natDigits_ne_nil n)
              (natDigits_nonws n) (Or.inr ⟨_, rfl⟩) (not_mem_cons (by decide) (hA1 m)) hT1
          have e3 : scanTok actMarker (T ++ ' ' :: (' ' :: ((actMarker ++ natDigits m)))) =
              some (natDigits m) := by
            rw [show T ++ ' ' :: (' ' :: ((actMarker ++ natDigits m))) =
              (T ++ [' ']) ++ ' ' :: (actMarker ++ (natDigits m ++ ([]))) from by simp [List.append_assoc]]
            exact scanTok_act_sep _ _ _ (natDigits_ne_nil m)
              (natDigits_nonws m) (Or.inl rfl) (not_mem_app hT2 (by decide))
          have e4 : replTok actMarker (T ++ ' ' :: (' ' :: ((actMarker ++ natDigits m)))) =
              T ++ [' '] ++ [' '] := by
            rw [show T ++ ' ' :: (' ' :: ((actMarker ++ natDigits m))) =
              (T ++ [' ']) ++ ' ' :: (actMarker ++ (natDigits m ++ ([]))) from by simp [List.append_assoc]]
            exact replTok_act_sep _ _ _ (natDigits_ne_nil m)
              (natDigits_nonws m) (Or.inl rfl) (by simp) (not_mem_app hT2 (by decide))
          have e5 : findReason (T ++ [' '] ++ [' ']) = none :=
            findReason_none _ (not_mem_app (not_mem_app hT3 (by decide)) (by decide))
          simp only [parseMeta, e0, e1, e2, e3, e4, e5, Option.some_bind,
            Option.none_bind, jsNonnegInt_natDigits]
          rw [show T ++ [' '] ++ [' '] = T ++ [' ', ' '] from by simp]
          rw [hTcleanW [' ', ' '] (by decide)]
        · rw [if_neg hRe]
          show parseMeta (List.intercalate [' '] [T, estMarker ++ natDigits n, actMarker ++ natDigits m, penFull ++ R, taskIdToken id]) =
            ⟨some n, some m, R, T⟩
          rw [intercalate_five]
          have e0 : stripTaskIdToken (T ++ ' ' :: ((estMarker ++ natDigits n) ++ ' ' :: ((actMarker ++ natDigits m) ++ ' ' :: ((penFull ++ R) ++ ' ' :: (taskIdToken id))))) =
              T ++ ' ' :: ((estMarker ++ natDigits n) ++ ' ' :: ((actMarker ++ natDigits m) ++ ' ' :: ((penFull ++ R)))) := by
            rw [show T ++ ' ' :: ((estMarker ++ natDigits n) ++ ' ' :: ((actMarker ++ natDigits m) ++ ' ' :: ((penFull ++ R) ++ ' ' :: (taskIdToken id)))) =
              ((T ++ ' ' :: ((estMarker ++ natDigits n) ++ ' ' :: ((actMarker ++ natDigits m)))) ++ ' ' :: (penFull ++ R)) ++ ' ' :: taskIdToken id from by
                simp [List.append_assoc]]
            rw [show T ++ ' ' :: ((estMarker ++ natDigits n) ++ ' ' :: ((actMarker ++ natDigits m) ++ ' ' :: ((penFull ++ R)))) =
              (T ++ ' ' :: ((estMarker ++ natDigits n) ++ ' ' :: ((actMarker ++ natDigits m)))) ++ ' ' :: (penFull ++ R) from by simp [List.append_assoc]]
            refine stripTaskIdToken_built_pen id hhex h6 h32 _ R ?_ hRleg ?_ hRe hRlast
            · exact (not_mem_app hT5 (not_mem_cons (by decide) (not_mem_app (hE5 n) (not_mem_cons (by decide) (hA5 m)))))
            · intro w hw
              rw [List.append_assoc] at hw
              exact hTheadApp _ w hw
          have e1 : scanTok estMarker (T ++ ' ' :: ((estMarker ++ natDigits n) ++ ' ' :: ((actMarker ++ natDigits m) ++ ' ' :: ((penFull ++ R))))) =
              some (natDigits n) := by
            rw [show T ++ ' ' :: ((estMarker ++ natDigits n) ++ ' ' :: ((actMarker ++ natDigits m) ++ ' ' :: ((penFull ++ R)))) =
              T ++ ' ' :: (estMarker ++ (natDigits n ++ (' ' :: ((actMarker ++ natDigits m) ++ ' ' :: ((penFull ++ R)))))) from by simp [List.append_assoc]]
            exact scanTok_est_sep _ _ _ (natDigits_ne_nil n)
              (natDigits_nonws n) (Or.inr ⟨_, rfl⟩) hT1
          have e2 : replTok estMarker (T ++ ' ' :: ((estMarker ++ natDigits n) ++ ' ' :: ((actMarker ++ natDigits m) ++ ' ' :: ((penFull ++ R))))) =
              T ++ ' ' :: (' ' :: ((actMarker ++ natDigits m) ++ ' ' :: ((penFull ++ R)))) := by
            rw [show T ++ ' ' :: ((estMarker ++ natDigits n) ++ ' ' :: ((actMarker ++ natDigits m) ++ ' ' :: ((penFull ++ R)))) =
              T ++ ' ' :: (estMarker ++ (natDigits n ++ (' ' :: ((actMarker ++ natDigits m) ++ ' ' :: ((penFull ++ R)))))) from by simp [List.append_assoc]]
            exact replTok_est_sep2 _ _ _ (natDigits_ne_nil n)
              (natDigits_nonws n) (Or.inr ⟨_, rfl⟩) (scanTokAux_est_cons_sep_none (actMarker ++ natDigits m) R (hA1 m) hR1) hT1
          have e3 : scanTok actMarker (T ++ ' ' :: (' ' :: ((actMarker ++ natDigits m) ++ ' ' :: ((penFull ++ R))))) =
              some (natDigits m) := by
            rw [show T ++ ' ' :: (' ' :: ((actMarker ++ natDigits m) ++ ' ' :: ((penFull ++ R)))) =
              (T ++ [' ']) ++ ' ' :: (actMarker ++ (natDigits m ++ (' ' :: ((penFull ++ R))))) from by simp [List.append_assoc]]
            exact scanTok_act_sep _ _ _ (natDigits_ne_nil m)
              (natDigits_nonws m) (Or.inr ⟨_, rfl⟩) (not_mem_app hT2 (by decide))
          have e4 : replTok actMarker (T ++ ' ' :: (' ' :: ((actMarker ++ natDigits m) ++ ' ' :: ((penFull ++ R))))) =
              T ++ [' '] ++ ' ' :: (' ' :: ((penFull ++ R))) := by
            rw [show T ++ ' ' :: (' ' :: ((actMarker ++ natDigits m) ++ ' ' :: ((penFull ++ R)))) =
              (T ++ [' ']) ++ ' ' :: (actMarker ++ (natDigits m ++ (' ' :: ((penFull ++ R))))) from by simp [List.append_assoc]]
            exact replTok_act_sep2 _ _ _ (natDigits_ne_nil m)
              (natDigits_nonws m) (Or.inr ⟨_, rfl⟩) (scanTokAux_act_cons_pen_none R hR2) (not_mem_app hT2 (by decide))
          have e5 : findReason (T ++ [' '] ++ ' ' :: (' ' :: ((penFull ++ R)))) =
              some (((T ++ [' ']) ++ [' ']), R) := by
            rw [show T ++ [' '] ++ ' ' :: (' ' :: ((penFull ++ R))) =
              ((T ++ [' ']) ++ [' ']) ++ ' ' :: (penFull ++ R) from by simp [List.append_assoc]]
            exact findReason_sep _ R (not_mem_app (not_mem_app hT3 (by decide)) (by decide)) hRterm
          simp only [parseMeta, e0, e1, e2, e3, e4, e5, Option.some_bind,
            Option.none_bind, jsNonnegInt_natDigits]
          rw [hRtrim]
          rw [show ((T ++ [' ']) ++ [' ']) = T ++ [' ', ' '] from by simp]
          rw [hTRclean [' ', ' '] (by decide)]
      | none =>
        rcases eq_or_ne R [] with hRe | hRe
        · subst hRe
          rw [if_pos rfl]
          show parseMeta (List.intercalate [' '] [T, estMarker ++ natDigits n, taskIdToken id]) =
            ⟨some n, none, [], T⟩
          rw [intercalate_three]
          have e0 : stripTaskIdToken (T ++ ' ' :: ((estMarker ++ natDigits n) ++ ' ' :: (taskIdToken id))) =
              T ++ ' ' :: ((estMarker ++ natDigits n)) := by
            rw [show T ++ ' ' :: ((estMarker ++ natDigits n) ++ ' ' :: (taskIdToken id)) =
              (T ++ ' ' :: ((estMarker ++ natDigits n))) ++ ' ' :: taskIdToken id from by
                simp [List.append_assoc]]
            refine stripTaskIdToken_built id hhex h6 h32 _ ?_ ?_ ?_
            · exact (not_mem_app hT5 (not_mem_cons (by decide) (hE5 n)))
            · exact hTheadApp _
            · intro w hw
              rw [show T ++ ' ' :: ((estMarker ++ natDigits n)) =
                (T ++ [' ']) ++ (estMarker ++ natDigits n) from by
                  simp [List.append_assoc]] at hw
              rw [List.getLast?_append_of_ne_nil _ (by simp [estMarker, str])] at hw
              exact hElast n w hw
          have e1 : scanTok estMarker (T ++ ' ' :: ((estMarker ++ natDigits n))) =
              some (natDigits n) := by
            rw [show T ++ ' ' :: ((estMarker ++ natDigits n)) =
              T ++ ' ' :: (estMarker ++ (natDigits n ++ ([]))) from by simp [List.append_assoc]]
            exact scanTok_est_sep _ _ _ (natDigits_ne_nil n)
              (natDigits_nonws n) (Or.inl rfl) hT1
          have e2 : replTok estMarker (T ++ ' ' :: ((estMarker ++ natDigits n))) =
              T ++ [' '] := by
            rw [show T ++ ' ' :: ((estMarker ++ natDigits n)) =
              T ++ ' ' :: (estMarker ++ (natDigits n ++ ([]))) from by simp [List.append_assoc]]
            exact replTok_est_sep _ _ _ (natDigits_ne_nil n)
              (natDigits_nonws n) (Or.inl rfl) (by simp) hT1
          have e3 : scanTok actMarker (T ++ [' ']) = none :=
            scanTok_act_none _ (not_mem_app hT2 (by decide))
          have e4 : replTok actMarker (T ++ [' ']) =
              T ++ [' '] :=
            replTok_act_none _ (not_mem_app hT2 (by decide))
          have e5 : findReason (T ++ [' ']) = none :=
            findReason_none _ (not_mem_app hT3 (by decide))
          simp only [parseMeta, e0, e1, e2, e3, e4, e5, Option.some_bind,
            Option.none_bind, jsNonnegInt_natDigits]
          rw [show T ++ [' '] = T ++ [' '] from by simp]
          rw [hTcleanW [' '] (by decide)]
        · rw [if_neg hRe]
          show parseMeta (List.intercalate [' '] [T, estMarker ++ natDigits n, penFull ++ R, taskIdToken id]) =
            ⟨some n, none, R, T⟩
          rw [intercalate_four]
          have e0 : stripTaskIdToken (T ++ ' ' :: ((estMarker ++ natDigits n) ++ ' ' :: ((penFull ++ R) ++ ' ' :: (taskIdToken id)))) =
              T ++ ' ' :: ((estMarker ++ natDigits n) ++ ' ' :: ((penFull ++ R))) := by
            rw [show T ++ ' ' :: ((estMarker ++ natDigits n) ++ ' ' :: ((penFull ++ R) ++ ' ' :: (taskIdToken id))) =
              ((T ++ ' ' :: ((estMarker ++ natDigits n))) ++ ' ' :: (penFull ++ R)) ++ ' ' :: taskIdToken id from by
                simp [List.append_assoc]]
            rw [show T ++ ' ' :: ((estMarker ++ natDigits n) ++ ' ' :: ((penFull ++ R))) =
              (T ++ ' ' :: ((estMarker ++ natDigits n))) ++ ' ' :: (penFull ++ R) from by simp [List.append_assoc]]
            refine stripTaskIdToken_built_pen id hhex h6 h32 _ R ?_ hRleg ?_ hRe hRlast
            · exact (not_mem_app hT5 (not_mem_cons (by decide) (hE5 n)))
            · intro w hw
              rw [List.append_assoc] at hw
              exact hTheadApp _ w hw
          have e1 : scanTok estMarker (T ++ ' ' :: ((estMarker ++ natDigits n) ++ ' ' :: ((penFull ++ R)))) =
              some (natDigits n) := by
            rw [show T ++ ' ' :: ((estMarker ++ natDigits n) ++ ' ' :: ((penFull ++ R))) =
              T ++ ' ' :: (estMarker ++ (natDigits n ++ (' ' :: ((penFull ++ R))))) from by simp [List.append_assoc]]
            exact scanTok_est_sep _ _ _ (natDigits_ne_nil n)
              (natDigits_nonws n) (Or.inr ⟨_, rfl⟩) hT1
          have e2 : replTok estMarker (T ++ ' ' :: ((estMarker ++ natDigits n) ++ ' ' :: ((penFull ++ R)))) =
              T ++ ' ' :: (' ' :: ((penFull ++ R))) := by
            rw [show T ++ ' ' :: ((estMarker ++ natDigits n) ++ ' ' :: ((penFull ++ R))) =
              T ++ ' ' :: (estMarker ++ (natDigits n ++ (' ' :: ((penFull ++ R))))) from by simp [List.append_assoc]]
            exact replTok_est_sep2 _ _ _ (natDigits_ne_nil n)
              (natDigits_nonws n) (Or.inr ⟨_, rfl⟩) (scanTokAux_est_cons_pen_none R hR1) hT1
          have e3 : scanTok actMarker (T ++ ' ' :: (' ' :: ((penFull ++ R)))) = none := by
            rw [show T ++ ' ' :: (' ' :: ((penFull ++ R))) =
              ((T ++ [' '])) ++ ' ' :: (penFull ++ R) from by simp [List.append_assoc]]
            exact scanTok_act_pen_sep_none _ R (not_mem_app hT2 (by decide)) hR2
          have e4 : replTok actMarker (T ++ ' ' :: (' ' :: ((penFull ++ R)))) =
              T ++ ' ' :: (' ' :: ((penFull ++ R))) :=
            replTok_of_scan_none _ _ e3
          have e5 : findReason (T ++ ' ' :: (' ' :: ((penFull ++ R)))) =
              some ((T ++ [' ']), R) := by
            rw [show T ++ ' ' :: (' ' :: ((penFull ++ R))) =
              (T ++ [' ']) ++ ' ' :: (penFull ++ R) from by simp [List.append_assoc]]
            exact findReason_sep _ R (not_mem_app hT3 (by decide)) hRterm
          simp only [parseMeta, e0, e1, e2, e3, e4, e5, Option.some_bind,
            Option.none_bind, jsNonnegInt_natDigits]
          rw [hRtrim]
          rw [show (T ++ [' ']) = T ++ [' '] from by simp]
          rw [hTRclean [' '] (by decide)]
    | none =>
      cases ao with
      | some m =>
        rcases eq_or_ne R [] with hRe | hRe
        · subst hRe
          rw [if_pos rfl]
          show parseMeta (List.intercalate [' '] [T, actMarker ++ natDigits m, taskIdToken id]) =
            ⟨none, some m, [], T⟩
          rw [intercalate_three]
          have e0 : stripTaskIdToken (T ++ ' ' :: ((actMarker ++ natDigits m) ++ ' ' :: (taskIdToken id))) =
              T ++ ' ' :: ((actMarker ++ natDigits m)) := by
            rw [show T ++ ' ' :: ((actMarker ++ natDigits m) ++ ' ' :: (taskIdToken id)) =
              (T ++ ' ' :: ((actMarker ++ natDigits m))) ++ ' ' :: taskIdToken id from by
                simp [List.append_assoc]]
            refine stripTaskIdToken_built id hhex h6 h32 _ ?_ ?_ ?_
            · exact (not_mem_app hT5 (not_mem_cons (by decide) (hA5 m)))
            · exact hTheadApp _
            · intro w hw
              rw [show T ++ ' ' :: ((actMarker ++ natDigits m)) =
                (T ++ [' ']) ++ (actMarker ++ natDigits m) from by
                  simp [List.append_assoc]] at hw
              rw [List.getLast?_append_of_ne_nil _ (by simp [actMarker, str])] at hw
              exact hAlast m w hw
          have e1 : scanTok estMarker (T ++ ' ' :: ((actMarker ++ natDigits m))) = none :=
            scanTok_est_none _ (not_mem_app hT1 (not_mem_cons (by decide) (hA1 m)))
          have e2 : replTok estMarker (T ++ ' ' :: ((actMarker ++ natDigits m))) =
              T ++ ' ' :: ((actMarker ++ natDigits m)) :=
            replTok_est_none _ (not_mem_app hT1 (not_mem_cons (by decide) (hA1 m)))
          have e3 : scanTok actMarker (T ++ ' ' :: ((actMarker ++ natDigits m))) =
              some (natDigits m) := by
            rw [show T ++ ' ' :: ((actMarker ++ natDigits m)) =
              T ++ ' ' :: (actMarker ++ (natDigits m ++ ([]))) from by simp [List.append_assoc]]
            exact scanTok_act_sep _ _ _ (natDigits_ne_nil m)
              (natDigits_nonws m) (Or.inl rfl) hT2
          have e4 : replTok actMarker (T ++ ' ' :: ((actMarker ++ natDigits m))) =
              T ++ [' '] := by
            rw [show T ++ ' ' :: ((actMarker ++ natDigits m)) =
              T ++ ' ' :: (actMarker ++ (natDigits m ++ ([]))) from by simp [List.append_assoc]]
            exact replTok_act_sep _ _ _ (natDigits_ne_nil m)
              (natDigits_nonws m) (Or.inl rfl) (by simp) hT2
          have e5 : findReason (T ++ [' ']) = none :=
            findReason_none _ (not_mem_app hT3 (by decide))
          simp only [parseMeta, e0, e1, e2, e3, e4, e5, Option.some_bind,
            Option.none_bind, jsNonnegInt_natDigits]
          rw [show T ++ [' '] = T ++ [' '] from by simp]
          rw [hTcleanW [' '] (by decide)]
        · rw [if_neg hRe]
          show parseMeta (List.intercalate [' '] [T, actMarker ++ natDigits m, penFull ++ R, taskIdToken id]) =
            ⟨none, some m, R, T⟩
          rw [intercalate_four]
          have e0 : stripTaskIdToken (T ++ ' ' :: ((actMarker ++ natDigits m) ++ ' ' :: ((penFull ++ R) ++ ' ' :: (taskIdToken id)))) =
              T ++ ' ' :: ((actMarker ++ natDigits m) ++ ' ' :: ((penFull ++ R))) := by
            rw [show T ++ ' ' :: ((actMarker ++ natDigits m) ++ ' ' :: ((penFull ++ R) ++ ' ' :: (taskIdToken id))) =
              ((T ++ ' ' :: ((actMarker ++ natDigits m))) ++ ' ' :: (penFull ++ R)) ++ ' ' :: taskIdToken id from by
                simp [List.append_assoc]]
            rw [show T ++ ' ' :: ((actMarker ++ natDigits m) ++ ' ' :: ((penFull ++ R))) =
              (T ++ ' ' :: ((actMarker ++ natDigits m))) ++ ' ' :: (penFull ++ R) from by simp [List.append_assoc]]
            refine stripTaskIdToken_built_pen id hhex h6 h32 _ R ?_ hRleg ?_ hRe hRlast
            · exact (not_mem_app hT5 (not_mem_cons (by decide) (hA5 m)))
            · intro w hw
              rw [List.append_assoc] at hw
              exact hTheadApp _ w hw
          have e1 : scanTok estMarker (T ++ ' ' :: ((actMarker ++ natDigits m) ++ ' ' :: ((penFull ++ R)))) = none := by
            rw [show T ++ ' ' :: ((actMarker ++ natDigits m) ++ ' ' :: ((penFull ++ R))) =
              (T ++ ' ' :: ((actMarker ++ natDigits m))) ++ ' ' :: (penFull ++ R) from by simp [List.append_assoc]]
            exact scanTok_est_pen_sep_none _ R (not_mem_app hT1 (not_mem_cons (by decide) (hA1 m))) hR1
          have e2 : replTok estMarker (T ++ ' ' :: ((actMarker ++ natDigits m) ++ ' ' :: ((penFull ++ R)))) =
              T ++ ' ' :: ((actMarker ++ natDigits m) ++ ' ' :: ((penFull ++ R))) :=
            replTok_of_scan_none _ _ e1
          have e3 : scanTok actMarker (T ++ ' ' :: ((actMarker ++ natDigits m) ++ ' ' :: ((penFull ++ R)))) =
              some (natDigits m) := by
            rw [show T ++ ' ' :: ((actMarker ++ natDigits m) ++ ' ' :: ((penFull ++ R))) =
              T ++ ' ' :: (actMarker ++ (natDigits m ++ (' ' :: ((penFull ++ R))))) from by simp [List.append_assoc]]
            exact scanTok_act_sep _ _ _ (natDigits_ne_nil m)
              (natDigits_nonws m) (Or.inr ⟨_, rfl⟩) hT2
          have e4 : replTok actMarker (T ++ ' ' :: ((actMarker ++ natDigits m) ++ ' ' :: ((penFull ++ R)))) =
              T ++ ' ' :: (' ' :: ((penFull ++ R))) := by
            rw [show T ++ ' ' :: ((actMarker ++ natDigits m) ++ ' ' :: ((penFull ++ R))) =
              T ++ ' ' :: (actMarker ++ (natDigits m ++ (' ' :: ((penFull ++ R))))) from by simp [List.append_assoc]]
            exact replTok_act_sep2 _ _ _ (natDigits_ne_nil m)
              (natDigits_nonws m) (Or.inr ⟨_, rfl⟩) (scanTokAux_act_cons_pen_none R hR2) hT2
          have e5 : findReason (T ++ ' ' :: (' ' :: ((penFull ++ R)))) =
              some ((T ++ [' ']), R) := by
            rw [show T ++ ' ' :: (' ' :: ((penFull ++ R))) =
              (T ++ [' ']) ++ ' ' :: (penFull ++ R) from by simp [List.append_assoc]]
            exact findReason_sep _ R (not_mem_app hT3 (by decide)) hRterm
          simp only [parseMeta, e0, e1, e2, e3, e4, e5, Option.some_bind,
            Option.none_bind, jsNonnegInt_natDigits]
          rw [hRtrim]
          rw [show (T ++ [' ']) = T ++ [' '] from by simp]
          rw [hTRclean [' '] (by decide)]
      | none =>
        rcases eq_or_ne R [] with hRe | hRe
        · subst hRe
          rw [if_pos rfl]
          show parseMeta (List.intercalate [' '] [T, taskIdToken id]) =
            ⟨none, none, [], T⟩
          rw [intercalate_two]
          have e0 : stripTaskIdToken (T ++ ' ' :: (taskIdToken id)) =
              T := by
            rw [show T ++ ' ' :: (taskIdToken id) =
              (T) ++ ' ' :: taskIdToken id from by
                simp [List.append_assoc]]
            refine stripTaskIdToken_built id hhex h6 h32 _ ?_ ?_ ?_
            · exact hT5
            · exact hThead
            · exact hTlast
          have e1 : scanTok estMarker (T) = none :=
            scanTok_est_none _ hT1
          have e2 : replTok estMarker (T) =
              T :=
            replTok_est_none _ hT1
          have e3 : scanTok actMarker (T) = none :=
            scanTok_act_none _ hT2
          have e4 : replTok actMarker (T) =
              T :=
            replTok_act_none _ hT2
          have e5 : findReason (T) = none :=
            findReason_none _ hT3
          simp only [parseMeta, e0, e1, e2, e3, e4, e5, Option.some_bind,
            Option.none_bind, jsNonnegInt_natDigits]
          rw [hTclean]
        · rw [if_neg hRe]
          show parseMeta (List.intercalate [' '] [T, penFull ++ R, taskIdToken id]) =
            ⟨none, none, R, T⟩
          rw [intercalate_three]
          have e0 : stripTaskIdToken (T ++ ' ' :: ((penFull ++ R) ++ ' ' :: (taskIdToken id))) =
              T ++ ' ' :: ((penFull ++ R)) := by
            rw [show T ++ ' ' :: ((penFull ++ R) ++ ' ' :: (taskIdToken id)) =
              ((T) ++ ' ' :: (penFull ++ R)) ++ ' ' :: taskIdToken id from by
                simp [List.append_assoc]]
            rw [show T ++ ' ' :: ((penFull ++ R)) =
              (T) ++ ' ' :: (penFull ++ R) from by simp [List.append_assoc]]
            refine stripTaskIdToken_built_pen id hhex h6 h32 _ R ?_ hRleg ?_ hRe hRlast
            · exact hT5
            · exact hTheadApp _
          have e1 : scanTok estMarker (T ++ ' ' :: ((penFull ++ R))) = none := by
            rw [show T ++ ' ' :: ((penFull ++ R)) =
              (T) ++ ' ' :: (penFull ++ R) from by simp [List.append_assoc]]
            exact scanTok_est_pen_sep_none _ R hT1 hR1
          have e2 : replTok estMarker (T ++ ' ' :: ((penFull ++ R))) =
              T ++ ' ' :: ((penFull ++ R)) :=
            replTok_of_scan_none _ _ e1
          have e3 : scanTok actMarker (T ++ ' ' :: ((penFull ++ R))) = none := by
            rw [show T ++ ' ' :: ((penFull ++ R)) =
              (T) ++ ' ' :: (penFull ++ R) from by simp [List.append_assoc]]
            exact scanTok_act_pen_sep_none _ R hT2 hR2
          have e4 : replTok actMarker (T ++ ' ' :: ((penFull ++ R))) =
              T ++ ' ' :: ((penFull ++ R)) :=
            replTok_of_scan_none _ _ e3
          have e5 : findReason (T ++ ' ' :: ((penFull ++ R))) =
              some (T, R) := by
            rw [show T ++ ' ' :: ((penFull ++ R)) =
              T ++ ' ' :: (penFull ++ R) from by simp [List.append_assoc]]
            exact findReason_sep _ R hT3 hRterm
          simp only [parseMeta, e0, e1, e2, e3, e4, e5, Option.some_bind,
            Option.none_bind, jsNonnegInt_natDigits]
          rw [hRtrim]
          rw [hTtrim, hTclean]
theorem buildTaskLine_literal (done : Bool) (text : Str) (meta : TaskMeta)
    (id : Str) :
    buildTaskLine done text meta id =
      '-' :: ' ' :: '[' :: (if done then 'x' else ' ') :: ']' :: ' ' ::
        List.intercalate [' ']
          (((if (parseMeta text).cleanedText = [] then []
              else [(parseMeta text).cleanedText])
            ++ (match meta.estMin with
                | some n => [estMarker ++ natDigits n]
                | none => [])
            ++ (match meta.actMin with
                | some n => [actMarker ++ natDigits n]
                | none => [])
            ++ (if trimJS meta.reason = [] then []
                else [penFull ++ trimJS meta.reason]))
            ++ [taskIdToken id]) := by
  simp only [buildTaskLine]
  rw [show [str "- [" ++ [if done then 'x' else ' '] ++ [']']]
        ++ (if (parseMeta text).cleanedText = [] then []
            else [(parseMeta text).cleanedText])
        ++ (match meta.estMin with
            | some n => [estMarker ++ natDigits n]
            | none => [])
        ++ (match meta.actMin with
            | some n => [actMarker ++ natDigits n]
            | none => [])
        ++ (if trimJS meta.reason = [] then []
            else [penFull ++ trimJS meta.reason])
        ++ [taskIdToken id] =
      (str "- [" ++ [if done then 'x' else ' '] ++ [']'])
        :: ((if (parseMeta text).cleanedText = [] then []
            else [(parseMeta text).cleanedText])
          ++ (match meta.estMin with
              | some n => [estMarker ++ natDigits n]
              | none => [])
          ++ (match meta.actMin with
              | some n => [actMarker ++ natDigits n]
              | none => [])
          ++ (if trimJS meta.reason = [] then []
              else [penFull ++ trimJS meta.reason])
          ++ [taskIdToken id]) by simp]
  rw [intercalate_cons_ne _ _ (by simp)]
  cases done <;> simp [str, List.append_assoc]

theorem not_mem_trimCollapse (x : Str) (c : Char) (hc : c = ' ' → False)
    (hx : c ∉ x) : c ∉ trimJS (collapseWS x) := fun h =>
  (mem_collapseGo false x c (mem_trimJS _ c h)).elim hx hc

/-- C1 (counterexample): the round-trip is not exact for every valid tuple
even when the display text is free of reserved tokens. The serializer runs
the reason through `.trim()`, so a reason with leading whitespace reparses
to a different string; and the global est-token replacement of the parser
extracts and deletes a whitespace-delimited `⏳est:` token that the reason
itself contains, so such a reason reparses with a changed estimate and a
mangled reason text. -/
theorem buildTaskLine_roundtrip_reason_cex :
    (∃ tsk,
      parseTasks (fun _ => str "cafe0000")
        (buildTaskLine false (str "t") ⟨none, none, str " r"⟩
          (str "ab12cd34")) = [tsk] ∧
      tsk.reason ≠ str " r") ∧
    (∃ tsk,
      parseTasks (fun _ => str "cafe0000")
        (buildTaskLine false (str "t") ⟨none, none, str "x ⏳est:9 y"⟩
          (str "ab12cd34")) = [tsk] ∧
      tsk.estMin ≠ none ∧ tsk.reason ≠ str "x ⏳est:9 y") := by
  refine ⟨⟨⟨str "ab12cd34", 0, str "t", false, true, none, none, str "r"⟩,
    rfl, by decide⟩,
    ⟨⟨str "ab12cd34", 0, str "t", false, true, some 9, none, str "x  y"⟩,
    rfl, by decide, by decide⟩⟩

set_option maxHeartbeats 2000000 in
/-- C1 (amended): round-trip law of the task-line codec. For every done
flag, display text containing none of the marker characters `⏳`, `⌛`,
`✍` nor `<` nor `\x7b`, metadata whose est/act fields are absent or
natural numbers and whose reason contains no line terminator, is stable
under trimming, contains no whitespace-delimited est or act token of its
own (the source's scanners fail on it) and does not end in a legacy id
token, and every 6-to-32-character hexadecimal id, parsing the single
line produced by `buildTaskLine` yields exactly one task carrying the
given id, the requested done flag, the whitespace-normalized display
text, and exactly the input estMin, actMin, and reason. A bare marker
character inside the reason is harmless and is not excluded. -/
theorem buildTaskLine_roundtrip (done : Bool) (text : Str) (meta : TaskMeta)
    (id : Str) (fresh : Nat → Str)
    (hhex : id.all (fun c => hexChar c) = true)
    (h6 : 6 ≤ id.length) (h32 : id.length ≤ 32)
    (ht1 : '⏳' ∉ text) (ht2 : '⌛' ∉ text) (ht3 : '✍' ∉ text)
    (ht4 : '<' ∉ text) (ht5 : '\x7b' ∉ text)
    (hr1 : scanTok estMarker meta.reason = none)
    (hr2 : scanTok actMarker meta.reason = none)
    (hr5 : findLegacyId meta.reason = none)
    (hreason : noTerm meta.reason)
    (hrtrim : trimJS meta.reason = meta.reason) :
    ∃ tsk, parseTasks fresh (buildTaskLine done text meta id) = [tsk] ∧
      tsk.id = id ∧ tsk.hasId = true ∧ tsk.done = done ∧
      tsk.lineIndex = 0 ∧
      tsk.text = trimJS (collapseWS text) ∧
      tsk.estMin = meta.estMin ∧ tsk.actMin = meta.actMin ∧
      tsk.reason = meta.reason := by
  obtain ⟨mid, hbody, hmid⟩ := buildTaskLine_structure done text meta id hreason
  obtain ⟨Z, hZ, hhead, hnt⟩ := intercalate_mid_tok mid (taskIdToken id)
    (tok_head_not_ws id) (noTerm_tok id hhex) hmid
  cases hR : Z ++ taskIdToken id with
  | nil => exact absurd hR (by simp [taskIdToken_cons])
  | cons r R' =>
    have hrw : jsWS r = false := hhead r (by rw [hR]; rfl)
    have hnt' : noTerm (r :: R') := by rw [← hR]; exact hnt
    have hline : buildTaskLine done text meta id =
        '-' :: ' ' :: '[' :: (if done then 'x' else ' ') :: ']' :: ' ' ::
          r :: R' := by
      rw [hbody, hZ, hR]
    have hmatch : matchTaskLine (buildTaskLine done text meta id) =
        some ((if done then 'x' else ' '), r :: R') := by
      rw [hline]
      exact matchTaskLine_build _ (by cases done <;> simp) r R' hrw hnt'
    have htrim : trimJS (r :: R') = r :: R' :=
      trimJS_self (r :: R') (cons_head_ws r R' hrw)
        (getLast_head_ws Z id r R' hR)
    have hex2 : extractTaskId (trimJS (r :: R')) = some id := by
      rw [htrim, ← hR]
      unfold extractTaskId
      rw [findHtmlId_junk_tok id hhex h6 h32 Z]
    have hcan : hasCanonicalTaskId (trimJS (r :: R')) = true := by
      rw [htrim, ← hR]
      unfold hasCanonicalTaskId
      rw [findHtmlId_junk_tok id hhex h6 h32 Z]
      rfl
    have hnl : '\n' ∉ buildTaskLine done text meta id := by
      rw [hline]
      exact no_nl_taskline _ r R' (by cases done <;> simp) hnt'
    have h2 := hline.symm.trans (buildTaskLine_literal done text meta id)
    injection h2 with h h2
    injection h2 with h h2
    injection h2 with h h2
    injection h2 with h h2
    injection h2 with h h2
    injection h2 with h h2
    have hpm : parseMeta (trimJS (r :: R')) =
        ⟨meta.estMin, meta.actMin, meta.reason, trimJS (collapseWS text)⟩ := by
      rw [htrim, h2, parseMeta_token_free text ht1 ht2 ht3 ht4 ht5, hrtrim]
      exact parseMeta_built (trimJS (collapseWS text)) meta.reason
        meta.estMin meta.actMin id hhex h6 h32
        (not_mem_trimCollapse text '⏳' (by decide) ht1)
        (not_mem_trimCollapse text '⌛' (by decide) ht2)
        (not_mem_trimCollapse text '✍' (by decide) ht3)
        (not_mem_trimCollapse text '\x7b' (by decide) ht5)
        (trimCollapse_trim_stable text)
        (trimCollapse_collapse_stable text)
        hr1 hr2 hr5 hreason hrtrim
    refine ⟨⟨id, 0, (parseMeta (trimJS (r :: R'))).cleanedText, done, true,
      (parseMeta (trimJS (r :: R'))).estMin,
      (parseMeta (trimJS (r :: R'))).actMin,
      (parseMeta (trimJS (r :: R'))).reason⟩,
      ?_, rfl, rfl, rfl, rfl, ?_, ?_, ?_, ?_⟩
    · unfold parseTasks
      rw [splitLines_single _ hnl]
      simp only [parseTasksAux, hmatch, hex2, hcan]
      cases done <;> simp
    · show (parseMeta (trimJS (r :: R'))).cleanedText = trimJS (collapseWS text)
      rw [hpm]
    · show (parseMeta (trimJS (r :: R'))).estMin = meta.estMin
      rw [hpm]
    · show (parseMeta (trimJS (r :: R'))).actMin = meta.actMin
      rw [hpm]
    · show (parseMeta (trimJS (r :: R'))).reason = meta.reason
      rw [hpm]

theorem buildTaskLine_roundtrip_witness :
    ∃ tsk,
      parseTasks (fun _ => str "cafe0000")
        (buildTaskLine true (str "Write intro")
          ⟨some 30, some 45, str "he wrote ✍ fast"⟩ (str "ab12cd34")) =
        [tsk] ∧
      tsk.id = str "ab12cd34" ∧ tsk.hasId = true ∧ tsk.done = true ∧
      tsk.lineIndex = 0 ∧
      tsk.text = trimJS (collapseWS (str "Write intro")) ∧
      tsk.estMin = some 30 ∧ tsk.actMin = some 45 ∧
      tsk.reason = str "he wrote ✍ fast" :=
  buildTaskLine_roundtrip true (str "Write intro")
    ⟨some 30, some 45, str "he wrote ✍ fast"⟩ (str "ab12cd34")
    (fun _ => str "cafe0000")
    (by decide) (by decide) (by decide)
    (by decide) (by decide) (by decide) (by decide) (by decide)
    (by decide) (by decide) (by decide)
    (by decide : ∀ c ∈ (⟨some 30, some 45,
      str "he wrote ✍ fast"⟩ : TaskMeta).reason, lineTerm c = false)
    (by decide)
end Planner
